import Mathlib

/-!
Verification development for the rich-text core of `pixi-text-mesh-pro`.

The TypeScript sources are shallowly embedded: JavaScript strings become
`List Char`, JavaScript numbers become `ℚ` (with `Option ℚ` where the code
relies on `NaN` as a sentinel), JavaScript 32-bit integer colors become `Int`,
and the mutable parser / layout state becomes explicit state records threaded
through step functions.  `while` loops over a string cursor become fuelled
recursions, where the fuel is the string length (each iteration advances the
cursor by at least one, so that fuel is always sufficient).
-/

set_option maxRecDepth 100000
set_option maxHeartbeats 1600000

/- The Batteries `Rat` arithmetic operations are `@[irreducible]`, which
blocks `decide` on concrete rational computations at elaboration time (the
kernel itself reduces them fine).  Restore the default reducibility so the
embedded JavaScript-number computations evaluate. -/
set_option allowUnsafeReducibility true
attribute [semireducible] Rat.mul Rat.add Rat.sub Rat.inv

namespace PTMP

/-! ## JavaScript primitive helpers -/

/-- Two's-complement wrap of a JS number to a signed 32-bit integer
(`x | 0` / the implicit `ToInt32` of the bitwise operators). -/
def toInt32 (a : Int) : Int :=
  (a + 2 ^ 31) % 2 ^ 32 - 2 ^ 31

/-- JS `x >> n` (arithmetic shift right on the 32-bit representation). -/
def jsShr (a : Int) (n : Nat) : Int :=
  Int.fdiv (toInt32 a) (2 ^ n)

/-- JS `x & 0xff` on the 32-bit representation (always in `[0, 255]`). -/
def jsAnd255 (a : Int) : Int :=
  (toInt32 a).emod 256

/-- JS `Math.round`: round half toward positive infinity. -/
def jsRound (x : ℚ) : Int :=
  ⌊x + 1 / 2⌋

/-- The characters matched by the JS regexp class `\s`
(White_Space plus BOM; this is what `/\s/.test(ch)` checks). -/
def jsIsSpace (c : Char) : Bool :=
  decide (c = ' ' ∨ c = '\t' ∨ c = '\n' ∨ c = '\r' ∨ c = '\x0b' ∨ c = '\x0c' ∨
    c = ' ' ∨ c = ' ' ∨
    (' ' ≤ c ∧ c ≤ ' ') ∨
    c = ' ' ∨ c = ' ' ∨ c = ' ' ∨ c = ' ' ∨
    c = '　' ∨ c = '﻿')

/-- ASCII decimal digit test. -/
def isDigitChar (c : Char) : Bool := decide ('0' ≤ c ∧ c ≤ '9')

/-- ASCII hexadecimal digit test (`[0-9a-fA-F]`). -/
def isHexChar (c : Char) : Bool :=
  isDigitChar c || decide (('a' ≤ c ∧ c ≤ 'f') ∨ ('A' ≤ c ∧ c ≤ 'F'))

/-- Value of one hexadecimal digit. -/
def hexVal (c : Char) : Nat :=
  if isDigitChar c then c.toNat - '0'.toNat
  else if decide ('a' ≤ c ∧ c ≤ 'f') then c.toNat - 'a'.toNat + 10
  else if decide ('A' ≤ c ∧ c ≤ 'F') then c.toNat - 'A'.toNat + 10
  else 0

/-- JS `String.prototype.toLowerCase`, per character (ASCII range;
the tag names this parser compares are ASCII). -/
def lcList (s : List Char) : List Char := s.map Char.toLower

/-- JS `String.prototype.trim`: strip leading and trailing whitespace. -/
def jsTrim (s : List Char) : List Char :=
  ((s.dropWhile jsIsSpace).reverse.dropWhile jsIsSpace).reverse

/-- JS `str.indexOf(ch, from)`: first index `≥ from` holding `ch`, as
`none` for `-1`. -/
def jsIndexOfFrom (s : List Char) (ch : Char) (start : Nat) : Option Nat :=
  (List.range s.length).find? (fun j => decide (start ≤ j) && (s.getD j ' ' == ch))

/-- JS `str.substring(a, b)` with `a ≤ b` (all call sites guarantee this):
characters at indices `[a, b)`, clamped to the string. -/
def jsSubstring (s : List Char) (a b : Nat) : List Char :=
  (s.drop a).take (b - a)

/-- Leading run of a list satisfying `p`, together with the rest. -/
def spanList (p : Char → Bool) (s : List Char) : List Char × List Char :=
  (s.takeWhile p, s.dropWhile p)

/-- Digits folded as a rational number. -/
def digitsToQ (l : List Char) : ℚ :=
  l.foldl (fun acc c => acc * 10 + ((c.toNat - '0'.toNat : Nat) : ℚ)) 0

/-- Digits folded as an integer. -/
def digitsToInt (l : List Char) : Int :=
  l.foldl (fun acc c => acc * 10 + ((c.toNat - '0'.toNat : Nat) : Int)) 0

/-- Exponent part of a JS float after `e`/`E`; `none` when no digits follow
(then the exponent marker is not part of the number). -/
def jsParseExpo (s : List Char) : Option Int :=
  let (esign, s1) : Int × List Char :=
    match s with
    | '-' :: rest => (-1, rest)
    | '+' :: rest => (1, rest)
    | _ => (1, s)
  let (digs, _) := spanList isDigitChar s1
  if digs.isEmpty then none
  else some (esign * digitsToInt digs)

/-- JS `parseFloat`: optional sign, decimal digits with an optional
fractional part and exponent; `none` models `NaN` (no digits at all).
(`Infinity` literals are not modelled; no input in this development uses
them.) -/
def jsParseFloat (s0 : List Char) : Option ℚ :=
  let s := s0.dropWhile jsIsSpace
  let (sign, s1) : ℚ × List Char :=
    match s with
    | '-' :: rest => (-1, rest)
    | '+' :: rest => (1, rest)
    | _ => (1, s)
  let (intPart, s2) := spanList isDigitChar s1
  let (fracPart, s3) : List Char × List Char :=
    match s2 with
    | '.' :: rest => spanList isDigitChar rest
    | _ => ([], s2)
  if intPart.isEmpty ∧ fracPart.isEmpty then none
  else
    let mantissa : ℚ :=
      digitsToQ intPart + digitsToQ fracPart / (10 : ℚ) ^ fracPart.length
    let expo : Option Int :=
      match s3 with
      | 'e' :: rest => jsParseExpo rest
      | 'E' :: rest => jsParseExpo rest
      | _ => some 0
    match expo with
    | some e => some (sign * mantissa * (10 : ℚ) ^ e)
    | none => some (sign * mantissa)

/-- JS `parseInt(s, 16)`: skip whitespace, optional sign, optional `0x`/`0X`,
then a maximal run of hex digits; `none` models `NaN`. -/
def jsParseIntHex (s0 : List Char) : Option Int :=
  let s := s0.dropWhile jsIsSpace
  let (sign, s1) : Int × List Char :=
    match s with
    | '-' :: rest => (-1, rest)
    | '+' :: rest => (1, rest)
    | _ => (1, s)
  let s2 : List Char :=
    match s1 with
    | '0' :: 'x' :: rest => rest
    | '0' :: 'X' :: rest => rest
    | _ => s1
  let (digs, _) := spanList isHexChar s2
  if digs.isEmpty then none
  else some (sign * (digs.foldl (fun acc c => acc * 16 + (hexVal c : Int)) (0 : Int)))

/-! ## `TagStack` (src/parser/TagStack.ts)

A push/pop stack for one style property: `push` saves the current value and
installs a new one; `pop` restores the saved value (a pop on an empty stack
is a no-op that returns the unchanged current value); `reset` clears the
stack and installs a base value. -/

structure TagStack (α : Type) where
  stack : List α
  current : α
deriving DecidableEq

namespace TagStack

/-- `new TagStack(initial)`. -/
def mk0 {α : Type} (initial : α) : TagStack α := ⟨[], initial⟩

/-- `push(value)`: save the current value, install `value`.  JS
`Array.prototype.push` appends at the back; the embedding keeps the top of
the stack at the head of the list. -/
def push {α : Type} (s : TagStack α) (value : α) : TagStack α :=
  { stack := s.current :: s.stack, current := value }

/-- `pop()`: restore the most recently saved value if any, and return the
(new) current value. -/
def pop {α : Type} (s : TagStack α) : α × TagStack α :=
  match s.stack with
  | [] => (s.current, s)
  | x :: rest => (x, { stack := rest, current := x })

/-- `pop` keeping only the state. -/
def popS {α : Type} (s : TagStack α) : TagStack α := (s.pop).2

/-- `pop` keeping only the returned value. -/
def popV {α : Type} (s : TagStack α) : α := (s.pop).1

/-- `reset(value)`: empty the stack and set the current value. -/
def reset {α : Type} (_s : TagStack α) (value : α) : TagStack α :=
  ⟨[], value⟩

end TagStack

/-- One open/close operation applied to a single attribute's stack: a tag
open pushes the attribute value carried by the tag, a tag close pops. -/
inductive StackOp (α : Type) where
  | push (value : α)
  | pop

/-- Run a sequence of open/close operations against a `TagStack`. -/
def runOps {α : Type} (s : TagStack α) : List (StackOp α) → TagStack α
  | [] => s
  | StackOp.push v :: rest => runOps (s.push v) rest
  | StackOp.pop :: rest => runOps s.popS rest

/-- Balanced open/close sequences: empty, or an open, a balanced body, the
matching close, and a balanced remainder. -/
inductive Balanced {α : Type} : List (StackOp α) → Prop where
  | nil : Balanced []
  | node (v : α) {l₁ l₂ : List (StackOp α)} :
      Balanced l₁ → Balanced l₂ →
      Balanced (StackOp.push v :: l₁ ++ StackOp.pop :: l₂)

/-! ## String-scanning helpers used by the embedded regex matchers -/

/-- A Lean string literal as a character list. -/
def strL (s : String) : List Char := s.data

/-- JS `str.endsWith(t)`. -/
def endsWithL (s t : List Char) : Bool := t.isSuffixOf s

/-- JS `str.startsWith(t)`. -/
def startsWithL (s t : List Char) : Bool := t.isPrefixOf s

/-- First index at which `pat` occurs as a contiguous substring of `s`
(JS `str.indexOf(pat)`), or `none`. -/
def jsIndexOfSub (s pat : List Char) : Option Nat :=
  (List.range (s.length + 1)).find? (fun j => startsWithL (s.drop j) pat)

/-- Case-insensitive literal at position `j`; returns the position after it. -/
def matchLitCI (lit : List Char) (s : List Char) (j : Nat) : Option Nat :=
  if lcList (jsSubstring s j (j + lit.length)) = lcList lit ∧ j + lit.length ≤ s.length
  then some (j + lit.length) else none

/-- Skip a (possibly empty) run of regex whitespace starting at `j`. -/
def skipWS (s : List Char) (j : Nat) : Nat :=
  j + ((s.drop j).takeWhile jsIsSpace).length

/-- Optionally consume one character satisfying `p` (regex `X?`). -/
def optChar (p : Char → Bool) (s : List Char) (j : Nat) : Nat :=
  match s.get? j with
  | some c => if p c then j + 1 else j
  | none => j

/-- Greedy run of characters satisfying `p` starting at `j` (regex `X*`). -/
def takeClass (p : Char → Bool) (s : List Char) (j : Nat) : List Char × Nat :=
  let run := (s.drop j).takeWhile p
  (run, j + run.length)

/-- Expect exactly the character `c` at `j`. -/
def expectChar (c : Char) (s : List Char) (j : Nat) : Option Nat :=
  match s.get? j with
  | some c2 => if c2 = c then some (j + 1) else none
  | none => none

/-- Try a positional matcher at every start index, leftmost match first
(the behaviour of `String.prototype.match` for the patterns used here). -/
def scanPositions {β : Type} (f : Nat → Option β) (s : List Char) : Option β :=
  (List.range (s.length + 1)).findSome? f

/-- Character class `[^\s,>"']` (capture class of the `color=` / `angle=`
attribute regexes). -/
def clsAttrVal (c : Char) : Bool :=
  !(jsIsSpace c || c = ',' || c = '>' || c = '"' || c = '\x27')

/-- Character class `[^"'>\s]` (capture class of `href=` / sprite `name=`). -/
def clsNameVal (c : Char) : Bool :=
  !(c = '"' || c = '\x27' || c = '>' || jsIsSpace c)

/-- Character class `[^"'>]` (capture class of the `padding=` regex). -/
def clsPaddingVal (c : Char) : Bool :=
  !(c = '"' || c = '\x27' || c = '>')

/-- Quote character class `["']`. -/
def clsQuote (c : Char) : Bool := c = '"' || c = '\x27'

/-- `/key\s*=\s*(CLASS+)/i` applied to `s`: the first capture, or `none`.
Mirrors `parseColorAttribute` / `parseAngleAttribute` (with `clsAttrVal`)
and the `href=` / sprite-`name=` matchers (with their classes and an
optional leading quote). -/
def matchKeyEqCapture (key : List Char) (quoteOpt : Bool) (cls : Char → Bool)
    (s : List Char) : Option (Nat × Nat × List Char) :=
  scanPositions (fun j => do
    let j1 ← matchLitCI key s j
    let j2 := skipWS s j1
    let j3 ← expectChar '=' s j2
    let j4 := skipWS s j3
    let j5 := if quoteOpt then optChar clsQuote s j4 else j4
    let (cap, j6) := takeClass cls s j5
    if cap.isEmpty then none else some (j, j6 - j, cap)) s

/-! ## colorUtils (src/utils/colorUtils.ts) -/

/-- Named color map — matches Unity TMP named colors. -/
def NAMED_COLORS : List (List Char × Int) :=
  [(strL "black", 0x000000), (strL "white", 0xffffff), (strL "red", 0xff0000),
   (strL "green", 0x00ff00), (strL "blue", 0x0000ff), (strL "yellow", 0xffff00),
   (strL "cyan", 0x00ffff), (strL "magenta", 0xff00ff), (strL "orange", 0xff8000),
   (strL "purple", 0xa020f0), (strL "lightblue", 0xadd8e6),
   (strL "grey", 0x808080), (strL "gray", 0x808080)]

/-- `parseColor`: named colors, `#RRGGBB`, `#RRGGBBAA`, `#RGB`, `#RGBA`,
`0xRRGGBB`; returns a numeric RGB color, `0` when the hex fails to parse
(`parseInt(value, 16) || 0`). -/
def parseColor (value0 : List Char) : Int :=
  let value := lcList (jsTrim value0)
  match NAMED_COLORS.find? (fun p => p.1 == value) with
  | some p => p.2
  | none =>
    let value :=
      if startsWithL value (strL "#") then value.drop 1
      else if startsWithL value (strL "0x") then value.drop 2
      else value
    let value :=
      if value.length = 3 ∨ value.length = 4 then
        -- 3-char `#RGB` → `RRGGBB`; 4-char `#RGBA` → `RRGGBB` (alpha dropped)
        let a := value.getD 0 ' '
        let b := value.getD 1 ' '
        let c := value.getD 2 ' '
        [a, a, b, b, c, c]
      else value
    let value := if value.length = 8 then value.take 6 else value
    (jsParseIntHex value).getD 0

/-- `parseAlpha`: `#XX` hex byte → `0..1`; `1` when the hex fails to parse. -/
def parseAlpha (value0 : List Char) : ℚ :=
  let value := jsTrim value0
  let value := if startsWithL value (strL "#") then value.drop 1 else value
  match jsParseIntHex value with
  | none => 1
  | some byte => (byte : ℚ) / 255

/-! ## unitParser (src/utils/unitParser.ts) -/

/-- `parseUnit`: `"24"`, `"24px"`, `"1.5em"`, `"50%"`.  `none` models a `NaN`
result (possible in the `%`/`em`/`px` branches); the plain branch coerces
`NaN` to `0` (`parseFloat(value) || 0`). -/
def parseUnit (value0 : List Char) (baseFontSize : ℚ) : Option ℚ :=
  let value := jsTrim value0
  if endsWithL value (strL "%") then
    (jsParseFloat value).map (fun f => baseFontSize * (f / 100))
  else if endsWithL value (strL "em") then
    (jsParseFloat value).map (fun f => baseFontSize * f)
  else if endsWithL value (strL "px") then
    jsParseFloat value
  else
    some ((jsParseFloat value).getD 0)

/-! ## hashCode (src/utils/hashCode.ts) -/

/-- FNV-1a hash of a string, kept as a 32-bit unsigned value.  Character
codes are UTF-16 units in JS; for the BMP characters used by tag names this
is the code point. -/
def fnvHash (s : List Char) : Nat :=
  s.foldl (fun h c => ((h ^^^ c.toNat) * 0x01000193) % 4294967296) 0x811c9dc5

/-! ## Style state and parsed character records (src/parser/RichTextData.ts) -/

/-- The style state maintained during parsing.  Alignment and font names are
plain strings in the source (the `align` handler stores the lowercased tag
value without validation), so they stay `List Char` here; the empty list is
the falsy `''`. -/
structure StyleState where
  color : Int
  alpha : ℚ
  fontSize : ℚ
  fontFamily : List Char
  bold : Bool
  italic : Bool
  underline : Bool
  strikethrough : Bool
  markColor : Int
  markPadding : List ℚ
  cspace : ℚ
  mspace : ℚ
  voffset : ℚ
  underlineColor : Int
  strikethroughColor : Int
  italicAngle : ℚ
  isNoBreak : Bool
  isLink : Bool
  linkId : List Char
  align : List Char
  indent : ℚ
  marginLeft : ℚ
  marginRight : ℚ
  lineHeightOverride : ℚ
  isAllCaps : Bool
  isLowercase : Bool
  isSmallCaps : Bool
  isSuperscript : Bool
  isSubscript : Bool
  charScale : ℚ
  rotation : ℚ
  gradientColors : List Int
  widthConstraint : ℚ
  fontWeight : List Char
  lineIndent : ℚ
  material : List Char
deriving DecidableEq

/-- `createDefaultStyleState(fontSize, color, fontFamily)`. -/
def createDefaultStyleState (fontSize : ℚ) (color : Int) (fontFamily : List Char) :
    StyleState where
  color := color
  alpha := 1
  fontSize := fontSize
  fontFamily := fontFamily
  bold := false
  italic := false
  underline := false
  strikethrough := false
  markColor := 0
  markPadding := []
  cspace := 0
  mspace := 0
  voffset := 0
  underlineColor := -1
  strikethroughColor := -1
  italicAngle := 0
  isNoBreak := false
  isLink := false
  linkId := []
  align := []
  indent := 0
  marginLeft := 0
  marginRight := 0
  lineHeightOverride := 0
  isAllCaps := false
  isLowercase := false
  isSmallCaps := false
  isSuperscript := false
  isSubscript := false
  charScale := 1
  rotation := 0
  gradientColors := []
  widthConstraint := 0
  fontWeight := []
  lineIndent := 0
  material := []

/-- One emitted character record.  `extraSpace` and `fixedPosition` use
`Option ℚ` because the source uses `NaN` as the "unset" sentinel for
`fixedPosition` and can propagate `NaN` into `extraSpace`; `none` is
`NaN`, and the initial `extraSpace = 0` is `some 0`. -/
structure ParsedChar where
  char : Char
  charCode : Nat
  originalIndex : Nat
  color : Int
  alpha : ℚ
  fontSize : ℚ
  fontFamily : List Char
  bold : Bool
  italic : Bool
  underline : Bool
  strikethrough : Bool
  markColor : Int
  markPadding : List ℚ
  cspace : ℚ
  mspace : ℚ
  voffset : ℚ
  underlineColor : Int
  strikethroughColor : Int
  italicAngle : ℚ
  align : List Char
  indent : ℚ
  marginLeft : ℚ
  marginRight : ℚ
  lineHeightOverride : ℚ
  isAllCaps : Bool
  isLowercase : Bool
  isSmallCaps : Bool
  isSuperscript : Bool
  isSubscript : Bool
  charScale : ℚ
  rotation : ℚ
  gradientColors : List Int
  widthConstraint : ℚ
  fontWeight : List Char
  lineIndent : ℚ
  isSprite : Bool
  spriteAsset : List Char
  spriteName : List Char
  spriteIndex : Int
  spriteTint : Int
  isLink : Bool
  linkId : List Char
  isNoBreak : Bool
  isLineBreak : Bool
  extraSpace : Option ℚ
  fixedPosition : Option ℚ
  material : List Char
deriving DecidableEq

/-- `createParsedChar(char, originalIndex, state)`: snapshot of the current
style state (`char.codePointAt(0) ?? 0` is the character's code point for
the single-unit characters this parser emits). -/
def createParsedChar (char : Char) (originalIndex : Nat) (state : StyleState) :
    ParsedChar where
  char := char
  charCode := char.toNat
  originalIndex := originalIndex
  color := state.color
  alpha := state.alpha
  fontSize := state.fontSize
  fontFamily := state.fontFamily
  bold := state.bold
  italic := state.italic
  underline := state.underline
  strikethrough := state.strikethrough
  markColor := state.markColor
  markPadding := state.markPadding
  cspace := state.cspace
  mspace := state.mspace
  voffset := state.voffset
  underlineColor := state.underlineColor
  strikethroughColor := state.strikethroughColor
  italicAngle := state.italicAngle
  align := state.align
  indent := state.indent
  marginLeft := state.marginLeft
  marginRight := state.marginRight
  lineHeightOverride := state.lineHeightOverride
  isAllCaps := state.isAllCaps
  isLowercase := state.isLowercase
  isSmallCaps := state.isSmallCaps
  isSuperscript := state.isSuperscript
  isSubscript := state.isSubscript
  charScale := state.charScale
  rotation := state.rotation
  gradientColors := state.gradientColors
  widthConstraint := state.widthConstraint
  fontWeight := state.fontWeight
  lineIndent := state.lineIndent
  isSprite := false
  spriteAsset := []
  spriteName := []
  spriteIndex := -1
  spriteTint := -1
  isLink := state.isLink
  linkId := state.linkId
  isNoBreak := state.isNoBreak
  isLineBreak := char = '\n'
  extraSpace := some 0
  fixedPosition := none
  material := state.material

instance : Inhabited ParsedChar :=
  ⟨createParsedChar ' ' 0 (createDefaultStyleState 32 0xffffff [])⟩

/-! ## Parser state (the mutable fields of `RichTextParser` plus the local
variables of `parse`) -/

/-- Whole-parser state: one `TagStack` per pushable property (fields of
`RichTextParser`), the closure-captured counters of `registerFormattingTags`
and the closure-captured `fontPushedMaterial` array of `registerFontTags`
(these are created at parser construction and are *not* reset by `parse`),
the threaded `StyleState`, and the local loop variables of `parse`. -/
structure PState where
  colorStack : TagStack Int
  alphaStack : TagStack ℚ
  sizeStack : TagStack ℚ
  boldStack : TagStack Bool
  italicStack : TagStack Bool
  underlineStack : TagStack Bool
  strikethroughStack : TagStack Bool
  markStack : TagStack Int
  cspaceStack : TagStack ℚ
  mspaceStack : TagStack ℚ
  nobrStack : TagStack Bool
  alignStack : TagStack (List Char)
  voffsetStack : TagStack ℚ
  indentStack : TagStack ℚ
  marginStack : TagStack ℚ
  lineHeightStack : TagStack ℚ
  allCapsStack : TagStack Bool
  lowercaseStack : TagStack Bool
  smallCapsStack : TagStack Bool
  superscriptStack : TagStack Bool
  subscriptStack : TagStack Bool
  linkStack : TagStack Bool
  linkIdStack : TagStack (List Char)
  fontStack : TagStack (List Char)
  charScaleStack : TagStack ℚ
  rotationStack : TagStack ℚ
  gradientStack : TagStack (List Int)
  widthStack : TagStack ℚ
  styleNameStack : TagStack (List Char)
  fontWeightStack : TagStack (List Char)
  lineIndentStack : TagStack ℚ
  materialStack : TagStack (List Char)
  boldCount : Int
  italicCount : Int
  underlineCount : Int
  strikethroughCount : Int
  fontPushedMaterial : List Bool
  state : StyleState
  noparse : Bool
  pendingSpace : Option ℚ
  pendingPos : Option ℚ
  i : Nat
  result : List ParsedChar

/-! ## Tag handlers (src/parser/tags/⋆.ts)

Each registered tag contributes an open handler
`PState → List Char → ℚ → PState` (state, tag value, base font size) and a
close handler `PState → PState`.  Where the source would store a float `NaN`
into a numeric style field (only reachable through unparseable numeric
values in `%`/`em`/`px` unit forms or relative sizes), the rational
embedding stores `0`; no claim in this development exercises those inputs. -/

/-- `parseColorAttribute`: `/color\s*=\s*([^\s,>"']+)/i`, `-1` if absent. -/
def parseColorAttribute (value : List Char) : Int :=
  match matchKeyEqCapture (strL "color") false clsAttrVal value with
  | none => -1
  | some (_, _, cap) => parseColor cap

/-- `parseAngleAttribute`: `/angle\s*=\s*([^\s,>"']+)/i`, `0` if absent
(`parseFloat(match[1]) || 0`). -/
def parseAngleAttribute (value : List Char) : ℚ :=
  match matchKeyEqCapture (strL "angle") false clsAttrVal value with
  | none => 0
  | some (_, _, cap) => (jsParseFloat cap).getD 0

/-- `parsePaddingAttribute`: `/padding\s*=\s*"?([^"'>]+)"?/i`, split on `,`,
each part `parseFloat(part.trim()) || 0`; one part is replicated four times,
four parts pass through, anything else yields `[]`. -/
def parsePaddingAttribute (value : List Char) : List ℚ :=
  match matchKeyEqCapture (strL "padding") true clsPaddingVal value with
  | none => []
  | some (_, _, cap) =>
    let parts := (cap.splitOn ',').map (fun s => (jsParseFloat (jsTrim s)).getD 0)
    if parts.length = 1 then
      let p := parts.getD 0 0
      [p, p, p, p]
    else if parts.length = 4 then parts
    else []

/-- The `value.split(/\s+/)[0]` of the `mark` handler: the leading run of
non-whitespace characters (empty when the value starts with whitespace,
matching the empty first field JS produces there). -/
def firstTokenWS (value : List Char) : List Char :=
  value.takeWhile (fun c => !jsIsSpace c)

/-- JS `str.replace('#', '')`: remove the first occurrence only. -/
def removeFirstHash : List Char → List Char
  | [] => []
  | c :: rest => if c = '#' then rest else c :: removeFirstHash rest

/-- `stripQuotes` of FontTags.ts. -/
def stripQuotes (s0 : List Char) : List Char :=
  let s := jsTrim s0
  if (startsWithL s (strL "\"") ∧ endsWithL s (strL "\"")) ∨
      (startsWithL s (strL "\x27") ∧ endsWithL s (strL "\x27")) then
    (s.drop 1).dropLast
  else
    let s := if endsWithL s (strL "\"") ∨ endsWithL s (strL "\x27") then s.dropLast else s
    let s := if startsWithL s (strL "\"") ∨ startsWithL s (strL "\x27") then s.drop 1 else s
    jsTrim s

/-- The `/["']?\s+material\s*=\s*["']?/i` matcher of `parseFontValue`:
returns (match index, match length). -/
def matchMaterialAttr (s : List Char) : Option (Nat × Nat) :=
  scanPositions (fun j => do
    let j1 := optChar clsQuote s j
    let (ws, j2) := takeClass jsIsSpace s j1
    if ws.isEmpty then none else
    let j3 ← matchLitCI (strL "material") s j2
    let j4 := skipWS s j3
    let j5 ← expectChar '=' s j4
    let j6 := skipWS s j5
    let j7 := optChar clsQuote s j6
    some (j, j7 - j)) s

/-- `parseFontValue` of FontTags.ts: font name plus optional material name. -/
def parseFontValue (raw : List Char) : List Char × List Char :=
  match matchMaterialAttr raw with
  | none => (stripQuotes raw, [])
  | some (idx, len) =>
    (stripQuotes (raw.take idx), stripQuotes (raw.drop (idx + len)))

/-- `parseGradientValue`: `"#FF0000,#0000FF"` → the numeric colors. -/
def parseGradientValue (value : List Char) : List Int :=
  (((value.splitOn ',').map jsTrim).filter (fun s => !s.isEmpty)).map parseColor

/-- Result of `parseSpriteTag` (SpriteTags.ts). -/
structure SpriteTagResult where
  atlasName : List Char
  spriteName : List Char
  index : Int
  tint : Int
deriving DecidableEq

/-- JS `str.replace(/^["']|["']$/g, '')`: strip one leading and one
trailing quote character. -/
def stripEdgeQuotes (s : List Char) : List Char :=
  let s := if startsWithL s (strL "\"") ∨ startsWithL s (strL "\x27") then s.drop 1 else s
  if endsWithL s (strL "\"") ∨ endsWithL s (strL "\x27") then s.dropLast else s

/-- The `/tint\s*=\s*["']?#?([0-9a-fA-F]{3,8})/i` matcher: a greedy run of
at least 3 and at most 8 hex digits. -/
def matchTintAttr (s : List Char) : Option (List Char) :=
  scanPositions (fun j => do
    let j1 ← matchLitCI (strL "tint") s j
    let j2 := skipWS s j1
    let j3 ← expectChar '=' s j2
    let j4 := skipWS s j3
    let j5 := optChar clsQuote s j4
    let j6 := optChar (fun c => c = '#') s j5
    let (digs, _) := takeClass isHexChar s j6
    if digs.length < 3 then none else some (digs.take 8)) s

/-- The `/index\s*=\s*["']?(\d+)/i` matcher. -/
def matchIndexAttr (s : List Char) : Option (List Char) :=
  scanPositions (fun j => do
    let j1 ← matchLitCI (strL "index") s j
    let j2 := skipWS s j1
    let j3 ← expectChar '=' s j2
    let j4 := skipWS s j3
    let j5 := optChar clsQuote s j4
    let (digs, _) := takeClass isDigitChar s j5
    if digs.isEmpty then none else some digs) s

/-- `parseSpriteTag(value)` of SpriteTags.ts. -/
def parseSpriteTag (value : List Char) : SpriteTagResult :=
  let trimmed := jsTrim value
  let (atlasName, sprName) : List Char × List Char :=
    match matchKeyEqCapture (strL "name") true clsNameVal trimmed with
    | some (mi, mlen, cap) =>
      -- `trimmed.indexOf(nameMatch[0])`: first occurrence of the full match
      let matchedText := jsSubstring trimmed mi (mi + mlen)
      let nameIdx := (jsIndexOfSub trimmed matchedText).getD mi
      let atlas := if nameIdx > 0 then stripEdgeQuotes (jsTrim (trimmed.take nameIdx)) else []
      (atlas, cap)
    | none =>
      let leading := trimmed.takeWhile (fun c => c ≠ ' ')
      ([], stripEdgeQuotes leading)
  let idx : Int :=
    match matchIndexAttr trimmed with
    | some digs => digitsToInt digs
    | none => -1
  let tint : Int :=
    match matchTintAttr trimmed with
    | some digs => (jsParseIntHex digs).getD 0
    | none => -1
  ⟨atlasName, sprName, idx, tint⟩

/-! ## Registered tag handlers -/

/-- `<color=…>` open. -/
def colorOpen (st : PState) (value : List Char) (_base : ℚ) : PState :=
  let color := parseColor value
  { st with colorStack := st.colorStack.push color,
            state := { st.state with color := color } }

/-- `</color>`. -/
def colorClose (st : PState) : PState :=
  let (v, s) := st.colorStack.pop
  { st with colorStack := s, state := { st.state with color := v } }

/-- `<alpha=#XX>` open. -/
def alphaOpen (st : PState) (value : List Char) (_base : ℚ) : PState :=
  let alpha := parseAlpha value
  { st with alphaStack := st.alphaStack.push alpha,
            state := { st.state with alpha := alpha } }

/-- `</alpha>`. -/
def alphaClose (st : PState) : PState :=
  let (v, s) := st.alphaStack.pop
  { st with alphaStack := s, state := { st.state with alpha := v } }

/-- `<b>` open: counter-based nesting. -/
def boldOpen (st : PState) (_value : List Char) (_base : ℚ) : PState :=
  { st with boldCount := st.boldCount + 1,
            boldStack := st.boldStack.push true,
            state := { st.state with bold := true } }

/-- `</b>`: decrement floored at 0; bold stays on while the counter is > 0. -/
def boldClose (st : PState) : PState :=
  let c := max 0 (st.boldCount - 1)
  { st with boldCount := c,
            boldStack := st.boldStack.popS,
            state := { st.state with bold := decide (c > 0) } }

/-- `<i>` / `<i angle=N>` open. -/
def italicOpen (st : PState) (value : List Char) (_base : ℚ) : PState :=
  let st := { st with italicCount := st.italicCount + 1,
                      italicStack := st.italicStack.push true,
                      state := { st.state with italic := true } }
  if value.isEmpty then st
  else
    let angle := parseAngleAttribute value
    if angle ≠ 0 then { st with state := { st.state with italicAngle := angle } }
    else st

/-- `</i>`. -/
def italicClose (st : PState) : PState :=
  let c := max 0 (st.italicCount - 1)
  let italic := decide (c > 0)
  let st := { st with italicCount := c,
                      italicStack := st.italicStack.popS,
                      state := { st.state with italic := italic } }
  if !italic then { st with state := { st.state with italicAngle := 0 } } else st

/-- `<u>` / `<u color=#hex>` open. -/
def underlineOpen (st : PState) (value : List Char) (_base : ℚ) : PState :=
  let st := { st with underlineCount := st.underlineCount + 1,
                      underlineStack := st.underlineStack.push true,
                      state := { st.state with underline := true } }
  if value.isEmpty then st
  else
    let color := parseColorAttribute value
    if color ≠ -1 then { st with state := { st.state with underlineColor := color } }
    else st

/-- `</u>`. -/
def underlineClose (st : PState) : PState :=
  let c := max 0 (st.underlineCount - 1)
  let ul := decide (c > 0)
  let st := { st with underlineCount := c,
                      underlineStack := st.underlineStack.popS,
                      state := { st.state with underline := ul } }
  if !ul then { st with state := { st.state with underlineColor := -1 } } else st

/-- `<s>` / `<strikethrough>` open (both registrations share this body). -/
def strikeOpen (st : PState) (value : List Char) (_base : ℚ) : PState :=
  let st := { st with strikethroughCount := st.strikethroughCount + 1,
                      strikethroughStack := st.strikethroughStack.push true,
                      state := { st.state with strikethrough := true } }
  if value.isEmpty then st
  else
    let color := parseColorAttribute value
    if color ≠ -1 then { st with state := { st.state with strikethroughColor := color } }
    else st

/-- `</s>` / `</strikethrough>`. -/
def strikeClose (st : PState) : PState :=
  let c := max 0 (st.strikethroughCount - 1)
  let sk := decide (c > 0)
  let st := { st with strikethroughCount := c,
                      strikethroughStack := st.strikethroughStack.popS,
                      state := { st.state with strikethrough := sk } }
  if !sk then { st with state := { st.state with strikethroughColor := -1 } } else st

/-- `<mark=#hex>` / `<mark=#hex padding="L,R,T,B">` open.  An 8-digit hex
value packs the alpha byte above the RGB bits (`((alpha << 24) | rgb) >>> 0`,
written arithmetically for the in-range byte values involved); a `NaN` from
an unparseable hex behaves as `0` downstream and is stored as `0`. -/
def markOpen (st : PState) (value : List Char) (_base : ℚ) : PState :=
  let (color, st) : Int × PState :=
    if !value.isEmpty then
      let colorPart := firstTokenWS value
      let hex := removeFirstHash colorPart
      let c : Int :=
        if hex.length = 8 then
          let rgb := (jsParseIntHex (jsSubstring hex 0 6)).getD 0
          let alpha := (jsParseIntHex (jsSubstring hex 6 8)).getD 0
          (alpha * 16777216 + rgb) % 4294967296
        else (jsParseIntHex hex).getD 0
      let padding := parsePaddingAttribute value
      let st :=
        if padding.length > 0 then
          { st with state := { st.state with markPadding := padding } }
        else st
      (c, st)
    else (0xffff00, st)
  { st with markStack := st.markStack.push color,
            state := { st.state with markColor := color } }

/-- `</mark>`. -/
def markClose (st : PState) : PState :=
  let (v, s) := st.markStack.pop
  { st with markStack := s,
            state := { st.state with markColor := v, markPadding := [] } }

/-- `<size=…>` open: `+N`/`-N` are relative to the current size, everything
else goes through `parseUnit` (whose `NaN` is coerced here as documented). -/
def sizeOpen (st : PState) (value : List Char) (base : ℚ) : PState :=
  let trimmed := jsTrim value
  let size : ℚ :=
    if startsWithL trimmed (strL "+") ∨ startsWithL trimmed (strL "-") then
      st.state.fontSize + (jsParseFloat trimmed).getD 0
    else (parseUnit trimmed base).getD 0
  { st with sizeStack := st.sizeStack.push size,
            state := { st.state with fontSize := size } }

/-- `</size>`. -/
def sizeClose (st : PState) : PState :=
  let (v, s) := st.sizeStack.pop
  { st with sizeStack := s, state := { st.state with fontSize := v } }

/-- `<cspace=N>` open. -/
def cspaceOpen (st : PState) (value : List Char) (base : ℚ) : PState :=
  let spacing := (parseUnit value base).getD 0
  { st with cspaceStack := st.cspaceStack.push spacing,
            state := { st.state with cspace := spacing } }

/-- `</cspace>`. -/
def cspaceClose (st : PState) : PState :=
  let (v, s) := st.cspaceStack.pop
  { st with cspaceStack := s, state := { st.state with cspace := v } }

/-- `<mspace=N>` / `<duospace=N>` open. -/
def mspaceOpen (st : PState) (value : List Char) (base : ℚ) : PState :=
  let width := (parseUnit value base).getD 0
  { st with mspaceStack := st.mspaceStack.push width,
            state := { st.state with mspace := width } }

/-- `</mspace>` / `</duospace>`. -/
def mspaceClose (st : PState) : PState :=
  let (v, s) := st.mspaceStack.pop
  { st with mspaceStack := s, state := { st.state with mspace := v } }

/-- `<nobr>` open. -/
def nobrOpen (st : PState) (_value : List Char) (_base : ℚ) : PState :=
  { st with nobrStack := st.nobrStack.push true,
            state := { st.state with isNoBreak := true } }

/-- `</nobr>`. -/
def nobrClose (st : PState) : PState :=
  let (v, s) := st.nobrStack.pop
  { st with nobrStack := s, state := { st.state with isNoBreak := v } }

/-- Registered no-op handler (self-closing tags handled in the parser). -/
def noopOpen (st : PState) (_value : List Char) (_base : ℚ) : PState := st

/-- Registered no-op close handler. -/
def noopClose (st : PState) : PState := st

/-- `<align=…>` open: the lowercased raw value is stored unvalidated. -/
def alignOpen (st : PState) (value : List Char) (_base : ℚ) : PState :=
  let a := lcList value
  { st with alignStack := st.alignStack.push a,
            state := { st.state with align := a } }

/-- `</align>`. -/
def alignClose (st : PState) : PState :=
  let (v, s) := st.alignStack.pop
  { st with alignStack := s, state := { st.state with align := v } }

/-- `<voffset=N>` open. -/
def voffsetOpen (st : PState) (value : List Char) (base : ℚ) : PState :=
  let off := (parseUnit value base).getD 0
  { st with voffsetStack := st.voffsetStack.push off,
            state := { st.state with voffset := off } }

/-- `</voffset>`. -/
def voffsetClose (st : PState) : PState :=
  let (v, s) := st.voffsetStack.pop
  { st with voffsetStack := s, state := { st.state with voffset := v } }

/-- `<indent=N>` open. -/
def indentOpen (st : PState) (value : List Char) (base : ℚ) : PState :=
  let ind := (parseUnit value base).getD 0
  { st with indentStack := st.indentStack.push ind,
            state := { st.state with indent := ind } }

/-- `</indent>`. -/
def indentClose (st : PState) : PState :=
  let (v, s) := st.indentStack.pop
  { st with indentStack := s, state := { st.state with indent := v } }

/-- `<margin=N>` / `<padding=N>` open (both registrations share this body). -/
def marginOpen (st : PState) (value : List Char) (base : ℚ) : PState :=
  let m := (parseUnit value base).getD 0
  { st with marginStack := st.marginStack.push m,
            state := { st.state with marginLeft := m, marginRight := m } }

/-- `</margin>` / `</padding>`. -/
def marginClose (st : PState) : PState :=
  let (v, s) := st.marginStack.pop
  { st with marginStack := s,
            state := { st.state with marginLeft := v, marginRight := v } }

/-- `<margin-left=N>` open (stackless). -/
def marginLeftOpen (st : PState) (value : List Char) (base : ℚ) : PState :=
  { st with state := { st.state with marginLeft := (parseUnit value base).getD 0 } }

/-- `</margin-left>`. -/
def marginLeftClose (st : PState) : PState :=
  { st with state := { st.state with marginLeft := 0 } }

/-- `<margin-right=N>` open (stackless). -/
def marginRightOpen (st : PState) (value : List Char) (base : ℚ) : PState :=
  { st with state := { st.state with marginRight := (parseUnit value base).getD 0 } }

/-- `</margin-right>`. -/
def marginRightClose (st : PState) : PState :=
  { st with state := { st.state with marginRight := 0 } }

/-- `<line-height=N>` open. -/
def lineHeightOpen (st : PState) (value : List Char) (base : ℚ) : PState :=
  let lh := (parseUnit value base).getD 0
  { st with lineHeightStack := st.lineHeightStack.push lh,
            state := { st.state with lineHeightOverride := lh } }

/-- `</line-height>`. -/
def lineHeightClose (st : PState) : PState :=
  let (v, s) := st.lineHeightStack.pop
  { st with lineHeightStack := s, state := { st.state with lineHeightOverride := v } }

/-- `<line-indent=N>` open. -/
def lineIndentOpen (st : PState) (value : List Char) (base : ℚ) : PState :=
  let ind := (parseUnit value base).getD 0
  { st with lineIndentStack := st.lineIndentStack.push ind,
            state := { st.state with lineIndent := ind } }

/-- `</line-indent>`. -/
def lineIndentClose (st : PState) : PState :=
  let (v, s) := st.lineIndentStack.pop
  { st with lineIndentStack := s, state := { st.state with lineIndent := v } }

/-- `<allcaps>` / `<uppercase>` open. -/
def allCapsOpen (st : PState) (_value : List Char) (_base : ℚ) : PState :=
  { st with allCapsStack := st.allCapsStack.push true,
            state := { st.state with isAllCaps := true } }

/-- `</allcaps>` / `</uppercase>`. -/
def allCapsClose (st : PState) : PState :=
  let (v, s) := st.allCapsStack.pop
  { st with allCapsStack := s, state := { st.state with isAllCaps := v } }

/-- `<lowercase>` open. -/
def lowercaseOpen (st : PState) (_value : List Char) (_base : ℚ) : PState :=
  { st with lowercaseStack := st.lowercaseStack.push true,
            state := { st.state with isLowercase := true } }

/-- `</lowercase>`. -/
def lowercaseClose (st : PState) : PState :=
  let (v, s) := st.lowercaseStack.pop
  { st with lowercaseStack := s, state := { st.state with isLowercase := v } }

/-- `<smallcaps>` open. -/
def smallCapsOpen (st : PState) (_value : List Char) (_base : ℚ) : PState :=
  { st with smallCapsStack := st.smallCapsStack.push true,
            state := { st.state with isSmallCaps := true } }

/-- `</smallcaps>`. -/
def smallCapsClose (st : PState) : PState :=
  let (v, s) := st.smallCapsStack.pop
  { st with smallCapsStack := s, state := { st.state with isSmallCaps := v } }

/-- `<sup>` open: halve the size and offset upward by `-0.35 × base`. -/
def supOpen (st : PState) (_value : List Char) (base : ℚ) : PState :=
  let newSize := st.state.fontSize * (1 / 2)
  let offset := base * (-(7 : ℚ) / 20)
  { st with superscriptStack := st.superscriptStack.push true,
            sizeStack := st.sizeStack.push newSize,
            voffsetStack := st.voffsetStack.push offset,
            state := { st.state with isSuperscript := true, fontSize := newSize,
                                     voffset := offset } }

/-- `</sup>`. -/
def supClose (st : PState) : PState :=
  let (v1, s1) := st.superscriptStack.pop
  let (v2, s2) := st.sizeStack.pop
  let (v3, s3) := st.voffsetStack.pop
  { st with superscriptStack := s1, sizeStack := s2, voffsetStack := s3,
            state := { st.state with isSuperscript := v1, fontSize := v2, voffset := v3 } }

/-- `<sub>` open: halve the size and offset downward by `0.15 × base`. -/
def subOpen (st : PState) (_value : List Char) (base : ℚ) : PState :=
  let newSize := st.state.fontSize * (1 / 2)
  let offset := base * (3 / 20)
  { st with subscriptStack := st.subscriptStack.push true,
            sizeStack := st.sizeStack.push newSize,
            voffsetStack := st.voffsetStack.push offset,
            state := { st.state with isSubscript := true, fontSize := newSize,
                                     voffset := offset } }

/-- `</sub>`. -/
def subClose (st : PState) : PState :=
  let (v1, s1) := st.subscriptStack.pop
  let (v2, s2) := st.sizeStack.pop
  let (v3, s3) := st.voffsetStack.pop
  { st with subscriptStack := s1, sizeStack := s2, voffsetStack := s3,
            state := { st.state with isSubscript := v1, fontSize := v2, voffset := v3 } }

/-- `<link="id">` open. -/
def linkOpen (st : PState) (value : List Char) (_base : ℚ) : PState :=
  { st with linkStack := st.linkStack.push true,
            linkIdStack := st.linkIdStack.push value,
            state := { st.state with isLink := true, linkId := value } }

/-- `</link>` / `</a>`. -/
def linkClose (st : PState) : PState :=
  let (v1, s1) := st.linkStack.pop
  let (v2, s2) := st.linkIdStack.pop
  { st with linkStack := s1, linkIdStack := s2,
            state := { st.state with isLink := v1, linkId := v2 } }

/-- `<a href="url">` open. -/
def aOpen (st : PState) (value : List Char) (_base : ℚ) : PState :=
  let url :=
    match matchKeyEqCapture (strL "href") true clsNameVal value with
    | some (_, _, cap) => cap
    | none => value
  { st with linkStack := st.linkStack.push true,
            linkIdStack := st.linkIdStack.push url,
            state := { st.state with isLink := true, linkId := url } }

/-- `<font="name" material="name">` open. -/
def fontOpen (st : PState) (value : List Char) (_base : ℚ) : PState :=
  let (fontName, materialName) := parseFontValue value
  let st := { st with fontStack := st.fontStack.push fontName,
                      state := { st.state with fontFamily := fontName } }
  if !materialName.isEmpty then
    { st with materialStack := st.materialStack.push materialName,
              state := { st.state with material := materialName },
              fontPushedMaterial := true :: st.fontPushedMaterial }
  else { st with fontPushedMaterial := false :: st.fontPushedMaterial }

/-- `</font>`. -/
def fontClose (st : PState) : PState :=
  let (v, s) := st.fontStack.pop
  let st := { st with fontStack := s, state := { st.state with fontFamily := v } }
  let (pushed, rest) : Bool × List Bool :=
    match st.fontPushedMaterial with
    | [] => (false, [])
    | p :: r => (p, r)
  let st := { st with fontPushedMaterial := rest }
  if pushed then
    let (m, ms) := st.materialStack.pop
    { st with materialStack := ms, state := { st.state with material := m } }
  else st

/-- `<font-weight="…">` open. -/
def fontWeightOpen (st : PState) (value : List Char) (_base : ℚ) : PState :=
  { st with fontWeightStack := st.fontWeightStack.push value,
            state := { st.state with fontWeight := value } }

/-- `</font-weight>`. -/
def fontWeightClose (st : PState) : PState :=
  let (v, s) := st.fontWeightStack.pop
  { st with fontWeightStack := s, state := { st.state with fontWeight := v } }

/-- `<scale=N>` open: ignored entirely when the value is not numeric. -/
def scaleOpen (st : PState) (value : List Char) (_base : ℚ) : PState :=
  match jsParseFloat value with
  | some n =>
    { st with charScaleStack := st.charScaleStack.push n,
              state := { st.state with charScale := n } }
  | none => st

/-- `</scale>`. -/
def scaleClose (st : PState) : PState :=
  let (v, s) := st.charScaleStack.pop
  { st with charScaleStack := s, state := { st.state with charScale := v } }

/-- `<rotate=N>` open: ignored entirely when the value is not numeric. -/
def rotateOpen (st : PState) (value : List Char) (_base : ℚ) : PState :=
  match jsParseFloat value with
  | some n =>
    { st with rotationStack := st.rotationStack.push n,
              state := { st.state with rotation := n } }
  | none => st

/-- `</rotate>`. -/
def rotateClose (st : PState) : PState :=
  let (v, s) := st.rotationStack.pop
  { st with rotationStack := s, state := { st.state with rotation := v } }

/-- `<gradient=#c1,#c2>` open: only applied when at least two colors parse. -/
def gradientOpen (st : PState) (value : List Char) (_base : ℚ) : PState :=
  let colors := parseGradientValue value
  if colors.length ≥ 2 then
    { st with gradientStack := st.gradientStack.push colors,
              state := { st.state with gradientColors := colors } }
  else st

/-- `</gradient>`. -/
def gradientClose (st : PState) : PState :=
  let (v, s) := st.gradientStack.pop
  { st with gradientStack := s, state := { st.state with gradientColors := v } }

/-- `<width=N>` open. -/
def widthOpen (st : PState) (value : List Char) (base : ℚ) : PState :=
  let w := (parseUnit value base).getD 0
  { st with widthStack := st.widthStack.push w,
            state := { st.state with widthConstraint := w } }

/-- `</width>`. -/
def widthClose (st : PState) : PState :=
  let (v, s) := st.widthStack.pop
  { st with widthStack := s, state := { st.state with widthConstraint := v } }

/-- `<material="name">` open. -/
def materialOpen (st : PState) (value : List Char) (_base : ℚ) : PState :=
  { st with materialStack := st.materialStack.push value,
            state := { st.state with material := value } }

/-- `</material>`. -/
def materialClose (st : PState) : PState :=
  let (v, s) := st.materialStack.pop
  { st with materialStack := s, state := { st.state with material := v } }

/-- One entry of the tag registry. -/
structure TagEntry where
  name : List Char
  onOpen : PState → List Char → ℚ → PState
  onClose : PState → PState

/-- The registry contents, in constructor registration order. -/
def registryEntries : List TagEntry :=
  [⟨strL "color", colorOpen, colorClose⟩,
   ⟨strL "alpha", alphaOpen, alphaClose⟩,
   ⟨strL "b", boldOpen, boldClose⟩,
   ⟨strL "i", italicOpen, italicClose⟩,
   ⟨strL "u", underlineOpen, underlineClose⟩,
   ⟨strL "s", strikeOpen, strikeClose⟩,
   ⟨strL "strikethrough", strikeOpen, strikeClose⟩,
   ⟨strL "mark", markOpen, markClose⟩,
   ⟨strL "size", sizeOpen, sizeClose⟩,
   ⟨strL "cspace", cspaceOpen, cspaceClose⟩,
   ⟨strL "mspace", mspaceOpen, mspaceClose⟩,
   ⟨strL "duospace", mspaceOpen, mspaceClose⟩,
   ⟨strL "nobr", nobrOpen, nobrClose⟩,
   ⟨strL "br", noopOpen, noopClose⟩,
   ⟨strL "nbsp", noopOpen, noopClose⟩,
   ⟨strL "zwsp", noopOpen, noopClose⟩,
   ⟨strL "softhyphen", noopOpen, noopClose⟩,
   ⟨strL "shy", noopOpen, noopClose⟩,
   ⟨strL "en-space", noopOpen, noopClose⟩,
   ⟨strL "em-space", noopOpen, noopClose⟩,
   ⟨strL "noparse", noopOpen, noopClose⟩,
   ⟨strL "cr", noopOpen, noopClose⟩,
   ⟨strL "zwj", noopOpen, noopClose⟩,
   ⟨strL "align", alignOpen, alignClose⟩,
   ⟨strL "voffset", voffsetOpen, voffsetClose⟩,
   ⟨strL "indent", indentOpen, indentClose⟩,
   ⟨strL "margin", marginOpen, marginClose⟩,
   ⟨strL "margin-left", marginLeftOpen, marginLeftClose⟩,
   ⟨strL "margin-right", marginRightOpen, marginRightClose⟩,
   ⟨strL "padding", marginOpen, marginClose⟩,
   ⟨strL "line-height", lineHeightOpen, lineHeightClose⟩,
   ⟨strL "space", noopOpen, noopClose⟩,
   ⟨strL "pos", noopOpen, noopClose⟩,
   ⟨strL "line-indent", lineIndentOpen, lineIndentClose⟩,
   ⟨strL "allcaps", allCapsOpen, allCapsClose⟩,
   ⟨strL "uppercase", allCapsOpen, allCapsClose⟩,
   ⟨strL "lowercase", lowercaseOpen, lowercaseClose⟩,
   ⟨strL "smallcaps", smallCapsOpen, smallCapsClose⟩,
   ⟨strL "sup", supOpen, supClose⟩,
   ⟨strL "sub", subOpen, subClose⟩,
   ⟨strL "link", linkOpen, linkClose⟩,
   ⟨strL "a", aOpen, linkClose⟩,
   ⟨strL "font", fontOpen, fontClose⟩,
   ⟨strL "font-weight", fontWeightOpen, fontWeightClose⟩,
   ⟨strL "scale", scaleOpen, scaleClose⟩,
   ⟨strL "rotate", rotateOpen, rotateClose⟩,
   ⟨strL "gradient", gradientOpen, gradientClose⟩,
   ⟨strL "width", widthOpen, widthClose⟩,
   ⟨strL "material", materialOpen, materialClose⟩,
   ⟨strL "style", noopOpen, noopClose⟩]

/-- `TagRegistry.getByHash`: registration stores entries keyed by the FNV-1a
hash of the lowercased name (`Map.set`, so a later registration wins on a
hash collision — hence the reversed search). -/
def getByHash (h : Nat) : Option TagEntry :=
  registryEntries.reverse.find? (fun e => fnvHash e.name == h)

/-! ## Tag scanning (`RichTextParser._tryParseTag`) -/

/-- Result of parsing a single tag. -/
structure TagParseResult where
  tagName : List Char
  tagNameHash : Nat
  value : List Char
  isClosing : Bool
  /-- Number of characters consumed from the source (including `<` and `>`). -/
  tagLength : Nat
deriving DecidableEq

/-- `_tryParseTag(text, pos)`: `<…>` with a bounded length (128), the body
split into name and value at the first `=` or first space (whichever comes
first), a leading `/` marking a close tag, and symmetric surrounding quotes
stripped from `=`-form values. -/
def tryParseTag (text : List Char) (pos : Nat) : Option TagParseResult :=
  if text.get? pos ≠ some '<' then none else
  match jsIndexOfFrom text '>' (pos + 1) with
  | none => none
  | some closeIdx =>
    let tagLen := closeIdx - pos + 1
    if tagLen > 128 then none else
    let inner := jsTrim (jsSubstring text (pos + 1) closeIdx)
    if inner.isEmpty then none else
    let isClosing := inner.head? = some '/'
    let content := if isClosing then jsTrim (inner.drop 1) else inner
    let eqIdx := content.findIdx? (fun c => c == '=')
    let spaceIdx := content.findIdx? (fun c => c == ' ')
    let (tagName, value) : List Char × List Char :=
      match eqIdx, spaceIdx with
      | some e, spc =>
        if spc.all (fun sp => e < sp) then
          -- standard format `<tag=value>`
          let tagName := jsTrim (content.take e)
          let value := jsTrim (content.drop (e + 1))
          let value :=
            if (startsWithL value (strL "\"") ∧ endsWithL value (strL "\"")) ∨
                (startsWithL value (strL "\x27") ∧ endsWithL value (strL "\x27")) then
              (value.drop 1).dropLast
            else value
          (tagName, value)
        else
          -- attribute format `<tag attr="value">`
          let sp := spc.getD 0
          (jsTrim (content.take sp), jsTrim (content.drop (sp + 1)))
      | none, some sp =>
        (jsTrim (content.take sp), jsTrim (content.drop (sp + 1)))
      | none, none => (jsTrim content, [])
    if tagName.isEmpty then none
    else some ⟨tagName, fnvHash (lcList tagName), value, isClosing, tagLen⟩

/-! ## Style presets (src/styles/TMPStyleSheet.ts) -/

/-- A named style preset: opening and closing tag markup. -/
structure StylePreset where
  openMarkup : List Char
  closeMarkup : List Char

/-- A style sheet: presets keyed by lowercased name (as `set` stores them). -/
def StyleSheet : Type := List (List Char × StylePreset)

/-- `TMPStyleSheet.get` (case-insensitive). -/
def sheetGet (sheet : StyleSheet) (name : List Char) : Option StylePreset :=
  (List.find? (fun p => p.1 == lcList name) sheet).map (fun p => p.2)

/-- `_applyStylePresetOpen`: run the opening tags of a preset's markup
against the live state (fuelled scan; the cursor advances every step). -/
def applyPresetOpen (markup : List Char) (base : ℚ) :
    Nat → Nat → PState → PState
  | 0, _, st => st
  | fuel + 1, j, st =>
    if j < markup.length then
      if markup.get? j = some '<' then
        match tryParseTag markup j with
        | some tag =>
          if !tag.isClosing then
            let st :=
              match getByHash tag.tagNameHash with
              | some e => e.onOpen st tag.value base
              | none => st
            applyPresetOpen markup base fuel (j + tag.tagLength) st
          else applyPresetOpen markup base fuel (j + 1) st
        | none => applyPresetOpen markup base fuel (j + 1) st
      else applyPresetOpen markup base fuel (j + 1) st
    else st

/-- `_applyStylePresetClose`. -/
def applyPresetClose (markup : List Char) :
    Nat → Nat → PState → PState
  | 0, _, st => st
  | fuel + 1, j, st =>
    if j < markup.length then
      if markup.get? j = some '<' then
        match tryParseTag markup j with
        | some tag =>
          if tag.isClosing then
            let st :=
              match getByHash tag.tagNameHash with
              | some e => e.onClose st
              | none => st
            applyPresetClose markup fuel (j + tag.tagLength) st
          else applyPresetClose markup fuel (j + 1) st
        | none => applyPresetClose markup fuel (j + 1) st
      else applyPresetClose markup fuel (j + 1) st
    else st

/-! ## The main parse loop (`RichTextParser.parse`) -/

/-- JS `a += b` where either side may be `NaN`. -/
def optAdd (a b : Option ℚ) : Option ℚ :=
  match a, b with
  | some x, some y => some (x + y)
  | _, _ => none

/-- JS `x !== 0` for a possibly-`NaN` number (`NaN !== 0` is true). -/
def optNeZero (a : Option ℚ) : Bool :=
  match a with
  | some x => x ≠ 0
  | none => true

/-- Append an emitted record and advance the cursor. -/
def emitRec (st : PState) (pc : ParsedChar) (di : Nat) : PState :=
  { st with result := st.result ++ [pc], i := st.i + di }

/-- The standalone color shorthand test `^[0-9a-fA-F]{3,8}$`. -/
def hexShorthandOk (s : List Char) : Bool :=
  decide (3 ≤ s.length) && decide (s.length ≤ 8) && s.all isHexChar

/-- The per-character case transforms of `parse` (allcaps, lowercase,
smallcaps with its 0.8 size reduction for originally-lowercase letters). -/
def caseTransform (state : StyleState) (pc : ParsedChar) : ParsedChar :=
  if state.isAllCaps then
    { pc with char := pc.char.toUpper, charCode := pc.char.toUpper.toNat }
  else if state.isLowercase then
    { pc with char := pc.char.toLower, charCode := pc.char.toLower.toNat }
  else if state.isSmallCaps then
    let upper := pc.char.toUpper
    if pc.char ≠ upper then
      { pc with char := upper, charCode := upper.toNat,
                fontSize := pc.fontSize * (4 / 5) }
    else pc
  else pc

/-- Apply the pending `<space=N>` / `<pos=N>` modifiers to a record about to
be emitted, clearing the ones that were applied. -/
def applyPendings (st : PState) (pc : ParsedChar) : ParsedChar × PState :=
  let (pc, st) :=
    if optNeZero st.pendingSpace then
      ({ pc with extraSpace := st.pendingSpace }, { st with pendingSpace := some 0 })
    else (pc, st)
  match st.pendingPos with
  | some p => ({ pc with fixedPosition := some p }, { st with pendingPos := none })
  | none => (pc, st)

/-- One iteration of the `while (i < text.length)` loop of `parse`
(callers guarantee `st.i < text.length`). -/
def parseStep (text : List Char) (base : ℚ) (sheet : Option StyleSheet)
    (st : PState) : PState :=
  let char := text.getD st.i ' '
  if char = '<' ∧ st.noparse then
    -- noparse mode: only the literal `</noparse>` ends it
    if lcList (jsSubstring text st.i (st.i + 10)) = strL "</noparse>" then
      { st with noparse := false, i := st.i + 10 }
    else emitRec st (createParsedChar '<' st.i st.state) 1
  else if char = '<' then
    -- `<#RRGGBB[AA]>` standalone color shorthand
    let shorthand : Option PState :=
      if text.get? (st.i + 1) = some '#' then
        match jsIndexOfFrom text '>' (st.i + 2) with
        | some closeIdx =>
          let hexStr := jsTrim (jsSubstring text (st.i + 2) closeIdx)
          if hexShorthandOk hexStr then
            let color := parseColor ('#' :: hexStr)
            some { st with colorStack := st.colorStack.push color,
                           state := { st.state with color := color },
                           i := closeIdx + 1 }
          else none
        | none => none
      else none
    match shorthand with
    | some st2 => st2
    | none =>
      -- `</#>` closes the shorthand
      if text.get? (st.i + 1) = some '/' ∧ text.get? (st.i + 2) = some '#' ∧
          text.get? (st.i + 3) = some '>' then
        let (v, s) := st.colorStack.pop
        { st with colorStack := s, state := { st.state with color := v }, i := st.i + 4 }
      else
        match tryParseTag text st.i with
        | some tag =>
          let lowerName := lcList tag.tagName
          if lowerName = strL "noparse" ∧ !tag.isClosing then
            { st with noparse := true, i := st.i + tag.tagLength }
          else if lowerName = strL "br" ∧ !tag.isClosing then
            emitRec st (createParsedChar '\n' st.i st.state) tag.tagLength
          else if lowerName = strL "nbsp" ∧ !tag.isClosing then
            emitRec st { createParsedChar '\u00A0' st.i st.state with isNoBreak := true }
              tag.tagLength
          else if lowerName = strL "zwsp" ∧ !tag.isClosing then
            emitRec st (createParsedChar '\u200B' st.i st.state) tag.tagLength
          else if (lowerName = strL "softhyphen" ∨ lowerName = strL "shy") ∧
              !tag.isClosing then
            emitRec st (createParsedChar '\u00AD' st.i st.state) tag.tagLength
          else if lowerName = strL "en-space" ∧ !tag.isClosing then
            emitRec st (createParsedChar '\u2002' st.i st.state) tag.tagLength
          else if lowerName = strL "em-space" ∧ !tag.isClosing then
            emitRec st (createParsedChar '\u2003' st.i st.state) tag.tagLength
          else if lowerName = strL "cr" ∧ !tag.isClosing then
            emitRec st (createParsedChar '\r' st.i st.state) tag.tagLength
          else if lowerName = strL "zwj" ∧ !tag.isClosing then
            emitRec st (createParsedChar '\u200D' st.i st.state) tag.tagLength
          else if lowerName = strL "space" ∧ !tag.isClosing then
            { st with pendingSpace := optAdd st.pendingSpace (parseUnit tag.value base),
                      i := st.i + tag.tagLength }
          else if lowerName = strL "pos" ∧ !tag.isClosing then
            { st with pendingPos := parseUnit tag.value base,
                      i := st.i + tag.tagLength }
          else if lowerName = strL "sprite" ∧ !tag.isClosing then
            let spr := parseSpriteTag tag.value
            let pc := { createParsedChar '\uFFFC' st.i st.state with
                          isSprite := true, spriteAsset := spr.atlasName,
                          spriteName := spr.spriteName, spriteIndex := spr.index,
                          spriteTint := spr.tint }
            let (pc, st) := applyPendings st pc
            emitRec st pc tag.tagLength
          else if lowerName = strL "style" ∧ sheet.isSome then
            let sh := sheet.getD []
            if !tag.isClosing then
              match sheetGet sh tag.value with
              | some preset =>
                let st := { st with styleNameStack := st.styleNameStack.push tag.value }
                let st := applyPresetOpen preset.openMarkup base
                  preset.openMarkup.length 0 st
                { st with i := st.i + tag.tagLength }
              | none => { st with i := st.i + tag.tagLength }
            else
              let styleName := st.styleNameStack.current
              let st := { st with styleNameStack := st.styleNameStack.popS }
              let preset := if !styleName.isEmpty then sheetGet sh styleName else none
              match preset with
              | some p =>
                let st := applyPresetClose p.closeMarkup p.closeMarkup.length 0 st
                { st with i := st.i + tag.tagLength }
              | none => { st with i := st.i + tag.tagLength }
          else
            match getByHash tag.tagNameHash with
            | some entry =>
              let st := if tag.isClosing then entry.onClose st
                        else entry.onOpen st tag.value base
              { st with i := st.i + tag.tagLength }
            | none => emitRec st (createParsedChar '<' st.i st.state) 1
        | none => emitRec st (createParsedChar '<' st.i st.state) 1
  else if char = '\n' then
    emitRec st (createParsedChar '\n' st.i st.state) 1
  else if char = '\r' then
    { st with i := st.i + 1 }
  else
    let pc := createParsedChar char st.i st.state
    let (pc, st) := applyPendings st pc
    emitRec st (caseTransform st.state pc) 1

/-- The fuelled `while` loop of `parse`; every iteration advances `i` by at
least one, so fuel `text.length` is always enough. -/
def parseLoop (text : List Char) (base : ℚ) (sheet : Option StyleSheet) :
    Nat → PState → PState
  | 0, st => st
  | fuel + 1, st =>
    if st.i < text.length then parseLoop text base sheet fuel (parseStep text base sheet st)
    else st

/-! ## Gradient post-processing (`applyGradients` of RichTextParser.ts) -/

/-- Replace the element at one index (out-of-range indices are left alone). -/
def listModify {α : Type} (f : α → α) : Nat → List α → List α
  | _, [] => []
  | 0, a :: as => f a :: as
  | n + 1, a :: as => a :: listModify f n as

/-- `lerpColor(a, b, t)`: per-channel linear interpolation with JS rounding.
The shifted-byte recombination `(r << 16) | (g << 8) | blue` is written
arithmetically; the three rounded channels lie in `[0, 255]` whenever
`t ∈ [0, 1]` (every call site), making the bitwise-or of disjoint shifted
bytes equal to their arithmetic sum. -/
def lerpColor (a b : Int) (t : ℚ) : Int :=
  let ar := jsAnd255 (jsShr a 16)
  let ag := jsAnd255 (jsShr a 8)
  let ab := jsAnd255 a
  let br := jsAnd255 (jsShr b 16)
  let bg := jsAnd255 (jsShr b 8)
  let bb := jsAnd255 b
  let r := jsRound ((ar : ℚ) + ((br - ar : Int) : ℚ) * t)
  let g := jsRound ((ag : ℚ) + ((bg - ag : Int) : ℚ) * t)
  let blue := jsRound ((ab : ℚ) + ((bb - ab : Int) : ℚ) * t)
  r * 65536 + g * 256 + blue

/-- `interpolateRegion(chars, start, end, colors)`: color the characters of
`[start, end]`; a single-character region receives `colors[0]` exactly. -/
def interpolateRegion (chars : List ParsedChar) (start stop : Nat)
    (colors : List Int) : List ParsedChar :=
  let count : Int := (stop : Int) - (start : Int)
  if count ≤ 0 then
    listModify (fun pc => { pc with color := colors.getD 0 0 }) start chars
  else
    (List.range' start (stop - start + 1)).foldl
      (fun cs i =>
        let t : ℚ := ((i - start : Nat) : ℚ) / (count : ℚ)
        listModify
          (fun pc => { pc with color := lerpColor (colors.getD 0 0) (colors.getD 1 0) t })
          i cs)
      chars

/-- State of the `applyGradients` scan. -/
structure GradState where
  chars : List ParsedChar
  gradStart : Int
  gradColors : List Int

/-- One iteration of the `applyGradients` loop at index `i`
(`i = chars.length` is the final flush iteration). -/
def gradStep (n : Nat) (s : GradState) (i : Nat) : GradState :=
  let gc := if i < n then (s.chars.getD i default).gradientColors else []
  let isGrad := gc.length ≥ 2
  let sameGrad := isGrad ∧ s.gradColors.length ≥ 2 ∧
    gc.getD 0 0 = s.gradColors.getD 0 0 ∧ gc.getD 1 0 = s.gradColors.getD 1 0
  let s :=
    if s.gradStart ≥ 0 ∧ ¬sameGrad then
      { s with chars := interpolateRegion s.chars s.gradStart.toNat (i - 1) s.gradColors,
               gradStart := -1 }
    else s
  if isGrad ∧ s.gradStart < 0 then { s with gradStart := (i : Int), gradColors := gc }
  else s

/-- `applyGradients`: interpolate colors across runs of characters carrying
the same two gradient endpoint colors. -/
def applyGradients (chars0 : List ParsedChar) : List ParsedChar :=
  let n := chars0.length
  ((List.range (n + 1)).foldl (gradStep n) ⟨chars0, -1, []⟩).chars

/-! ## `parse` (top level) -/

/-- Parser-instance state that survives across `parse` calls: the
closure-captured toggle counters and the `fontPushedMaterial` array.
(Every `TagStack` is reset to its base value at parse start; these are
not.) -/
structure Persist where
  boldCount : Int
  italicCount : Int
  underlineCount : Int
  strikethroughCount : Int
  fontPushedMaterial : List Bool
deriving DecidableEq

/-- The persistent state of a freshly constructed parser. -/
def freshPersist : Persist := ⟨0, 0, 0, 0, []⟩

/-- The parser state at the top of `parse`, after every stack has been
reset to its base value. -/
def initPState (baseFontSize : ℚ) (baseColor : Int) (baseFontFamily : List Char)
    (p : Persist) : PState where
  colorStack := TagStack.mk0 baseColor
  alphaStack := TagStack.mk0 1
  sizeStack := TagStack.mk0 baseFontSize
  boldStack := TagStack.mk0 false
  italicStack := TagStack.mk0 false
  underlineStack := TagStack.mk0 false
  strikethroughStack := TagStack.mk0 false
  markStack := TagStack.mk0 0
  cspaceStack := TagStack.mk0 0
  mspaceStack := TagStack.mk0 0
  nobrStack := TagStack.mk0 false
  alignStack := TagStack.mk0 []
  voffsetStack := TagStack.mk0 0
  indentStack := TagStack.mk0 0
  marginStack := TagStack.mk0 0
  lineHeightStack := TagStack.mk0 0
  allCapsStack := TagStack.mk0 false
  lowercaseStack := TagStack.mk0 false
  smallCapsStack := TagStack.mk0 false
  superscriptStack := TagStack.mk0 false
  subscriptStack := TagStack.mk0 false
  linkStack := TagStack.mk0 false
  linkIdStack := TagStack.mk0 []
  fontStack := TagStack.mk0 baseFontFamily
  charScaleStack := TagStack.mk0 1
  rotationStack := TagStack.mk0 0
  gradientStack := TagStack.mk0 []
  widthStack := TagStack.mk0 0
  styleNameStack := TagStack.mk0 []
  fontWeightStack := TagStack.mk0 []
  lineIndentStack := TagStack.mk0 0
  materialStack := TagStack.mk0 []
  boldCount := p.boldCount
  italicCount := p.italicCount
  underlineCount := p.underlineCount
  strikethroughCount := p.strikethroughCount
  fontPushedMaterial := p.fontPushedMaterial
  state := createDefaultStyleState baseFontSize baseColor baseFontFamily
  noparse := false
  pendingSpace := some 0
  pendingPos := none
  i := 0
  result := []

/-- The persistent part of a parser state after a parse. -/
def persistOf (st : PState) : Persist :=
  ⟨st.boldCount, st.italicCount, st.underlineCount, st.strikethroughCount,
   st.fontPushedMaterial⟩

/-- `RichTextParser.parse(text, baseFontSize, baseColor, baseFontFamily)` on
an instance whose persistent state is `p` (and whose `styleSheet` is
`sheet`): the emitted records after gradient post-processing, together with
the instance's persistent state after the call. -/
def parse (text : List Char) (baseFontSize : ℚ) (baseColor : Int)
    (baseFontFamily : List Char) (sheet : Option StyleSheet) (p : Persist) :
    List ParsedChar × Persist :=
  let st := parseLoop text baseFontSize sheet text.length
    (initPState baseFontSize baseColor baseFontFamily p)
  (applyGradients st.result, persistOf st)

/-- A parse on a freshly constructed `RichTextParser` with no style sheet. -/
def parseFresh (text : List Char) (baseFontSize : ℚ) (baseColor : Int)
    (baseFontFamily : List Char) : List ParsedChar :=
  (parse text baseFontSize baseColor baseFontFamily none freshPersist).1

/-! ## Layout engine data model (src/layout/⋆.ts, src/core/TMPTextStyle.ts)

The metrics and sprite collaborators are modelled at their interface: a
font supplies per-character data (`chars`), a resolved fallback lookup
(`lookupFallback c` stands for `font.getCharWithFallback(c)?.charData`),
and scalar metrics; the sprite manager supplies its four lookups. -/

/-- A texture: the sprite branch reads `.width`/`.height`, the glyph branch
reads `.orig.width`/`.orig.height`. -/
structure Texture where
  width : ℚ
  height : ℚ
  origWidth : ℚ
  origHeight : ℚ
deriving DecidableEq

/-- Per-character font data (PixiJS `CharData`). -/
structure CharData where
  xOffset : ℚ
  yOffset : ℚ
  xAdvance : ℚ
  kerning : List (Char × ℚ)
  texture : Option Texture

/-- `charData.kerning[prev] ?? 0`. -/
def kerningLookup (cd : CharData) (prev : Char) : ℚ :=
  ((cd.kerning.find? (fun p => p.1 == prev)).map (fun p => p.2)).getD 0

/-- `font.fontMetrics`. -/
structure FontMetrics where
  ascent : ℚ
  descent : ℚ

/-- The font interface the layout engine consumes. -/
structure FontL where
  chars : Char → Option CharData
  lookupFallback : Char → Option CharData
  baseMeasurementFontSize : ℚ
  lineHeight : ℚ
  baseLineOffset : ℚ
  fontMetrics : FontMetrics
  tabWidth : ℚ
  boldSpacing : ℚ
  boldStyle : ℚ
  superscriptOffset : ℚ
  subscriptOffset : ℚ
  meanLine : ℚ
  capLine : ℚ

/-- One inline sprite entry (`InlineSpriteEntry`). -/
structure SpriteEntry where
  width : ℚ
  height : ℚ
  xAdvance : ℚ
  yOffset : ℚ
  texture : Texture

/-- The `InlineSpriteManager` lookups the layout engine calls. -/
structure SpriteManager where
  getSpriteByIndex : List Char → Int → Option SpriteEntry
  findSpriteByIndex : Int → Option SpriteEntry
  getSprite : List Char → List Char → Option SpriteEntry
  findSprite : List Char → Option SpriteEntry

/-- A sprite manager with no registered atlases. -/
def emptySprites : SpriteManager :=
  ⟨fun _ _ => none, fun _ => none, fun _ _ => none, fun _ => none⟩

/-- `overflowMode`. -/
inductive OverflowMode where
  | overflow
  | truncate
  | ellipsis
deriving DecidableEq

/-- The `TMPTextStyle` fields the layout engine reads.  Alignment and
vertical alignment are runtime strings. -/
structure StyleL where
  fontSize : ℚ
  align : List Char
  containerHeight : ℚ
  wordWrap : Bool
  wordWrapWidth : ℚ
  breakWords : Bool
  lineHeight : ℚ
  lineSpacingAdjustment : ℚ
  letterSpacing : ℚ
  wordSpacing : ℚ
  paragraphSpacing : ℚ
  characterSpacing : ℚ
  overflowMode : OverflowMode
  wordWrappingRatios : ℚ
  verticalAlign : List Char
  marginLeft : ℚ
  marginTop : ℚ
  marginRight : ℚ

/-- The `TMPTextStyle` defaults (constructor `??` fallbacks). -/
def defaultStyle : StyleL where
  fontSize := 32
  align := strL "left"
  containerHeight := 0
  wordWrap := false
  wordWrapWidth := 400
  breakWords := false
  lineHeight := 0
  lineSpacingAdjustment := 0
  letterSpacing := 0
  wordSpacing := 0
  paragraphSpacing := 0
  characterSpacing := 0
  overflowMode := OverflowMode.overflow
  wordWrappingRatios := 2 / 5
  verticalAlign := strL "top"
  marginLeft := 0
  marginTop := 0
  marginRight := 0

/-- `elementType`. -/
inductive ElemType where
  | character
  | sprite
deriving DecidableEq

/-- One positioned character record (`CharacterInfo`). -/
structure CharacterInfo where
  index : Nat
  char : Char
  isVisible : Bool
  texture : Option Texture
  x : ℚ
  y : ℚ
  width : ℚ
  height : ℚ
  scale : ℚ
  color : Int
  alpha : ℚ
  bold : Bool
  italic : Bool
  underline : Bool
  strikethrough : Bool
  markColor : Int
  charScale : ℚ
  rotation : ℚ
  lineIndex : Nat
  wordIndex : Nat
  origin : ℚ
  xAdvance : ℚ
  ascender : ℚ
  descender : ℚ
  elementType : ElemType
  material : List Char
deriving DecidableEq

/-- `acquireCharacterInfo()` — semantically a fresh record with the pool's
default field values (the reuse pool is a GC optimisation). -/
def acquireCharacterInfo : CharacterInfo where
  index := 0
  char := ' '
  isVisible := false
  texture := none
  x := 0
  y := 0
  width := 0
  height := 0
  scale := 0
  color := 0xffffff
  alpha := 1
  bold := false
  italic := false
  underline := false
  strikethrough := false
  markColor := 0
  charScale := 1
  rotation := 0
  lineIndex := 0
  wordIndex := 0
  origin := 0
  xAdvance := 0
  ascender := 0
  descender := 0
  elementType := ElemType.character
  material := []

instance : Inhabited CharacterInfo := ⟨acquireCharacterInfo⟩

/-- One line record (`LineInfo`). -/
structure LineInfo where
  firstCharIndex : Nat
  lastCharIndex : Nat
  characterCount : Int
  width : ℚ
  height : ℚ
  baseline : ℚ
  y : ℚ
  alignmentOffset : ℚ
  alignment : List Char
  spaceCount : Nat
  ascender : ℚ
  descender : ℚ
  firstVisibleCharIndex : Int
  lastVisibleCharIndex : Int
  visibleCharacterCount : Nat
  maxAdvance : ℚ
deriving DecidableEq

/-- `createLineInfo(firstCharIndex, y, height, alignment)`. -/
def createLineInfo (firstCharIndex : Nat) (y height : ℚ) (alignment : List Char) :
    LineInfo where
  firstCharIndex := firstCharIndex
  lastCharIndex := firstCharIndex
  characterCount := 0
  width := 0
  height := height
  baseline := y + height
  y := y
  alignmentOffset := 0
  alignment := alignment
  spaceCount := 0
  ascender := 0
  descender := 0
  firstVisibleCharIndex := -1
  lastVisibleCharIndex := -1
  visibleCharacterCount := 0
  maxAdvance := 0

instance : Inhabited LineInfo := ⟨createLineInfo 0 0 0 []⟩

/-- One word record (`WordInfo`). -/
structure WordInfo where
  firstCharIndex : Nat
  lastCharIndex : Nat
  characterCount : Nat
  width : ℚ
  lineIndex : Nat
deriving DecidableEq

/-- A link hit-test rectangle. -/
structure Rect where
  x : ℚ
  y : ℚ
  width : ℚ
  height : ℚ
deriving DecidableEq

/-- One link region (`LinkInfo`). -/
structure LinkInfo where
  linkId : List Char
  firstCharIndex : Nat
  lastCharIndex : Nat
  rects : List Rect
deriving DecidableEq

/-- The layout result (`TextInfo`). -/
structure TextInfo where
  characterInfo : List CharacterInfo
  lineInfo : List LineInfo
  wordInfo : List WordInfo
  linkInfo : List LinkInfo
  characterCount : Nat
  lineCount : Nat
  wordCount : Nat
  linkCount : Nat
  width : ℚ
  height : ℚ

/-- `createCharacterInfo(index, pc, texture, scale, x, y, width, height,
lineIndex, wordIndex)`. -/
def createCharacterInfo (index : Nat) (pc : ParsedChar) (texture : Option Texture)
    (scale x y width height : ℚ) (lineIndex wordIndex : Nat) : CharacterInfo :=
  { acquireCharacterInfo with
      index := index
      char := pc.char
      isVisible := false
      texture := texture
      x := x, y := y, width := width, height := height
      scale := scale
      color := pc.color
      alpha := pc.alpha
      bold := pc.bold
      italic := pc.italic
      underline := pc.underline
      strikethrough := pc.strikethrough
      markColor := pc.markColor
      charScale := pc.charScale
      rotation := pc.rotation
      lineIndex := lineIndex
      wordIndex := wordIndex
      elementType := if pc.isSprite then ElemType.sprite else ElemType.character
      material := pc.material }

/-! ## Layout engine main loop (src/layout/TMPLayoutEngine.ts) -/

/-- The inputs of one `TMPLayoutEngine.layout` call. -/
structure LCtx where
  chars : List ParsedChar
  font : FontL
  style : StyleL
  sprites : SpriteManager

/-- The local variables of the layout loop. -/
structure LState where
  characterInfo : List CharacterInfo
  lineInfos : List LineInfo
  wordInfos : List WordInfo
  cursorX : ℚ
  cursorY : ℚ
  lineIndex : Nat
  wordIndex : Nat
  maxWidth : ℚ
  currentLineHeight : ℚ
  /-- `lineMaxAscender`; `none` is the initial `-Infinity`. -/
  lineMaxAscender : Option ℚ
  /-- `lineMaxDescender`; `none` is the initial `Infinity`. -/
  lineMaxDescender : Option ℚ
  currentLine : LineInfo
  wordBuffer : List CharacterInfo
  wordWidth : ℚ
  wordStart : Nat
  isFirstWord : Bool
  lineSpaceCount : Nat
  lineVisibleCount : Nat
  softHyphenBreakIndex : Int
  previousChar : Option Char

/-- `getAlign(pc)`: `pc.align || styleAlign`. -/
def getAlign (ctx : LCtx) (pc : ParsedChar) : List Char :=
  if pc.align.isEmpty then ctx.style.align else pc.align

/-- `getWrapWidth(pc)`: inline width constraint (when positive) or the
configured wrap width, minus inline and component margins. -/
def getWrapWidth (ctx : LCtx) (pc : ParsedChar) : ℚ :=
  (if pc.widthConstraint > 0 then pc.widthConstraint else ctx.style.wordWrapWidth) -
    pc.marginLeft - pc.marginRight - ctx.style.marginLeft - ctx.style.marginRight

/-- `isJustifiedOrFlush(align)`. -/
def isJustifiedOrFlush (a : List Char) : Bool :=
  a == strL "justified" || a == strL "flush"

/-- The base line height:
`max-of-style-or-font line height + lineSpacingAdjustment`. -/
def baseLineHeightOf (ctx : LCtx) : ℚ :=
  (if ctx.style.lineHeight > 0 then ctx.style.lineHeight
   else ctx.font.lineHeight * (ctx.style.fontSize / ctx.font.baseMeasurementFontSize)) +
  ctx.style.lineSpacingAdjustment

/-- The dynamic line advance: tracked ascender − descender when both were
seen, the current line height otherwise. -/
def dynamicAdvance (asc desc : Option ℚ) (clh : ℚ) : ℚ :=
  match asc, desc with
  | some a, some d => a - d
  | _, _ => clh

/-- `Math.max` tracking for the per-line ascender. -/
def trackAsc (asc : Option ℚ) (v : ℚ) : Option ℚ :=
  match asc with
  | some a => some (max a v)
  | none => some v

/-- `Math.min` tracking for the per-line descender. -/
def trackDesc (desc : Option ℚ) (v : ℚ) : Option ℚ :=
  match desc with
  | some d => some (min d v)
  | none => some v

/-- `finalizeLine(line, allChars, width, spaceCount, visibleCount,
maxAscender, maxDescender)`: trailing spaces (down to the line's first
character) are trimmed from the stored width; last/visible character
indices and the character count are refreshed when the line is nonempty. -/
def finalizeLine (line : LineInfo) (allChars : List CharacterInfo) (width : ℚ)
    (spaceCount visibleCount : Nat) (maxAsc maxDesc : Option ℚ) : LineInfo :=
  -- the backward scan stops at the first non-space (or at firstCharIndex);
  -- its last assignment is the x of the deepest trailing space
  let k := ((allChars.drop line.firstCharIndex).reverse.takeWhile
    (fun c => c.char == ' ')).length
  let trimmedWidth :=
    if k = 0 then width else (allChars.getD (allChars.length - k) default).x
  let line :=
    { line with
        width := if trimmedWidth > 0 then trimmedWidth else width
        spaceCount := spaceCount
        ascender := maxAsc.getD 0
        descender := maxDesc.getD 0
        visibleCharacterCount := visibleCount }
  if allChars.length > line.firstCharIndex then
    let lastCharIndex := allChars.length - 1
    let lastChar := allChars.getD lastCharIndex default
    let visIdx := (List.range' line.firstCharIndex (lastCharIndex + 1 - line.firstCharIndex)).filter
      (fun i => (allChars.getD i default).isVisible)
    { line with
        lastCharIndex := lastCharIndex
        characterCount := (lastCharIndex : Int) - (line.firstCharIndex : Int) + 1
        maxAdvance := lastChar.xAdvance
        firstVisibleCharIndex := match visIdx.head? with | some i => (i : Int) | none => -1
        lastVisibleCharIndex := match visIdx.getLast? with | some i => (i : Int) | none => -1 }
  else line

/-- `flushWord()`: place the buffered word, moving it to a freshly started
line when wrapping requires it. -/
def flushWord (ctx : LCtx) (st : LState) : LState :=
  if st.wordBuffer.isEmpty then st else
  let firstPC := ctx.chars.getD ((st.wordBuffer.headD default).index) default
  let wrapWidth := getWrapWidth ctx firstPC
  -- 5% overflow tolerance for justified/flush text
  let effectiveAlign := getAlign ctx firstPC
  let tolerance : ℚ := if isJustifiedOrFlush effectiveAlign then 21 / 20 else 1
  let addToNextLine := !st.isFirstWord ∧ ctx.style.wordWrap ∧
    st.cursorX + st.wordWidth > wrapWidth * tolerance
  let st : LState :=
    if addToNextLine then
      let line := finalizeLine st.currentLine st.characterInfo st.cursorX
        st.lineSpaceCount st.lineVisibleCount st.lineMaxAscender st.lineMaxDescender
      let st : LState := { st with
        lineInfos := st.lineInfos ++ [line]
        maxWidth := max st.maxWidth line.width
        lineIndex := st.lineIndex + 1
        cursorY := st.cursorY +
          dynamicAdvance st.lineMaxAscender st.lineMaxDescender st.currentLineHeight
        cursorX := ctx.style.marginLeft
        lineSpaceCount := 0
        lineVisibleCount := 0
        lineMaxAscender := none
        lineMaxDescender := none }
      let st : LState :=
        if firstPC.indent > 0 then { st with cursorX := firstPC.indent } else st
      let st : LState :=
        if firstPC.marginLeft > 0 then
          { st with cursorX := st.cursorX + firstPC.marginLeft } else st
      { st with
          currentLine := createLineInfo st.characterInfo.length st.cursorY
            st.currentLineHeight (getAlign ctx firstPC)
          isFirstWord := true }
    else st
  let placed := st.wordBuffer.map (fun ci =>
    { ci with x := ci.x + st.cursorX, lineIndex := st.lineIndex, wordIndex := st.wordIndex })
  let newChars := st.characterInfo ++ placed
  let cursorX := st.cursorX + st.wordWidth
  { st with
      characterInfo := newChars
      currentLine := { st.currentLine with
        lastCharIndex := newChars.length - 1
        characterCount := ((newChars.length : Int) - 1) - (st.currentLine.firstCharIndex : Int) + 1
        width := cursorX }
      cursorX := cursorX
      isFirstWord := false
      wordInfos := st.wordInfos ++
        [⟨st.wordStart, newChars.length - 1, st.wordBuffer.length, st.wordWidth, st.lineIndex⟩]
      wordIndex := st.wordIndex + 1
      wordBuffer := []
      wordWidth := 0
      wordStart := newChars.length
      softHyphenBreakIndex := -1 }

/-- The soft-hyphen split inside the break-words branch (only taken when a
hyphen glyph exists): synthesize a visible hyphen, flush the first half of
the buffered word onto the current line, break, and keep the remainder as
the new buffer. -/
def softHyphenSplit (ctx : LCtx) (st : LState) (pc : ParsedChar) (advance : ℚ)
    (hyphenChar : CharData) : LState :=
  let base := ctx.font.baseMeasurementFontSize
  let fontAscender := ctx.font.fontMetrics.ascent
  let fontDescender := ctx.font.fontMetrics.descent
  let k := st.softHyphenBreakIndex.toNat
  let prevInBuffer := st.wordBuffer.getD (k - 1) default
  let hyphenScale := (ctx.chars.getD prevInBuffer.index default).fontSize / base
  let hyphenW : ℚ :=
    match hyphenChar.texture with
    | some t => t.origWidth * hyphenScale
    | none => 0
  let hyphenH : ℚ :=
    match hyphenChar.texture with
    | some t => t.origHeight * hyphenScale
    | none => 0
  let hyphenCi : CharacterInfo :=
    { acquireCharacterInfo with
        index := prevInBuffer.index,
        char := '-',
        isVisible := true,
        texture := hyphenChar.texture,
        x := prevInBuffer.x + prevInBuffer.width,
        y := prevInBuffer.y,
        width := hyphenW,
        height := hyphenH,
        scale := hyphenScale,
        color := prevInBuffer.color,
        alpha := prevInBuffer.alpha,
        bold := prevInBuffer.bold,
        italic := prevInBuffer.italic,
        underline := prevInBuffer.underline,
        strikethrough := prevInBuffer.strikethrough,
        markColor := prevInBuffer.markColor,
        charScale := 1,
        rotation := 0,
        lineIndex := st.lineIndex,
        wordIndex := st.wordIndex,
        origin := st.cursorX + prevInBuffer.x + prevInBuffer.width,
        xAdvance := st.cursorX + prevInBuffer.x + prevInBuffer.width +
          hyphenChar.xAdvance * hyphenScale,
        ascender := fontAscender * hyphenScale,
        descender := fontDescender * hyphenScale,
        elementType := ElemType.character }
  let firstHalf := st.wordBuffer.take k ++ [hyphenCi]
  let remainingBuffer := st.wordBuffer.drop k
  -- flush the first half onto the current line
  let placed : List CharacterInfo := firstHalf.map (fun c =>
    { c with x := c.x + st.cursorX, lineIndex := st.lineIndex, wordIndex := st.wordIndex })
  let visAdd : Nat := (placed.filter (fun c => c.isVisible)).length
  let ascAfter : Option ℚ :=
    placed.foldl (fun a c => trackAsc a c.ascender) st.lineMaxAscender
  let descAfter : Option ℚ :=
    placed.foldl (fun d c => trackDesc d c.descender) st.lineMaxDescender
  let st : LState := { st with
    characterInfo := st.characterInfo ++ placed
    lineVisibleCount := st.lineVisibleCount + visAdd
    lineMaxAscender := ascAfter
    lineMaxDescender := descAfter }
  let firstHalfWidth := hyphenCi.xAdvance - st.cursorX
  let cursorX := st.cursorX + firstHalfWidth
  let st : LState := { st with
    cursorX := cursorX
    currentLine := { st.currentLine with
      width := cursorX
      lastCharIndex := st.characterInfo.length - 1
      characterCount := ((st.characterInfo.length : Int) - 1) -
        (st.currentLine.firstCharIndex : Int) + 1 } }
  let line := finalizeLine st.currentLine st.characterInfo st.cursorX
    st.lineSpaceCount st.lineVisibleCount st.lineMaxAscender st.lineMaxDescender
  let st : LState := { st with
    lineInfos := st.lineInfos ++ [line]
    maxWidth := max st.maxWidth line.width
    lineIndex := st.lineIndex + 1
    cursorY := st.cursorY +
      dynamicAdvance st.lineMaxAscender st.lineMaxDescender st.currentLineHeight
    cursorX := ctx.style.marginLeft
    lineSpaceCount := 0
    lineVisibleCount := 0
    lineMaxAscender := none
    lineMaxDescender := none }
  let st : LState :=
    if pc.marginLeft > 0 then { st with cursorX := st.cursorX + pc.marginLeft } else st
  let st : LState := { st with
    currentLine := createLineInfo st.characterInfo.length st.cursorY
      st.currentLineHeight (getAlign ctx pc)
    isFirstWord := true
    wordIndex := st.wordIndex + 1 }
  -- re-position the remaining characters relative to 0
  let offsetX : ℚ := match remainingBuffer.head? with
    | some c => c.x
    | none => 0
  let shifted : List CharacterInfo :=
    remainingBuffer.map (fun c => { c with x := c.x - offsetX })
  let wordWidth : ℚ := shifted.foldl
    (fun (w : ℚ) (c : CharacterInfo) =>
      max w (c.x + (if c.width ≠ 0 then c.width else advance))) 0
  { st with
      wordWidth := wordWidth
      wordBuffer := shifted
      wordStart := st.characterInfo.length
      softHyphenBreakIndex := -1 }

/-- The unconditional mid-word break of break-words mode (no usable soft
hyphen): flush, finalize the line and start a new one before the current
character. -/
def breakWordsNewLine (ctx : LCtx) (st : LState) (pc : ParsedChar) : LState :=
  let st := flushWord ctx st
  let line := finalizeLine st.currentLine st.characterInfo st.cursorX
    st.lineSpaceCount st.lineVisibleCount st.lineMaxAscender st.lineMaxDescender
  let st : LState := { st with
    lineInfos := st.lineInfos ++ [line]
    maxWidth := max st.maxWidth line.width
    lineIndex := st.lineIndex + 1
    cursorY := st.cursorY +
      dynamicAdvance st.lineMaxAscender st.lineMaxDescender st.currentLineHeight
    cursorX := ctx.style.marginLeft
    lineSpaceCount := 0
    lineVisibleCount := 0
    lineMaxAscender := none
    lineMaxDescender := none }
  let st : LState :=
    if pc.marginLeft > 0 then { st with cursorX := st.cursorX + pc.marginLeft } else st
  { st with
      currentLine := createLineInfo st.characterInfo.length st.cursorY
        st.currentLineHeight (getAlign ctx pc)
      isFirstWord := true }

/-- The explicit-line-break branch of the layout loop. -/
def lineBreakStep (ctx : LCtx) (st : LState) (i : Nat) (pc : ParsedChar) : LState :=
  let st := flushWord ctx st
  let ci := createCharacterInfo i pc none 0 st.cursorX st.cursorY 0 0
    st.lineIndex st.wordIndex
  let ci : CharacterInfo := { ci with origin := st.cursorX, xAdvance := st.cursorX }
  let st : LState := { st with characterInfo := st.characterInfo ++ [ci] }
  let line := finalizeLine st.currentLine st.characterInfo st.cursorX
    st.lineSpaceCount st.lineVisibleCount st.lineMaxAscender st.lineMaxDescender
  let currentEmScale := ctx.style.fontSize * (1 / 100)
  let paragraphExtra := ctx.style.paragraphSpacing * currentEmScale
  let st : LState := { st with
    lineInfos := st.lineInfos ++ [line],
    maxWidth := max st.maxWidth line.width,
    lineIndex := st.lineIndex + 1,
    cursorY := st.cursorY +
      dynamicAdvance st.lineMaxAscender st.lineMaxDescender st.currentLineHeight +
      paragraphExtra,
    cursorX := ctx.style.marginLeft,
    lineSpaceCount := 0,
    lineVisibleCount := 0,
    lineMaxAscender := none,
    lineMaxDescender := none,
    currentLineHeight := baseLineHeightOf ctx }
  let st : LState :=
    match ctx.chars.get? (i + 1) with
    | some npc =>
      let st := if npc.indent > 0 then { st with cursorX := npc.indent } else st
      let st := if npc.marginLeft > 0 then
        { st with cursorX := st.cursorX + npc.marginLeft } else st
      let st := if npc.lineIndent > 0 then
        { st with cursorX := st.cursorX + npc.lineIndent } else st
      { st with currentLine := (createLineInfo st.characterInfo.length st.cursorY
          st.currentLineHeight (getAlign ctx npc)) }
    | none =>
      { st with currentLine := (createLineInfo st.characterInfo.length st.cursorY
          st.currentLineHeight ctx.style.align) }
  { st with isFirstWord := true, previousChar := none }

/-- The tab branch of the layout loop: advance to the next tab stop. -/
def tabStep (ctx : LCtx) (st : LState) (i : Nat) (pc : ParsedChar) : LState :=
  let base := ctx.font.baseMeasurementFontSize
  let st := flushWord ctx st
  let tabW := if ctx.font.tabWidth > 0 then
      ctx.font.tabWidth * (ctx.style.fontSize / base)
    else ctx.style.fontSize * 4
  let st : LState :=
    if tabW > 0 then
      let cx := (⌈st.cursorX / tabW⌉ : Int) * tabW
      let cx := if cx = 0 then tabW else cx
      { st with cursorX := cx }
    else st
  let ci := createCharacterInfo i pc none 0 st.cursorX st.cursorY 0 0
    st.lineIndex st.wordIndex
  let ci : CharacterInfo := { ci with origin := st.cursorX, xAdvance := st.cursorX }
  let newChars := st.characterInfo ++ [ci]
  { st with
      characterInfo := newChars,
      currentLine := { st.currentLine with
        width := st.cursorX,
        lastCharIndex := newChars.length - 1,
        characterCount := ((newChars.length : Int) - 1) -
          (st.currentLine.firstCharIndex : Int) + 1 },
      wordStart := newChars.length,
      previousChar := none }

/-- The inline-sprite branch of the layout loop. -/
def spriteStep (ctx : LCtx) (st : LState) (i : Nat) (pc : ParsedChar) : LState :=
  let base := ctx.font.baseMeasurementFontSize
  let sprite : Option SpriteEntry :=
    if pc.spriteIndex ≥ 0 then
      if !pc.spriteAsset.isEmpty then
        ctx.sprites.getSpriteByIndex pc.spriteAsset pc.spriteIndex
      else ctx.sprites.findSpriteByIndex pc.spriteIndex
    else
      if !pc.spriteAsset.isEmpty then
        ctx.sprites.getSprite pc.spriteAsset pc.spriteName
      else ctx.sprites.findSprite pc.spriteName
  let st : LState :=
    match sprite with
    | some sp =>
      let spriteScale := pc.fontSize / base
      let w := (if sp.width ≠ 0 then sp.width else sp.texture.width) * spriteScale
      let h := (if sp.height ≠ 0 then sp.height else sp.texture.height) * spriteScale
      let advance := (if sp.xAdvance ≠ 0 then sp.xAdvance else w) * spriteScale
      let yOff := sp.yOffset * spriteScale
      let ci := createCharacterInfo i pc (some sp.texture) spriteScale
        st.wordWidth yOff w h st.lineIndex st.wordIndex
      let ci : CharacterInfo := { ci with
        isVisible := true,
        elementType := ElemType.sprite,
        origin := st.cursorX + st.wordWidth,
        xAdvance := st.cursorX + st.wordWidth + advance,
        ascender := -yOff,
        descender := -yOff - h }
      let ci := if pc.spriteTint ≥ 0 then { ci with color := pc.spriteTint } else ci
      { st with
          lineMaxAscender := trackAsc st.lineMaxAscender ci.ascender,
          lineMaxDescender := trackDesc st.lineMaxDescender ci.descender,
          lineVisibleCount := st.lineVisibleCount + 1,
          wordBuffer := st.wordBuffer ++ [ci],
          wordWidth := st.wordWidth + advance }
    | none => st
  { st with previousChar := none }

/-- The zero-width-space branch of the layout loop: a break opportunity
with zero advance. -/
def zwspStep (ctx : LCtx) (st : LState) (i : Nat) (pc : ParsedChar) : LState :=
  let st := flushWord ctx st
  let ci := createCharacterInfo i pc none 0 st.cursorX st.cursorY 0 0
    st.lineIndex st.wordIndex
  let ci : CharacterInfo := { ci with origin := st.cursorX, xAdvance := st.cursorX }
  let newChars := st.characterInfo ++ [ci]
  { st with
      characterInfo := newChars,
      currentLine := { st.currentLine with
        lastCharIndex := newChars.length - 1,
        characterCount := ((newChars.length : Int) - 1) -
          (st.currentLine.firstCharIndex : Int) + 1 },
      wordStart := newChars.length,
      previousChar := none }

/-- The breakable-space branch of the layout loop. -/
def spaceCharStep (ctx : LCtx) (st : LState) (i : Nat) (pc : ParsedChar)
    (charScale advance : ℚ) : LState :=
  let fontAscender := ctx.font.fontMetrics.ascent
  let fontDescender := ctx.font.fontMetrics.descent
  let st := flushWord ctx st
  let ci := createCharacterInfo i pc none charScale st.cursorX st.cursorY 0 0
    st.lineIndex st.wordIndex
  let ci : CharacterInfo := { ci with
    origin := st.cursorX,
    xAdvance := st.cursorX + advance + ctx.style.wordSpacing,
    ascender := fontAscender * charScale,
    descender := fontDescender * charScale }
  let newChars := st.characterInfo ++ [ci]
  let cursorX := st.cursorX + advance + ctx.style.wordSpacing
  { st with
      characterInfo := newChars,
      cursorX := cursorX,
      currentLine := { st.currentLine with
        width := cursorX,
        lastCharIndex := newChars.length - 1,
        characterCount := ((newChars.length : Int) - 1) -
          (st.currentLine.firstCharIndex : Int) + 1 },
      lineSpaceCount := st.lineSpaceCount + 1,
      wordStart := newChars.length,
      previousChar := some pc.char }

/-- The no-break-space branch: the space joins the current word. -/
def nobrSpaceStep (ctx : LCtx) (st : LState) (i : Nat) (pc : ParsedChar)
    (cd : CharData) (charScale advance : ℚ) : LState :=
  let fontAscender := ctx.font.fontMetrics.ascent
  let fontDescender := ctx.font.fontMetrics.descent
  let ci := createCharacterInfo i pc cd.texture charScale st.wordWidth 0 0 0
    st.lineIndex st.wordIndex
  let ci : CharacterInfo := { ci with
    origin := st.cursorX + st.wordWidth,
    xAdvance := st.cursorX + st.wordWidth + advance,
    ascender := fontAscender * charScale,
    descender := fontDescender * charScale }
  { st with
      wordBuffer := st.wordBuffer ++ [ci],
      wordWidth := st.wordWidth + advance,
      previousChar := some pc.char }

/-- The tail of the regular-glyph branch: build the positioned character and
append it to the word buffer. -/
def glyphAppend (ctx : LCtx) (st : LState) (i : Nat) (pc : ParsedChar)
    (cd : CharData) (charScale totalCharScale effectiveVOffset kerning advance : ℚ) :
    LState :=
  let fontAscender := ctx.font.fontMetrics.ascent
  let fontDescender := ctx.font.fontMetrics.descent
  -- bold weight simulation expands the glyph quad
  let boldExpand := if pc.bold then ctx.font.boldStyle * totalCharScale else 0
  let w := match cd.texture with
    | some t => t.origWidth * totalCharScale + boldExpand
    | none => 0
  let h := match cd.texture with
    | some t => t.origHeight * totalCharScale + boldExpand
    | none => 0
  let xOff := cd.xOffset * totalCharScale - boldExpand * (1 / 2)
  let yOff := (cd.yOffset + effectiveVOffset) * totalCharScale - boldExpand * (1 / 2)
  let ci := createCharacterInfo i pc cd.texture charScale
    (st.wordWidth + xOff + kerning * charScale) yOff w h
    st.lineIndex st.wordIndex
  let glyphAscender := cd.yOffset * totalCharScale
  let glyphDescender := (cd.yOffset -
    (match cd.texture with | some t => t.origHeight | none => 0)) * totalCharScale
  let ci : CharacterInfo := { ci with
    isVisible := cd.texture.isSome,
    origin := st.cursorX + st.wordWidth,
    xAdvance := st.cursorX + st.wordWidth + advance,
    ascender := max (fontAscender * totalCharScale) glyphAscender,
    descender := min (fontDescender * totalCharScale) glyphDescender }
  let st : LState :=
    if ci.isVisible then
      { st with
          lineMaxAscender := trackAsc st.lineMaxAscender ci.ascender,
          lineMaxDescender := trackDesc st.lineMaxDescender ci.descender,
          lineVisibleCount := st.lineVisibleCount + 1 }
    else st
  { st with
      wordBuffer := st.wordBuffer ++ [ci],
      wordWidth := st.wordWidth + advance,
      previousChar := some pc.char }

/-- The regular-glyph branch of the layout loop (a character that is neither
a space handled above nor synthetic), including the break-words wrap check. -/
def glyphStep (ctx : LCtx) (st : LState) (i : Nat) (pc : ParsedChar)
    (cd : CharData) (charScale totalCharScale effectiveVOffset kerning advance : ℚ) :
    LState :=
  let wrapWidth := getWrapWidth ctx pc
  -- 5% overflow tolerance for justified/flush text
  let tolerance : ℚ :=
    if isJustifiedOrFlush (getAlign ctx pc) then 21 / 20 else 1
  let st : LState :=
    if ctx.style.breakWords ∧ ctx.style.wordWrap ∧
        st.cursorX + st.wordWidth + advance > wrapWidth * tolerance ∧
        st.wordBuffer.length > 0 then
      if st.softHyphenBreakIndex > 0 ∧
          st.softHyphenBreakIndex < (st.wordBuffer.length : Int) then
        match ctx.font.chars '-' with
        | some hyphenChar => softHyphenSplit ctx st pc advance hyphenChar
        | none => st
      else breakWordsNewLine ctx st pc
    else st
  glyphAppend ctx st i pc cd charScale totalCharScale effectiveVOffset kerning advance

/-- One iteration of the layout loop, at character index `i`. -/
def layoutStep (ctx : LCtx) (st : LState) (i : Nat) : LState :=
  let pc := ctx.chars.getD i default
  let base := ctx.font.baseMeasurementFontSize
  -- line height override
  let st : LState :=
    if pc.lineHeightOverride > 0 then
      { st with currentLineHeight := pc.lineHeightOverride }
    else st
  if pc.isLineBreak then lineBreakStep ctx st i pc
  else if pc.charCode = 0x09 then tabStep ctx st i pc
  else
    -- pending extra space from <space=N>
    let st : LState :=
      match pc.extraSpace with
      | some e =>
        if e > 0 then
          let st : LState := { st with cursorX := st.cursorX + e }
          if !st.wordBuffer.isEmpty then { st with wordWidth := st.wordWidth + e }
          else st
        else st
      | none => st
    -- pending fixed position from <pos=N>
    let st : LState :=
      match pc.fixedPosition with
      | some p =>
        let st := flushWord ctx st
        { st with cursorX := p }
      | none => st
    if pc.isSprite then spriteStep ctx st i pc
    -- soft hyphen: record a break opportunity, emit nothing
    else if pc.charCode = 0xAD then
      { st with softHyphenBreakIndex := (st.wordBuffer.length : Int),
                previousChar := some pc.char }
    else if pc.charCode = 0x200B then zwspStep ctx st i pc
    else
      let charScale := pc.fontSize / base
      let totalCharScale := charScale * pc.charScale
      let effectiveVOffset :=
        if pc.isSuperscript ∧ ctx.font.superscriptOffset ≠ 0 then
          ctx.font.superscriptOffset * charScale
        else if pc.isSubscript ∧ ctx.font.subscriptOffset ≠ 0 then
          ctx.font.subscriptOffset * charScale
        else pc.voffset
      -- primary font, then fallbacks, then the space glyph as last resort
      let charData :=
        match ctx.font.lookupFallback pc.char with
        | some cd => some cd
        | none => ctx.font.chars ' '
      match charData with
      | none => { st with previousChar := some pc.char }
      | some cd =>
        let isSpace := jsIsSpace pc.char
        let kerning :=
          match st.previousChar with
          | some prev => kerningLookup cd prev
          | none => 0
        -- em-based characterSpacing (em = fontSize × 0.01); the letter
        -- spacing renormalisation divides by the character's font size
        -- (a zero font size yields 0 here where JS yields Infinity)
        let emSpacing := ctx.style.characterSpacing * pc.fontSize * (1 / 100)
        let letterSpacing := (ctx.style.letterSpacing + pc.cspace + emSpacing) *
          (base / pc.fontSize)
        let boldExtra :=
          if pc.bold then (ctx.font.boldSpacing / base) * totalCharScale else 0
        let advance :=
          if pc.mspace > 0 then pc.mspace * pc.charScale
          else (cd.xAdvance + kerning + letterSpacing) * totalCharScale + boldExtra
        if isSpace ∧ !pc.isNoBreak then
          spaceCharStep ctx st i pc charScale advance
        else if isSpace ∧ pc.isNoBreak then
          nobrSpaceStep ctx st i pc cd charScale advance
        else
          glyphStep ctx st i pc cd charScale totalCharScale effectiveVOffset
            kerning advance

/-! ## Post-layout passes -/

/-- `applyAlignment` for a single line (`li` in `[0, numLines)`). -/
def alignLine (cs : List CharacterInfo) (cw : ℚ) (defaultAlign : List Char)
    (ratios : ℚ) (numLines li : Nat) (line : LineInfo) :
    LineInfo × List CharacterInfo :=
  let align := if line.alignment.isEmpty then defaultAlign else line.alignment
  let offset : ℚ :=
    if align = strL "center" then (cw - line.width) / 2
    else if align = strL "right" then cw - line.width
    else 0
  let idxs : List Nat :=
    (List.range' line.firstCharIndex (line.lastCharIndex + 1 - line.firstCharIndex)).filter
      (fun i => i < cs.length)
  let justifiedResult : Option (LineInfo × List CharacterInfo) :=
    if align = strL "justified" ∨ align = strL "flush" then
      let isLastLine := li = numLines - 1
      let endsWithBreak := line.lastCharIndex < cs.length ∧
        (cs.getD line.lastCharIndex default).char = '\n'
      let isFlush := align = strL "flush"
      -- justified skips the last line (and break-terminated lines) unless
      -- the content already overflows; flush justifies everything
      if (¬isLastLine ∧ ¬endsWithBreak) ∨ isFlush ∨ line.maxAdvance > cw then
        let gap := cw - line.width
        if gap > 0 then
          -- count visible characters (excluding the first) and spaces
          let counts : Nat × Nat × Bool := idxs.foldl
            (fun (acc : Nat × Nat × Bool) i =>
              let (vis, sp, firstVis) := acc
              let ci := cs.getD i default
              let (vis, firstVis) :=
                if ci.isVisible then (if firstVis then (vis, false) else (vis + 1, firstVis))
                else (vis, firstVis)
              let sp := if ci.char = ' ' then sp + 1 else sp
              (vis, sp, firstVis))
            (0, 0, true)
          let visibleCount := counts.1
          let spaces := counts.2.1
          let ratio : ℚ := if spaces > 0 then ratios else 1
          let safeSpaces : ℚ := max (spaces : ℚ) 1
          let safeVisible : ℚ := max (visibleCount : ℚ) 1
          let spaceExtra := gap * (1 - ratio) / safeSpaces
          let charExtra := gap * ratio / safeVisible
          let distributed : List CharacterInfo × ℚ × Bool := idxs.foldl
            (fun (acc : List CharacterInfo × ℚ × Bool) i =>
              let (cs, cum, firstVis) := acc
              let ci := cs.getD i default
              let cum :=
                if i > line.firstCharIndex then
                  if ci.char = ' ' then cum + spaceExtra
                  else if ci.isVisible ∧ ¬firstVis then cum + charExtra
                  else cum
                else cum
              let firstVis := if ci.isVisible ∧ firstVis then false else firstVis
              (listModify (fun c => { c with x := c.x + cum }) i cs, cum, firstVis))
            (cs, 0, true)
          some ({ line with width := cw, alignmentOffset := 0 }, distributed.1)
        else none
      else none
    else none
  match justifiedResult with
  | some r => r
  | none =>
    if offset ≠ 0 then
      ({ line with alignmentOffset := offset },
       idxs.foldl (fun cs i => listModify (fun c => { c with x := c.x + offset }) i cs) cs)
    else (line, cs)

/-- `applyAlignment(lines, chars, containerWidth, defaultAlign, ratios)`. -/
def applyAlignment (lines : List LineInfo) (chars : List CharacterInfo)
    (cw : ℚ) (defaultAlign : List Char) (ratios : ℚ) :
    List LineInfo × List CharacterInfo :=
  (List.range lines.length).foldl
    (fun (acc : List LineInfo × List CharacterInfo) li =>
      let (ls, cs) := acc
      let (line2, cs2) := alignLine cs cw defaultAlign ratios lines.length li
        (ls.getD li default)
      (ls.set li line2, cs2))
    (lines, chars)

/-- `createLinkInfo`: one bounding rectangle per line the link spans. -/
def createLinkInfo (linkId : List Char) (firstIdx lastIdx : Nat)
    (chars : List CharacterInfo) (lines : List LineInfo) : LinkInfo :=
  let init : List Rect × Nat × Nat :=
    ([], firstIdx, (chars.getD firstIdx default).lineIndex)
  let final := (List.range' firstIdx (lastIdx + 2 - firstIdx)).foldl
    (fun (acc : List Rect × Nat × Nat) i =>
      let (rects, lineStart, currentLine) := acc
      let ciOpt : Option CharacterInfo :=
        if i ≤ lastIdx then some (chars.getD i default) else none
      let lineChanged : Bool :=
        match ciOpt with
        | some ci => decide (ci.lineIndex ≠ currentLine)
        | none => true
      if lineChanged ∧ lineStart < i then
        let first := chars.getD lineStart default
        let last := chars.getD (i - 1) default
        let line := lines.get? currentLine
        let rect : Rect :=
          { x := first.x,
            y := match line with | some l => l.y | none => first.y,
            width := (last.x + last.width) - first.x,
            height := match line with | some l => l.height | none => 20 }
        match ciOpt with
        | some ci => (rects ++ [rect], i, ci.lineIndex)
        | none => (rects ++ [rect], lineStart, currentLine)
      else acc)
    init
  ⟨linkId, firstIdx, lastIdx, final.1⟩

/-- `buildLinkInfo(parsed, chars, lines)`: consecutive characters sharing a
non-empty link id form one region. -/
def buildLinkInfo (parsed : List ParsedChar) (chars : List CharacterInfo)
    (lines : List LineInfo) : List LinkInfo :=
  let final : List LinkInfo × List Char × Int :=
    (List.range (chars.length + 1)).foldl
      (fun (acc : List LinkInfo × List Char × Int) i =>
        let (links, currentLinkId, linkStart) := acc
        let pcOpt : Option ParsedChar :=
          if i < parsed.length then
            parsed.get? ((((chars.get? i).map (fun c => c.index))).getD i)
          else none
        let linkId : List Char :=
          match pcOpt with
          | some pc => if pc.isLink then pc.linkId else []
          | none => []
        if linkId ≠ currentLinkId then
          let links :=
            if ¬currentLinkId.isEmpty ∧ linkStart ≥ 0 then
              links ++ [createLinkInfo currentLinkId linkStart.toNat (i - 1) chars lines]
            else links
          (links, linkId, if ¬linkId.isEmpty then (i : Int) else -1)
        else acc)
      ([], [], -1)
  final.1

/-- The `lastVisibleLine` scan of `applyOverflow` (stops at the first line
that no longer fits). -/
def lastFitAux (h : ℚ) : List LineInfo → Nat → Int → Int
  | [], _, acc => acc
  | l :: ls, i, acc =>
    if l.y + l.height ≤ h then lastFitAux h ls (i + 1) (i : Int) else acc

/-- The trailing-word trim of `applyOverflow`. -/
def trimWordsLoop (cutIdx : Nat) : Nat → List WordInfo → List WordInfo
  | 0, ws => ws
  | fuel + 1, ws =>
    match ws.getLast? with
    | some w =>
      if w.firstCharIndex ≥ cutIdx then trimWordsLoop cutIdx fuel ws.dropLast else ws
    | none => ws

/-- The character-removal loop of ellipsis mode: pop trailing characters
until enough room for the ellipsis glyph is freed. -/
def ellipsisTrimLoop (lowBound : Nat) (dotWidth : ℚ) :
    Nat → List CharacterInfo → ℚ → List CharacterInfo
  | 0, cs, _ => cs
  | fuel + 1, cs, removed =>
    if cs.length > lowBound ∧ removed < dotWidth then
      let last := (cs.getLast?).getD default
      ellipsisTrimLoop lowBound dotWidth fuel cs.dropLast
        (removed + (if last.width ≠ 0 then last.width else dotWidth / 3))
    else cs

/-- `applyOverflow(lines, chars, words, containerHeight, mode, font,
charScale)`. -/
def applyOverflow (lines : List LineInfo) (chars : List CharacterInfo)
    (words : List WordInfo) (containerHeight : ℚ) (mode : OverflowMode)
    (font : FontL) (charScale : ℚ) :
    List LineInfo × List CharacterInfo × List WordInfo :=
  let lastVisibleLineI : Int := lastFitAux containerHeight lines 0 (-1)
  let lastVisibleLine : Nat := if lastVisibleLineI < 0 then 0 else lastVisibleLineI.toNat
  let lastLine := lines.getD lastVisibleLine default
  let cutIdx := lastLine.lastCharIndex + 1
  -- JS `chars.length = cutIdx` (a `cutIdx` beyond the current length pads
  -- with empty slots carrying no records, so the records kept are exactly
  -- this prefix)
  let chars := chars.take cutIdx
  let lines := lines.take (lastVisibleLine + 1)
  let words := trimWordsLoop cutIdx words.length words
  let chars :=
    if mode = OverflowMode.ellipsis ∧ cutIdx > 0 then
      let dotChar :=
        match font.chars '…' with
        | some dc => some dc
        | none => font.chars '.'
      match dotChar with
      | some dc =>
        let dotWidth := dc.xAdvance * charScale
        let chars := ellipsisTrimLoop lastLine.firstCharIndex dotWidth
          chars.length chars 0
        if chars.length > 0 then
          let prev := (chars.getLast?).getD default
          let ciW : ℚ := match dc.texture with
            | some t => t.origWidth * charScale
            | none => dotWidth
          let ciH : ℚ := match dc.texture with
            | some t => t.origHeight * charScale
            | none => prev.height
          let ci : CharacterInfo :=
            { acquireCharacterInfo with
                index := prev.index + 1,
                char := '…',
                isVisible := true,
                texture := dc.texture,
                x := prev.x + prev.width,
                y := prev.y,
                width := ciW,
                height := ciH,
                scale := charScale,
                color := prev.color,
                alpha := prev.alpha,
                bold := prev.bold,
                italic := prev.italic,
                underline := false,
                strikethrough := false,
                markColor := 0,
                charScale := 1,
                rotation := 0,
                lineIndex := prev.lineIndex,
                wordIndex := prev.wordIndex,
                origin := prev.xAdvance,
                xAdvance := prev.xAdvance + dotWidth,
                ascender := prev.ascender,
                descender := prev.descender,
                elementType := ElemType.character,
                material := [] }
          chars ++ [ci]
        else chars
      | none => chars
    else chars
  let lines :=
    if lines.length > 0 then
      listModify (fun l => { l with
        lastCharIndex := chars.length - 1,
        characterCount := ((chars.length : Int) - 1) - (l.firstCharIndex : Int) + 1 })
        (lines.length - 1) lines
    else lines
  (lines, chars, words)

/-- `emptyTextInfo`: the result for an empty character sequence. -/
def emptyTextInfo : TextInfo :=
  ⟨[], [], [], [], 0, 0, 0, 0, 0, 0⟩

/-- `TMPLayoutEngine.layout(chars, font, style)` (with the sprite manager
passed explicitly as the collaborator it is). -/
def layout (chars : List ParsedChar) (font : FontL) (style : StyleL)
    (sprites : SpriteManager) : TextInfo :=
  if chars.isEmpty then emptyTextInfo else
  let ctx : LCtx := ⟨chars, font, style, sprites⟩
  let baseLineHeight := baseLineHeightOf ctx
  let cursorY0 := font.baseLineOffset + style.marginTop
  let first := chars.getD 0 default
  let st0 : LState :=
    { characterInfo := [],
      lineInfos := [],
      wordInfos := [],
      -- line-indent applies at text start
      cursorX := if first.lineIndent > 0 then first.lineIndent else style.marginLeft,
      cursorY := cursorY0,
      lineIndex := 0,
      wordIndex := 0,
      maxWidth := 0,
      currentLineHeight := baseLineHeight,
      lineMaxAscender := none,
      lineMaxDescender := none,
      currentLine := createLineInfo 0 cursorY0 baseLineHeight (getAlign ctx first),
      wordBuffer := [],
      wordWidth := 0,
      wordStart := 0,
      isFirstWord := true,
      lineSpaceCount := 0,
      lineVisibleCount := 0,
      softHyphenBreakIndex := -1,
      previousChar := none }
  let st := (List.range chars.length).foldl (layoutStep ctx) st0
  let st := flushWord ctx st
  let line := finalizeLine st.currentLine st.characterInfo st.cursorX
    st.lineSpaceCount st.lineVisibleCount st.lineMaxAscender st.lineMaxDescender
  let lineInfos := st.lineInfos ++ [line]
  let maxWidth := max st.maxWidth line.width
  let totalHeight := st.cursorY + st.currentLineHeight - font.baseLineOffset
  -- alignment reference: container width under word wrap, widest line otherwise
  let alignmentWidth := if style.wordWrap then style.wordWrapWidth else maxWidth
  let aligned := applyAlignment lineInfos st.characterInfo alignmentWidth
    style.align style.wordWrappingRatios
  let lineInfos := aligned.1
  let characterInfo := aligned.2
  -- overflow handling
  let overflowed : List LineInfo × List CharacterInfo × List WordInfo × ℚ :=
    if style.overflowMode ≠ OverflowMode.overflow ∧ style.containerHeight > 0 ∧
        totalHeight > style.containerHeight then
      let r := applyOverflow lineInfos characterInfo st.wordInfos
        style.containerHeight style.overflowMode font
        (style.fontSize / font.baseMeasurementFontSize)
      let mw := if r.1.length > 0 then r.1.foldl (fun m l => max m l.width) 0
        else maxWidth
      (r.1, r.2.1, r.2.2, mw)
    else (lineInfos, characterInfo, st.wordInfos, maxWidth)
  let lineInfos := overflowed.1
  let characterInfo := overflowed.2.1
  let wordInfos := overflowed.2.2.1
  let maxWidth := overflowed.2.2.2
  -- vertical alignment
  let vertAlign := style.verticalAlign
  let shifted : List CharacterInfo × List LineInfo :=
    if vertAlign ≠ strL "top" ∧ style.containerHeight > 0 then
      let containerH := style.containerHeight
      let yOffset : ℚ :=
        if vertAlign = strL "middle" then (containerH - totalHeight) / 2
        else if vertAlign = strL "bottom" then containerH - totalHeight
        else if vertAlign = strL "baseline" ∧ lineInfos.length > 0 then
          let firstLine := lineInfos.getD 0 default
          containerH / 2 - (firstLine.y + firstLine.ascender)
        else if vertAlign = strL "midline" then
          containerH / 2 - font.meanLine * (style.fontSize / font.baseMeasurementFontSize)
        else if vertAlign = strL "capline" then
          containerH / 2 - font.capLine * (style.fontSize / font.baseMeasurementFontSize)
        else if vertAlign = strL "geometry" then
          let minY : Option ℚ := characterInfo.foldl
            (fun (m : Option ℚ) c =>
              if c.isVisible then
                some (match m with | some v => min v c.y | none => c.y)
              else m) none
          let maxY : Option ℚ := characterInfo.foldl
            (fun (m : Option ℚ) c =>
              if c.isVisible then
                some (match m with | some v => max v (c.y + c.height) | none => c.y + c.height)
              else m) none
          match minY, maxY with
          | some mn, some mx => (containerH - (mx - mn)) / 2 - mn
          | _, _ => 0
        else 0
      if yOffset ≠ 0 then
        (characterInfo.map (fun c => { c with y := c.y + yOffset }),
         lineInfos.map (fun l => { l with y := l.y + yOffset }))
      else (characterInfo, lineInfos)
    else (characterInfo, lineInfos)
  let characterInfo := shifted.1
  let lineInfos := shifted.2
  let linkInfos := buildLinkInfo chars characterInfo lineInfos
  { characterInfo := characterInfo,
    lineInfo := lineInfos,
    wordInfo := wordInfos,
    linkInfo := linkInfos,
    characterCount := characterInfo.length,
    lineCount := lineInfos.length,
    wordCount := wordInfos.length,
    linkCount := linkInfos.length,
    width := maxWidth,
    height := totalHeight }

/-! ## Fallback-font lookup (`TMPFont.getCharWithFallback`)

Fonts are modelled as indices into a finite font table; the global
`TMPFont._registry` maps lowercased names to fonts.  The JS recursion
carries a shared mutable visited `Set`; here the visited set is threaded
through and returned.  The recursion depth is bounded by the number of
fonts, so the definition takes that bound as fuel; the claim theorems show
the result is independent of the fuel once it reaches the bound. -/

/-- One font of the registry: its glyph table and its fallback font names. -/
structure FFont where
  chars : Char → Option CharData
  fallbackFonts : List (List Char)

/-- The font system: the font table and the name registry
(`registerFont` stores lowercased keys; `Map.set` lets a later
registration win, hence the reversed search). -/
structure FontSys where
  fonts : List FFont
  registry : List (List Char × Nat)

/-- `TMPFont.getFont(name)`. -/
def getFont (sys : FontSys) (name : List Char) : Option Nat :=
  ((sys.registry.reverse.find? (fun p => p.1 == lcList name))).map (fun p => p.2)

/-- `Set.add` (a no-op when the element is present). -/
def setAdd (v : Nat) (s : List Nat) : List Nat :=
  if v ∈ s then s else s ++ [v]

mutual

/-- `getCharWithFallback(char, visited)` on font `idx`: the glyph data and
the font that supplied it, plus the visited set as mutated by the call. -/
def getCharFB (sys : FontSys) (c : Char) :
    Nat → Nat → List Nat → Option (CharData × Nat) × List Nat
  | 0, _, visited => (none, visited)
  | fuel + 1, idx, visited =>
    match (sys.fonts.get? idx).bind (fun f => f.chars c) with
    | some cd => (some (cd, idx), visited)
    | none =>
      let visited := setAdd idx visited
      goFallbacks sys c fuel (((sys.fonts.get? idx).map
        (fun f => f.fallbackFonts)).getD []) visited

/-- The `for (const fbName of this.fallbackFonts)` loop: resolve each name,
skip unregistered or already-visited fonts, return the first hit. -/
def goFallbacks (sys : FontSys) (c : Char) (fuel : Nat) :
    List (List Char) → List Nat → Option (CharData × Nat) × List Nat
  | [], visited => (none, visited)
  | fbName :: rest, visited =>
    match getFont sys fbName with
    | some fb =>
      if fb ∉ visited then
        let r := getCharFB sys c fuel fb visited
        match r.1 with
        | some hit => (some hit, r.2)
        | none => goFallbacks sys c fuel rest r.2
      else goFallbacks sys c fuel rest visited
    | none => goFallbacks sys c fuel rest visited

end

/-- The number of registered font indices not yet visited: the quantity the
visited-set argument of `getCharWithFallback` strictly decreases. -/
def unvisCount (sys : FontSys) (visited : List Nat) : Nat :=
  ((Finset.range sys.fonts.length).filter (fun n => n ∉ visited)).card

/-- A cyclic two-font system: fonts `"f"` and `"g"` are each other's
fallback and neither carries any glyph. -/
def sysC9 : FontSys :=
  ⟨[⟨fun _ => none, [strL "g"]⟩, ⟨fun _ => none, [strL "f"]⟩],
   [(strL "f", 0), (strL "g", 1)]⟩

/-! ## Concrete layout fixtures (the mock font of the repository's test
suite: every printable ASCII glyph advances 10 units at the base
measurement font size 32; the space has no texture) -/

/-- The mock per-character data: `xAdvance` 10, a 10×20 texture. -/
def mockCD : CharData :=
  { xOffset := 0, yOffset := 0, xAdvance := 10, kerning := [],
    texture := some ⟨10, 20, 10, 20⟩ }

/-- The mock font of the test suite. -/
def mockFont : FontL :=
  { chars := fun c => if 32 ≤ c.toNat ∧ c.toNat ≤ 126 then
      (if c = ' ' then some { mockCD with texture := none } else some mockCD) else none,
    lookupFallback := fun c => if 32 ≤ c.toNat ∧ c.toNat ≤ 126 then
      (if c = ' ' then some { mockCD with texture := none } else some mockCD) else none,
    baseMeasurementFontSize := 32, lineHeight := 40, baseLineOffset := 0,
    fontMetrics := ⟨30, 10⟩, tabWidth := 0, boldSpacing := 0, boldStyle := 0,
    superscriptOffset := 0, subscriptOffset := 0, meanLine := 0, capLine := 0 }

/-- The default style with word wrap on at width 60. -/
def wrapStyle : StyleL :=
  { defaultStyle with wordWrap := true, wordWrapWidth := 60 }

/-- A concrete layout context: the parsed `"Hello World"` under the mock
font and the wrapping style. -/
def flushCtx : LCtx :=
  ⟨parseFresh (strL "Hello World") 32 0xffffff (strL "MockFont"),
   mockFont, wrapStyle, emptySprites⟩

/-- A concrete mid-layout state: one buffered character, cursor at 60,
buffered word width 50, not the first word of its line. -/
def flushSt : LState :=
  { characterInfo := [], lineInfos := [], wordInfos := [],
    cursorX := 60, cursorY := 0, lineIndex := 0, wordIndex := 1,
    maxWidth := 0, currentLineHeight := 40,
    lineMaxAscender := none, lineMaxDescender := none,
    currentLine := createLineInfo 0 0 40 (strL "left"),
    wordBuffer := [acquireCharacterInfo],
    wordWidth := 50, wordStart := 0, isFirstWord := false,
    lineSpaceCount := 0, lineVisibleCount := 0,
    softHyphenBreakIndex := -1, previousChar := none }

/-- A parsed character belongs to a gradient run with endpoint colors
`c0`, `c1`: it carries at least two gradient colors and its first two agree
with the endpoints. -/
def gradEndsOk (pc : ParsedChar) (c0 c1 : Int) : Bool :=
  decide (2 ≤ pc.gradientColors.length) &&
    decide (pc.gradientColors.getD 0 0 = c0) &&
    decide (pc.gradientColors.getD 1 0 = c1)

/-- Invariant of the `applyGradients` scan after processing indices
`< i`: list length preserved, entries from `i` on untouched, and when a
region is open it started before `i` and the previous character belongs to
it. -/
def GradInv (chars : List ParsedChar) (i : Nat) (s : GradState) : Prop :=
  s.chars.length = chars.length ∧
  (∀ k, i ≤ k → s.chars.getD k default = chars.getD k default) ∧
  (s.gradStart < 0 ∨
    (1 ≤ i ∧ 0 ≤ s.gradStart ∧ s.gradStart < (i : Int) ∧
      gradEndsOk (chars.getD (i - 1) default)
        (s.gradColors.getD 0 0) (s.gradColors.getD 1 0) = true))

/-- A parsed character carrying the red-to-blue gradient endpoints. -/
def gradPC : ParsedChar :=
  { createParsedChar 'A' 0 (createDefaultStyleState 32 0xffffff []) with
      gradientColors := [16711680, 255] }

/-- A two-character gradient run. -/
def gradChars : List ParsedChar := [gradPC, gradPC]

/-- Position `i` does not start a well-formed `<#RRGGBB[AA]>` standalone
color shorthand. -/
def notShorthandAt (text : List Char) (i : Nat) : Bool :=
  match text.get? (i + 1) with
  | some '#' =>
    (match jsIndexOfFrom text '>' (i + 2) with
     | some closeIdx => !hexShorthandOk (jsTrim (jsSubstring text (i + 2) closeIdx))
     | none => true)
  | _ => true

/-- The tag names the parse loop treats specially by name (synthetic marks,
pending modifiers, sprites, noparse and style presets). -/
def specialTagNames : List (List Char) :=
  [strL "noparse", strL "br", strL "nbsp", strL "zwsp", strL "softhyphen",
   strL "shy", strL "en-space", strL "em-space", strL "cr", strL "zwj",
   strL "space", strL "pos", strL "sprite", strL "style"]

/-- Position `i` of the input is benign: not a carriage return, and when it
is a `<` it starts neither a color shorthand, a `</#>`, nor a tag whose
lowercased name is special or whose FNV-1a hash hits the handler
registry. -/
def benignAt (text : List Char) (i : Nat) : Bool :=
  decide (text.getD i ' ' ≠ '\x0d') &&
  (decide (text.getD i ' ' ≠ '<') ||
    (notShorthandAt text i &&
     !(decide (text.get? (i + 1) = some '/') &&
       decide (text.get? (i + 2) = some '#') &&
       decide (text.get? (i + 3) = some '>')) &&
     (match tryParseTag text i with
      | some tag =>
        decide (lcList tag.tagName ∉ specialTagNames) &&
        (getByHash tag.tagNameHash).isNone
      | none => true)))

/-- Every position of the input is benign: the string holds only ordinary
characters, unrecognized tags and malformed tags. -/
def benignInput (text : List Char) : Bool :=
  (List.range text.length).all (fun i => benignAt text i)

/-- A parser state carrying both pending modifiers (`<space=5><pos=7>`
already processed, cursor at the start of the remaining text). -/
def pendSt : PState :=
  { initPState 32 0xffffff [] freshPersist with
      pendingSpace := some 5, pendingPos := some 7 }

/-! # Claim theorems -/

theorem runOps_append {α : Type} (s : TagStack α) (l₁ l₂ : List (StackOp α)) :
    runOps s (l₁ ++ l₂) = runOps (runOps s l₁) l₂ := by
  induction l₁ generalizing s with
  | nil => rfl
  | cons op rest ih =>
    cases op <;> simp only [runOps, List.cons_append] <;> exact ih _

theorem runOps_balanced {α : Type} {l : List (StackOp α)} (h : Balanced l)
    (s : TagStack α) : runOps s l = s := by
  induction h generalizing s with
  | nil => rfl
  | node v h₁ h₂ ih₁ ih₂ =>
    show runOps (s.push v) (_ ++ StackOp.pop :: _) = s
    rw [runOps_append, ih₁]
    show runOps (TagStack.popS (s.push v)) _ = s
    have hpop : TagStack.popS (s.push v) = s := by
      simp [TagStack.push, TagStack.popS, TagStack.pop]
    rw [hpop, ih₂]

/-- C1.  After any balanced sequence of opens and closes governing one
attribute, the attribute stack — its current value included — is exactly what
it was before the sequence; and a close with no outstanding open (a pop of an
empty stack) is a no-op: it leaves the whole stack unchanged and returns the
unchanged current value, never underflowing. -/
theorem tagStack_balanced_restore_and_pop_noop {α : Type}
    (s : TagStack α) (l : List (StackOp α)) (h : Balanced l) :
    runOps s l = s ∧
      (s.stack = [] → TagStack.pop s = (s.current, s)) := by
  refine ⟨runOps_balanced h s, fun hs => ?_⟩
  simp [TagStack.pop, hs]

/-- Witness for C1: the concrete nested balanced sequence
`push 5; (push 7; pop); pop` over base value 1, on the empty stack. -/
theorem tagStack_balanced_restore_and_pop_noop_witness :
    runOps (TagStack.mk0 (1 : Int))
        [StackOp.push 5, StackOp.push 7, StackOp.pop, StackOp.pop] =
      TagStack.mk0 1 ∧
      ((TagStack.mk0 (1 : Int)).stack = [] →
        TagStack.pop (TagStack.mk0 (1 : Int)) = (1, TagStack.mk0 1)) :=
  tagStack_balanced_restore_and_pop_noop (TagStack.mk0 (1 : Int))
    [StackOp.push 5, StackOp.push 7, StackOp.pop, StackOp.pop]
    (Balanced.node 5 (Balanced.node 7 Balanced.nil Balanced.nil) Balanced.nil)

/-- C3.  Toggle attributes nest by counter: a `<b>` open increments the
counter and turns bold on; a `</b>` close decrements floored at zero and
bold stays on exactly while the counter is positive — so the counter can
never go negative, however many unmatched closes arrive.  Concretely, a
fresh parse of `"A<b><b></b>B</b>C"` emits bold = false, true, false for
A, B, C: the nested close does not turn bold off for B. -/
theorem toggle_counter_nesting (st : PState) (v : List Char) (b : ℚ) :
    ((boldOpen st v b).boldCount = st.boldCount + 1 ∧
      (boldOpen st v b).state.bold = true) ∧
    ((boldClose st).boldCount = max 0 (st.boldCount - 1) ∧
      ((boldClose st).state.bold = true ↔ 0 < (boldClose st).boldCount)) ∧
    0 ≤ (boldClose st).boldCount ∧
    (parseFresh (strL "A<b><b></b>B</b>C") 32 0xffffff (strL "F")).map
      (fun pc => (pc.char, pc.bold)) = [('A', false), ('B', true), ('C', false)] := by
  refine ⟨⟨rfl, rfl⟩, ⟨rfl, ?_⟩, ?_, by decide⟩
  · show decide _ = true ↔ _
    simp [boldClose]
  · show (0 : Int) ≤ max 0 _
    exact le_max_left 0 _

/-- C8 counterexample.  `<space=5>` followed by the synthetic `<br>` mark:
the next emitted record is the line break, but it does not receive the
pending space (its `extraSpace` stays 0) and the value is not cleared — it
is applied to the later text character A instead. -/
theorem pending_space_skips_synthetic_counterexample :
    (parseFresh (strL "<space=5><br>A") 32 0xffffff (strL "F")).map
      (fun pc => (pc.char, pc.extraSpace)) = [('\n', some 0), ('A', some 5)] := by
  decide

/-- C5 counterexample.  Tag dispatch is by 32-bit FNV-1a hash of the name,
and `"qreywk"` — a name registered nowhere — collides with `"align"`: the
tag is dispatched to the align handler and consumed, so the characters of
`parse("A<qreywk>B")` concatenate to `"AB"`, not to the input. -/
theorem unknown_tag_hash_collision_counterexample :
    fnvHash (lcList (strL "qreywk")) = fnvHash (lcList (strL "align")) ∧
    (parseFresh (strL "A<qreywk>B") 32 0xffffff (strL "F")).map
      (fun pc => pc.char) = ['A', 'B'] ∧
    strL "A<qreywk>B" ≠ ['A', 'B'] := by decide

/-- C2.  `flushWord` moves the buffered word to a freshly started line
exactly when word wrapping is enabled, the word is not the first on the
current line, and `cursorX + wordWidth` exceeds the effective wrap width
scaled by the overflow tolerance (21/20 for justified or flush alignment,
1 otherwise); and laying out `"Hello World"` with the 10-unit-advance mock
font, wrapping enabled and wrap width 60 produces exactly 2 lines. -/
theorem flushWord_wrap_iff_and_hello_world
    (ctx : LCtx) (st : LState) (h : st.wordBuffer ≠ []) :
    ((flushWord ctx st).lineIndex = st.lineIndex + 1 ↔
      (st.isFirstWord = false ∧ ctx.style.wordWrap = true ∧
        st.cursorX + st.wordWidth >
          getWrapWidth ctx
              (ctx.chars.getD (st.wordBuffer.headD default).index default) *
            (if isJustifiedOrFlush
                (getAlign ctx
                  (ctx.chars.getD (st.wordBuffer.headD default).index default))
              then 21 / 20 else 1))) ∧
    (layout (parseFresh (strL "Hello World") 32 0xffffff (strL "MockFont"))
        mockFont wrapStyle emptySprites).lineCount = 2 := by
  refine ⟨?_, by decide⟩
  have hne : st.wordBuffer.isEmpty = false := by
    cases hwb : st.wordBuffer with
    | nil => exact absurd hwb h
    | cons a l => rfl
  simp only [flushWord, hne, Bool.false_eq_true, if_false]
  split_ifs with hc h1 h2 h3 <;> simp_all

/-- Witness for C2: the concrete mid-layout state `flushSt` (cursor 60,
buffered width 50, not the first word) in the wrapping context. -/
theorem flushWord_wrap_iff_and_hello_world_witness :
    flushSt.wordBuffer ≠ [] ∧
    (((flushWord flushCtx flushSt).lineIndex = flushSt.lineIndex + 1 ↔
      (flushSt.isFirstWord = false ∧ flushCtx.style.wordWrap = true ∧
        flushSt.cursorX + flushSt.wordWidth >
          getWrapWidth flushCtx
              (flushCtx.chars.getD (flushSt.wordBuffer.headD default).index default) *
            (if isJustifiedOrFlush
                (getAlign flushCtx
                  (flushCtx.chars.getD (flushSt.wordBuffer.headD default).index default))
              then 21 / 20 else 1))) ∧
    (layout (parseFresh (strL "Hello World") 32 0xffffff (strL "MockFont"))
        mockFont wrapStyle emptySprites).lineCount = 2) :=
  ⟨by decide, flushWord_wrap_iff_and_hello_world flushCtx flushSt (by decide)⟩

theorem mem_setAdd_self (v : Nat) (s : List Nat) : v ∈ setAdd v s := by
  unfold setAdd
  split_ifs with h
  · exact h
  · simp

theorem mem_setAdd_of_mem {x : Nat} {s : List Nat} (v : Nat) (h : x ∈ s) :
    x ∈ setAdd v s := by
  unfold setAdd
  split_ifs
  · exact h
  · simp [h]

theorem unvisCount_anti (sys : FontSys) {v₁ v₂ : List Nat}
    (h : ∀ x, x ∈ v₁ → x ∈ v₂) : unvisCount sys v₂ ≤ unvisCount sys v₁ := by
  unfold unvisCount
  apply Finset.card_le_card
  intro n hn
  simp only [Finset.mem_filter, Finset.mem_range] at *
  exact ⟨hn.1, fun hc => hn.2 (h n hc)⟩

theorem unvisCount_setAdd_lt (sys : FontSys) {idx : Nat} {v : List Nat}
    (hlt : idx < sys.fonts.length) (hnv : idx ∉ v) :
    unvisCount sys (setAdd idx v) < unvisCount sys v := by
  unfold unvisCount
  apply Finset.card_lt_card
  have hsub : (Finset.range sys.fonts.length).filter (fun n => n ∉ setAdd idx v) ⊆
      (Finset.range sys.fonts.length).filter (fun n => n ∉ v) := by
    intro n hn
    simp only [Finset.mem_filter, Finset.mem_range] at *
    exact ⟨hn.1, fun hc => hn.2 (mem_setAdd_of_mem idx hc)⟩
  rw [Finset.ssubset_iff_of_subset hsub]
  refine ⟨idx, ?_, ?_⟩
  · simp only [Finset.mem_filter, Finset.mem_range]
    exact ⟨hlt, hnv⟩
  · simp only [Finset.mem_filter, Finset.mem_range, not_and, not_not]
    intro _
    exact mem_setAdd_self idx v

theorem getFont_lt {sys : FontSys}
    (hwf : ∀ p ∈ sys.registry, p.2 < sys.fonts.length)
    {name : List Char} {fb : Nat} (h : getFont sys name = some fb) :
    fb < sys.fonts.length := by
  unfold getFont at h
  cases hf : sys.registry.reverse.find? (fun p => p.1 == lcList name) with
  | none => rw [hf] at h; simp at h
  | some p =>
    rw [hf] at h
    simp at h
    have hp : p ∈ sys.registry.reverse := List.mem_of_find?_eq_some hf
    rw [List.mem_reverse] at hp
    have := hwf p hp
    omega

theorem getCharFB_visited_mono (sys : FontSys) (c : Char) :
    ∀ fuel, (∀ idx v, ∀ x ∈ v, x ∈ (getCharFB sys c fuel idx v).2) ∧
      (∀ names v, ∀ x ∈ v, x ∈ (goFallbacks sys c fuel names v).2) := by
  intro fuel
  induction fuel with
  | zero =>
    refine ⟨fun idx v x hx => by simpa [getCharFB] using hx, ?_⟩
    intro names
    induction names with
    | nil => intro v x hx; simpa [goFallbacks] using hx
    | cons n rest ih =>
      intro v x hx
      cases hg : getFont sys n with
      | none => simpa [goFallbacks, hg] using ih v x hx
      | some fb =>
        by_cases hfb : fb ∈ v
        · simpa [goFallbacks, hg, hfb] using ih v x hx
        · simpa [goFallbacks, hg, hfb, getCharFB] using ih v x hx
  | succ f ihf =>
    have hA : ∀ idx v, ∀ x ∈ v, x ∈ (getCharFB sys c (f + 1) idx v).2 := by
      intro idx v x hx
      cases hm : (sys.fonts.get? idx).bind (fun fo => fo.chars c) with
      | some cd => simpa only [getCharFB, hm] using hx
      | none =>
        simp only [getCharFB, hm]
        exact ihf.2 _ _ x (mem_setAdd_of_mem idx hx)
    refine ⟨hA, ?_⟩
    intro names
    induction names with
    | nil => intro v x hx; simpa [goFallbacks] using hx
    | cons n rest ih =>
      intro v x hx
      cases hg : getFont sys n with
      | none => simpa [goFallbacks, hg] using ih v x hx
      | some fb =>
        by_cases hfb : fb ∈ v
        · simpa [goFallbacks, hg, hfb] using ih v x hx
        · cases hr : (getCharFB sys c (f + 1) fb v).1 with
          | some hit => simpa [goFallbacks, hg, hfb, hr] using hA fb v x hx
          | none =>
            simp only [goFallbacks, hg, hfb, not_false_iff, if_true, hr]
            exact ih _ x (hA fb v x hx)

theorem getCharFB_fuel_step (sys : FontSys) (c : Char)
    (hwf : ∀ p ∈ sys.registry, p.2 < sys.fonts.length) :
    ∀ fuel,
      (∀ idx v, unvisCount sys (setAdd idx v) < fuel →
        getCharFB sys c fuel idx v = getCharFB sys c (fuel + 1) idx v) ∧
      (∀ names v, unvisCount sys v ≤ fuel →
        goFallbacks sys c fuel names v = goFallbacks sys c (fuel + 1) names v) := by
  intro fuel
  induction fuel with
  | zero =>
    refine ⟨fun idx v h => absurd h (Nat.not_lt_zero _), ?_⟩
    intro names
    induction names with
    | nil => intro v h; simp [goFallbacks]
    | cons n rest ih =>
      intro v h
      cases hg : getFont sys n with
      | none => simp only [goFallbacks, hg]; exact ih v h
      | some fb =>
        by_cases hfb : fb ∈ v
        · simp only [goFallbacks, hg, hfb]
          simp only [not_true, if_false]
          exact ih v h
        · exfalso
          have hpos : 0 < unvisCount sys v := by
            apply Finset.card_pos.mpr
            exact ⟨fb, by
              simp only [Finset.mem_filter, Finset.mem_range]
              exact ⟨getFont_lt hwf hg, hfb⟩⟩
          omega
  | succ f ihf =>
    have hA : ∀ idx v, unvisCount sys (setAdd idx v) < f + 1 →
        getCharFB sys c (f + 1) idx v = getCharFB sys c (f + 1 + 1) idx v := by
      intro idx v h
      cases hm : (sys.fonts.get? idx).bind (fun fo => fo.chars c) with
      | some cd => simp only [getCharFB, hm]
      | none =>
        simp only [getCharFB, hm]
        exact ihf.2 _ _ (Nat.lt_succ_iff.mp h)
    refine ⟨hA, ?_⟩
    intro names
    induction names with
    | nil => intro v h; simp [goFallbacks]
    | cons n rest ih =>
      intro v h
      cases hg : getFont sys n with
      | none => simp only [goFallbacks, hg]; exact ih v h
      | some fb =>
        by_cases hfb : fb ∈ v
        · simp only [goFallbacks, hg, hfb]
          simp only [not_true, if_false]
          exact ih v h
        · have heq : getCharFB sys c (f + 1) fb v = getCharFB sys c (f + 1 + 1) fb v := by
            apply hA
            have hdec := unvisCount_setAdd_lt sys (getFont_lt hwf hg) hfb
            omega
          simp only [goFallbacks, hg, hfb, not_false_iff, if_true]
          rw [← heq]
          cases hr : (getCharFB sys c (f + 1) fb v).1 with
          | some hit => simp [hr]
          | none =>
            simp only [hr]
            apply ih
            have hsub := (getCharFB_visited_mono sys c (f + 1)).1 fb v
            exact le_trans (unvisCount_anti sys hsub) h

theorem getCharFB_fuel_ge (sys : FontSys) (c : Char)
    (hwf : ∀ p ∈ sys.registry, p.2 < sys.fonts.length)
    {idx : Nat} {v : List Nat} {fuel : Nat}
    (h : unvisCount sys (setAdd idx v) < fuel) :
    ∀ k, getCharFB sys c fuel idx v = getCharFB sys c (fuel + k) idx v := by
  intro k
  induction k with
  | zero => rfl
  | succ k ih =>
    rw [ih, show fuel + (k + 1) = (fuel + k) + 1 from rfl]
    exact (getCharFB_fuel_step sys c hwf (fuel + k)).1 idx v
      (lt_of_lt_of_le h (Nat.le_add_right _ _))

theorem getCharFB_none (sys : FontSys) (c : Char)
    (hmiss : ∀ fo ∈ sys.fonts, fo.chars c = none) :
    ∀ fuel, (∀ idx v, (getCharFB sys c fuel idx v).1 = none) ∧
      (∀ names v, (goFallbacks sys c fuel names v).1 = none) := by
  intro fuel
  have hb : ∀ idx : Nat, (sys.fonts.get? idx).bind (fun fo => fo.chars c) = none := by
    intro idx
    cases hg : sys.fonts.get? idx with
    | none => rfl
    | some fo => exact hmiss fo (List.get?_mem hg)
  induction fuel with
  | zero =>
    refine ⟨fun idx v => by simp [getCharFB], ?_⟩
    intro names
    induction names with
    | nil => intro v; simp [goFallbacks]
    | cons n rest ih =>
      intro v
      cases hg : getFont sys n with
      | none => simp only [goFallbacks, hg]; exact ih v
      | some fb =>
        by_cases hfb : fb ∈ v
        · simp only [goFallbacks, hg, hfb]
          simp only [not_true, if_false]
          exact ih v
        · simp only [goFallbacks, hg, hfb, not_false_iff, if_true, getCharFB]
          exact ih v
  | succ f ihf =>
    have hA : ∀ idx v, (getCharFB sys c (f + 1) idx v).1 = none := by
      intro idx v
      simp only [getCharFB, hb]
      exact ihf.2 _ _
    refine ⟨hA, ?_⟩
    intro names
    induction names with
    | nil => intro v; simp [goFallbacks]
    | cons n rest ih =>
      intro v
      cases hg : getFont sys n with
      | none => simp only [goFallbacks, hg]; exact ih v
      | some fb =>
        by_cases hfb : fb ∈ v
        · simp only [goFallbacks, hg, hfb]
          simp only [not_true, if_false]
          exact ih v
        · simp only [goFallbacks, hg, hfb, not_false_iff, if_true]
          rw [hA fb v]
          exact ih _

/-- C9.  `getCharWithFallback` terminates even on cyclic fallback graphs:
once the fuel exceeds the number of fonts the result no longer depends on
it (each font is consulted at most once, so the real recursion has
stabilised), and when no font of the system carries the glyph the lookup
returns `none` rather than looping. -/
theorem getCharWithFallback_terminates
    (sys : FontSys) (c : Char) (idx fuel₁ fuel₂ : Nat)
    (hwf : ∀ p ∈ sys.registry, p.2 < sys.fonts.length)
    (h₁ : sys.fonts.length < fuel₁) (h₂ : sys.fonts.length < fuel₂) :
    getCharFB sys c fuel₁ idx [] = getCharFB sys c fuel₂ idx [] ∧
    ((∀ fo ∈ sys.fonts, fo.chars c = none) →
      (getCharFB sys c fuel₁ idx []).1 = none) := by
  constructor
  · have hb : unvisCount sys (setAdd idx []) < sys.fonts.length + 1 := by
      have h1 : unvisCount sys (setAdd idx []) ≤ unvisCount sys [] :=
        unvisCount_anti sys (fun x hx => mem_setAdd_of_mem idx hx)
      have h0 : unvisCount sys [] = sys.fonts.length := by simp [unvisCount]
      omega
    obtain ⟨k₁, hk₁⟩ := Nat.exists_eq_add_of_le (Nat.succ_le_of_lt h₁)
    obtain ⟨k₂, hk₂⟩ := Nat.exists_eq_add_of_le (Nat.succ_le_of_lt h₂)
    rw [hk₁, hk₂,
      ← getCharFB_fuel_ge sys c hwf hb k₁, ← getCharFB_fuel_ge sys c hwf hb k₂]
  · intro hmiss
    exact (getCharFB_none sys c hmiss fuel₁).1 idx []

/-- Witness for C9: the cyclic two-font system `sysC9` (each font is the
other's fallback, neither has any glyph) at fuels 3 and 4. -/
theorem getCharWithFallback_terminates_witness :
    (∀ p ∈ sysC9.registry, p.2 < sysC9.fonts.length) ∧
    sysC9.fonts.length < 3 ∧ sysC9.fonts.length < 4 ∧
    (getCharFB sysC9 'a' 3 0 [] = getCharFB sysC9 'a' 4 0 [] ∧
     ((∀ fo ∈ sysC9.fonts, fo.chars 'a' = none) →
       (getCharFB sysC9 'a' 3 0 []).1 = none)) :=
  ⟨by decide, by decide, by decide,
   getCharWithFallback_terminates sysC9 'a' 0 3 4 (by decide) (by decide) (by decide)⟩

theorem caseTransform_extraSpace (s : StyleState) (pc : ParsedChar) :
    (caseTransform s pc).extraSpace = pc.extraSpace := by
  simp only [caseTransform]
  split_ifs <;> rfl

theorem caseTransform_fixedPosition (s : StyleState) (pc : ParsedChar) :
    (caseTransform s pc).fixedPosition = pc.fixedPosition := by
  simp only [caseTransform]
  split_ifs <;> rfl

theorem optNeZero_false {a : Option ℚ} : optNeZero a = false ↔ a = some 0 := by
  cases a with
  | none => simp [optNeZero]
  | some x => simp [optNeZero]

/-- C8 amended.  The pending `<space=N>` / `<pos=N>` values are applied to
the next emitted regular text character (any character other than `<`, a
newline or a carriage return) or inline sprite, and are then cleared; the
synthetic marks (`<br>`, `<nbsp>`, `<zwsp>`, …) emit their records without
receiving or clearing the pending values, which therefore skip past them to
the next text character; a pending value not followed by a text or sprite
record is dropped silently. -/
theorem pending_modifiers_text_and_sprites_only
    (text : List Char) (base : ℚ) (sheet : Option StyleSheet) (st : PState)
    (c : Char) (hgt : text.getD st.i ' ' = c)
    (h1 : c ≠ '<') (h2 : c ≠ '\n') (h3 : c ≠ '\r') :
    ((parseStep text base sheet st).result.map ParsedChar.extraSpace =
        st.result.map ParsedChar.extraSpace ++ [st.pendingSpace] ∧
      (parseStep text base sheet st).result.map ParsedChar.fixedPosition =
        st.result.map ParsedChar.fixedPosition ++ [st.pendingPos] ∧
      (parseStep text base sheet st).pendingSpace = some 0 ∧
      (parseStep text base sheet st).pendingPos = none) ∧
    ((parseFresh (strL "<space=5><pos=7><sprite=0>") 32 0xffffff (strL "F")).map
        (fun pc => (pc.isSprite, pc.extraSpace, pc.fixedPosition)) =
      [(true, some 5, some 7)]) ∧
    ((parseFresh (strL "<space=5><br><nbsp><zwsp>A") 32 0xffffff (strL "F")).map
        (fun pc => (pc.char, pc.extraSpace)) =
      [('\n', some 0), ('\u00A0', some 0), ('\u200B', some 0), ('A', some 5)]) ∧
    ((parseFresh (strL "A<space=5><pos=7>") 32 0xffffff (strL "F")).map
        (fun pc => (pc.extraSpace, pc.fixedPosition)) = [(some 0, none)]) := by
  refine ⟨?_, by decide, by decide, by decide⟩
  subst hgt
  simp only [parseStep]
  rw [if_neg (fun hand => h1 hand.1), if_neg h1, if_neg h2, if_neg h3]
  cases hps : optNeZero (st.pendingSpace) with
  | false =>
    have hzero : st.pendingSpace = some 0 := optNeZero_false.mp hps
    cases hpp : st.pendingPos with
    | none =>
      simp [applyPendings, optNeZero, hps, hpp, emitRec, caseTransform_extraSpace,
        caseTransform_fixedPosition, hzero, createParsedChar]
    | some p =>
      simp [applyPendings, optNeZero, hps, hpp, emitRec, caseTransform_extraSpace,
        caseTransform_fixedPosition, hzero, createParsedChar]
  | true =>
    cases hpp : st.pendingPos with
    | none =>
      simp [applyPendings, hps, hpp, emitRec, caseTransform_extraSpace,
        caseTransform_fixedPosition, createParsedChar]
    | some p =>
      simp [applyPendings, hps, hpp, emitRec, caseTransform_extraSpace,
        caseTransform_fixedPosition, createParsedChar]

/-- Witness for C8's amended claim: the state carrying pending space 5 and
pending position 7, about to read the regular character `x`. -/
theorem pending_modifiers_text_and_sprites_only_witness :
    (strL "x").getD pendSt.i ' ' = 'x' ∧ ('x' ≠ '<' ∧ 'x' ≠ '\n' ∧ 'x' ≠ '\r') ∧
    (((parseStep (strL "x") 32 none pendSt).result.map ParsedChar.extraSpace =
        pendSt.result.map ParsedChar.extraSpace ++ [pendSt.pendingSpace] ∧
      (parseStep (strL "x") 32 none pendSt).result.map ParsedChar.fixedPosition =
        pendSt.result.map ParsedChar.fixedPosition ++ [pendSt.pendingPos] ∧
      (parseStep (strL "x") 32 none pendSt).pendingSpace = some 0 ∧
      (parseStep (strL "x") 32 none pendSt).pendingPos = none) ∧
    ((parseFresh (strL "<space=5><pos=7><sprite=0>") 32 0xffffff (strL "F")).map
        (fun pc => (pc.isSprite, pc.extraSpace, pc.fixedPosition)) =
      [(true, some 5, some 7)]) ∧
    ((parseFresh (strL "<space=5><br><nbsp><zwsp>A") 32 0xffffff (strL "F")).map
        (fun pc => (pc.char, pc.extraSpace)) =
      [('\n', some 0), ('\u00A0', some 0), ('\u200B', some 0), ('A', some 5)]) ∧
    ((parseFresh (strL "A<space=5><pos=7>") 32 0xffffff (strL "F")).map
        (fun pc => (pc.extraSpace, pc.fixedPosition)) = [(some 0, none)])) :=
  ⟨by decide, ⟨by decide, by decide, by decide⟩,
   pending_modifiers_text_and_sprites_only (strL "x") 32 none pendSt 'x'
     (by decide) (by decide) (by decide) (by decide)⟩

theorem listModify_length {α : Type} (f : α → α) (i : Nat) (l : List α) :
    (listModify f i l).length = l.length := by
  induction l generalizing i with
  | nil => cases i <;> rfl
  | cons x xs ih =>
    cases i with
    | zero => rfl
    | succ m => simp only [listModify, List.length_cons, ih]

theorem listModify_getD_ne {α : Type} (f : α → α) (d : α) (i j : Nat) (l : List α)
    (h : j ≠ i) : (listModify f i l).getD j d = l.getD j d := by
  induction l generalizing i j with
  | nil => cases i <;> rfl
  | cons x xs ih =>
    cases i with
    | zero =>
      cases j with
      | zero => exact absurd rfl h
      | succ mj => rfl
    | succ mi =>
      cases j with
      | zero => rfl
      | succ mj =>
        simp only [listModify, List.getD_cons_succ]
        exact ih mi mj (fun he => h (by rw [he]))

theorem listModify_getD_eq {α : Type} (f : α → α) (d : α) (i : Nat) (l : List α)
    (h : i < l.length) : (listModify f i l).getD i d = f (l.getD i d) := by
  induction l generalizing i with
  | nil => simp at h
  | cons x xs ih =>
    cases i with
    | zero => rfl
    | succ m =>
      simp only [listModify, List.getD_cons_succ]
      exact ih m (by simpa using h)

theorem foldl_listModify_length {α : Type} (g : Nat → α → α) (idxs : List Nat)
    (l : List α) :
    (idxs.foldl (fun cs i => listModify (g i) i cs) l).length = l.length := by
  induction idxs generalizing l with
  | nil => rfl
  | cons i rest ih => rw [List.foldl_cons, ih, listModify_length]

theorem foldl_listModify_getD_lt {α : Type} (g : Nat → α → α) (d : α) :
    ∀ (m s : Nat) (l : List α) (k : Nat), k < s →
      ((List.range' s m).foldl (fun cs i => listModify (g i) i cs) l).getD k d =
        l.getD k d := by
  intro m
  induction m with
  | zero => intro s l k _; rfl
  | succ m ih =>
    intro s l k hk
    rw [List.range'_succ, List.foldl_cons, ih (s + 1) _ k (by omega),
      listModify_getD_ne _ _ _ _ _ (by omega)]

theorem foldl_listModify_getD_ge {α : Type} (g : Nat → α → α) (d : α) :
    ∀ (m s : Nat) (l : List α) (k : Nat), s + m ≤ k →
      ((List.range' s m).foldl (fun cs i => listModify (g i) i cs) l).getD k d =
        l.getD k d := by
  intro m
  induction m with
  | zero => intro s l k _; rfl
  | succ m ih =>
    intro s l k hk
    rw [List.range'_succ, List.foldl_cons, ih (s + 1) _ k (by omega),
      listModify_getD_ne _ _ _ _ _ (by omega)]

theorem foldl_listModify_getD_mem {α : Type} (g : Nat → α → α) (d : α) :
    ∀ (m s : Nat) (l : List α) (k : Nat), s ≤ k → k < s + m → k < l.length →
      ((List.range' s m).foldl (fun cs i => listModify (g i) i cs) l).getD k d =
        g k (l.getD k d) := by
  intro m
  induction m with
  | zero => intro s l k h1 h2 _; omega
  | succ m ih =>
    intro s l k h1 h2 hlen
    rw [List.range'_succ, List.foldl_cons]
    by_cases he : k = s
    · subst he
      rw [foldl_listModify_getD_lt g d m (k + 1) _ k (by omega),
        listModify_getD_eq _ _ _ _ hlen]
    · rw [ih (s + 1) _ k (by omega) (by omega)
        (by rw [listModify_length]; exact hlen),
        listModify_getD_ne _ _ _ _ _ he]

theorem interpolateRegion_length (cs : List ParsedChar) (aa bb : Nat)
    (colors : List Int) :
    (interpolateRegion cs aa bb colors).length = cs.length := by
  simp only [interpolateRegion]
  split_ifs
  · exact listModify_length _ _ _
  · exact foldl_listModify_length _ _ _

theorem interpolateRegion_getD_lo (cs : List ParsedChar) (aa bb : Nat)
    (colors : List Int) (k : Nat) (hk : k < aa) :
    (interpolateRegion cs aa bb colors).getD k default = cs.getD k default := by
  simp only [interpolateRegion]
  split_ifs
  · exact listModify_getD_ne _ _ _ _ _ (by omega)
  · exact foldl_listModify_getD_lt _ _ _ _ _ _ hk

theorem interpolateRegion_getD_hi (cs : List ParsedChar) (aa bb : Nat)
    (colors : List Int) (k : Nat) (hab : aa ≤ bb) (hk : bb < k) :
    (interpolateRegion cs aa bb colors).getD k default = cs.getD k default := by
  simp only [interpolateRegion]
  split_ifs
  · exact listModify_getD_ne _ _ _ _ _ (by omega)
  · exact foldl_listModify_getD_ge _ _ _ _ _ _ (by omega)

theorem interpolateRegion_getD_single (cs : List ParsedChar) (aa : Nat)
    (colors : List Int) (h : aa < cs.length) :
    ((interpolateRegion cs aa aa colors).getD aa default).color =
      colors.getD 0 0 := by
  simp only [interpolateRegion]
  rw [if_pos (by omega : ((aa : Int) - (aa : Int) ≤ 0)),
    listModify_getD_eq _ _ _ _ h]

theorem interpolateRegion_getD_run (cs : List ParsedChar) (aa bb : Nat)
    (colors : List Int) (j : Nat) (hab : aa < bb) (hb : bb < cs.length)
    (hj : j ≤ bb - aa) :
    ((interpolateRegion cs aa bb colors).getD (aa + j) default).color =
      lerpColor (colors.getD 0 0) (colors.getD 1 0)
        ((j : ℚ) / ((bb - aa : Nat) : ℚ)) := by
  simp only [interpolateRegion]
  rw [if_neg (by omega : ¬((bb : Int) - (aa : Int) ≤ 0)),
    foldl_listModify_getD_mem _ _ (bb - aa + 1) aa cs (aa + j) (by omega)
      (by omega) (by omega)]
  show lerpColor (colors.getD 0 0) (colors.getD 1 0)
      (((aa + j - aa : Nat) : ℚ) / (((bb : Int) - (aa : Int) : Int) : ℚ)) = _
  congr 1
  rw [Nat.add_sub_cancel_left, Nat.cast_sub (le_of_lt hab)]
  push_cast
  ring

theorem jsRound_intCast (z : Int) : jsRound ((z : ℚ)) = z := by
  unfold jsRound
  have h : ⌊(1 / 2 : ℚ)⌋ = 0 := by
    rw [Int.floor_eq_zero_iff, Set.mem_Ico]
    constructor <;> norm_num
  rw [Int.floor_int_add, h, add_zero]

theorem round_lerp_zero (x y : Int) :
    jsRound ((x : ℚ) + ((y - x : Int) : ℚ) * 0) = x := by
  have h : ((x : ℚ) + ((y - x : Int) : ℚ) * 0) = ((x : Int) : ℚ) := by
    push_cast
    ring
  rw [h, jsRound_intCast]

theorem round_lerp_one (x y : Int) :
    jsRound ((x : ℚ) + ((y - x : Int) : ℚ) * 1) = y := by
  have h : ((x : ℚ) + ((y - x : Int) : ℚ) * 1) = ((y : Int) : ℚ) := by
    push_cast
    ring
  rw [h, jsRound_intCast]

theorem bytes_recombine (a : Int) (h0 : 0 ≤ a) (h1 : a < 16777216) :
    jsAnd255 (jsShr a 16) * 65536 + jsAnd255 (jsShr a 8) * 256 + jsAnd255 a
      = a := by
  unfold jsAnd255 jsShr toInt32
  norm_num
  rw [Int.fdiv_eq_ediv _ (by norm_num), Int.fdiv_eq_ediv _ (by norm_num)]
  have t1 : (a + 2147483648) % 4294967296 - 2147483648 = a := by omega
  rw [t1]
  have t2 : (a / 65536 + 2147483648) % 4294967296 - 2147483648 = a / 65536 := by
    omega
  have t3 : (a / 256 + 2147483648) % 4294967296 - 2147483648 = a / 256 := by
    omega
  rw [t2, t3]
  have hm : ∀ x y : Int, Int.emod x y = x % y := fun _ _ => rfl
  simp only [hm]
  omega

theorem lerpColor_zero (a b : Int) (h0 : 0 ≤ a) (h1 : a < 16777216) :
    lerpColor a b 0 = a := by
  simp only [lerpColor, round_lerp_zero]
  exact bytes_recombine a h0 h1

theorem lerpColor_one (a b : Int) (h0 : 0 ≤ b) (h1 : b < 16777216) :
    lerpColor a b 1 = b := by
  simp only [lerpColor, round_lerp_one]
  exact bytes_recombine b h0 h1

theorem range'_split : ∀ (m k s : Nat),
    List.range' s (m + k) = List.range' s m ++ List.range' (s + m) k := by
  intro m
  induction m with
  | zero => intro k s; simp
  | succ m ih =>
    intro k s
    have h1 : m + 1 + k = (m + k) + 1 := by omega
    have h2 : s + 1 + m = s + m + 1 := by omega
    have h3 : s + (m + 1) = s + m + 1 := by omega
    rw [h1, List.range'_succ, ih k (s + 1), h2, List.range'_succ,
      List.cons_append, h3]

theorem gradStep_inv (chars : List ParsedChar) (i : Nat) (hi : i < chars.length)
    (s : GradState) (h : GradInv chars i s) :
    GradInv chars (i + 1) (gradStep chars.length s i) := by
  obtain ⟨hlen, hU, hP3⟩ := h
  have hgc : (if i < chars.length
      then (s.chars.getD i default).gradientColors else []) =
      (chars.getD i default).gradientColors := by
    rw [if_pos hi, hU i le_rfl]
  unfold GradInv
  simp only [gradStep, hgc]
  split_ifs with h1 h2 h3
  all_goals try dsimp only
  · -- flush, then reopen at i
    obtain ⟨hP1, hP2, hP3a, hP3b⟩ := hP3.resolve_left (by
      intro hcl
      exact absurd h1.1 (not_le.mpr hcl))
    refine ⟨?_, ?_, ?_⟩
    · show (interpolateRegion s.chars s.gradStart.toNat (i - 1)
        s.gradColors).length = chars.length
      rw [interpolateRegion_length, hlen]
    · intro k hk
      show (interpolateRegion s.chars s.gradStart.toNat (i - 1)
        s.gradColors).getD k default = chars.getD k default
      rw [interpolateRegion_getD_hi _ _ _ _ _ (by omega) (by omega)]
      exact hU k (by omega)
    · refine Or.inr ⟨by omega, by omega, by omega, ?_⟩
      show gradEndsOk (chars.getD (i + 1 - 1) default)
        ((chars.getD i default).gradientColors.getD 0 0)
        ((chars.getD i default).gradientColors.getD 1 0) = true
      rw [Nat.add_sub_cancel]
      simp only [gradEndsOk, Bool.and_eq_true, decide_eq_true_eq]
      exact ⟨⟨h2.1, trivial⟩, trivial⟩
  · -- flush, no reopen (current character not a gradient member)
    obtain ⟨hP1, hP2, hP3a, hP3b⟩ := hP3.resolve_left (by
      intro hcl
      exact absurd h1.1 (not_le.mpr hcl))
    refine ⟨?_, ?_, Or.inl (by norm_num)⟩
    · show (interpolateRegion s.chars s.gradStart.toNat (i - 1)
        s.gradColors).length = chars.length
      rw [interpolateRegion_length, hlen]
    · intro k hk
      show (interpolateRegion s.chars s.gradStart.toNat (i - 1)
        s.gradColors).getD k default = chars.getD k default
      rw [interpolateRegion_getD_hi _ _ _ _ _ (by omega) (by omega)]
      exact hU k (by omega)
  · -- no flush, reopen: the region was closed
    refine ⟨hlen, fun k hk => hU k (by omega),
      Or.inr ⟨by omega, by omega, by omega, ?_⟩⟩
    show gradEndsOk (chars.getD (i + 1 - 1) default)
      ((chars.getD i default).gradientColors.getD 0 0)
      ((chars.getD i default).gradientColors.getD 1 0) = true
    rw [Nat.add_sub_cancel]
    simp only [gradEndsOk, Bool.and_eq_true, decide_eq_true_eq]
    exact ⟨⟨h3.1, trivial⟩, trivial⟩
  · -- no flush, no reopen
    refine ⟨hlen, fun k hk => hU k (by omega), ?_⟩
    rcases hP3 with hcl | ⟨hP1, hP2, hP3a, hP3b⟩
    · exact Or.inl hcl
    · have hSG := not_not.mp (fun hq => h1 ⟨hP2, hq⟩)
      refine Or.inr ⟨by omega, hP2, by omega, ?_⟩
      show gradEndsOk (chars.getD (i + 1 - 1) default)
        (s.gradColors.getD 0 0) (s.gradColors.getD 1 0) = true
      rw [Nat.add_sub_cancel]
      simp only [gradEndsOk, Bool.and_eq_true, decide_eq_true_eq]
      exact ⟨⟨hSG.1, hSG.2.2.1⟩, hSG.2.2.2⟩

theorem gradPrefix (chars : List ParsedChar) :
    ∀ i, i ≤ chars.length →
      GradInv chars i ((List.range i).foldl (gradStep chars.length)
        ⟨chars, -1, []⟩) := by
  intro i
  induction i with
  | zero =>
    intro _
    exact ⟨rfl, fun k _ => rfl, Or.inl (by norm_num)⟩
  | succ i ih =>
    intro hsucc
    rw [List.range_succ, List.foldl_append, List.foldl_cons, List.foldl_nil]
    exact gradStep_inv chars i (by omega) _ (ih (by omega))

theorem gradStep_at_run_start (chars : List ParsedChar) (a b : Nat)
    (c0 c1 : Int) (s : GradState) (hinv : GradInv chars a s)
    (hab : a ≤ b) (hblen : b < chars.length)
    (hrun_a : gradEndsOk (chars.getD a default) c0 c1 = true)
    (hleft : a = 0 ∨ gradEndsOk (chars.getD (a - 1) default) c0 c1 = false) :
    (gradStep chars.length s a).gradStart = (a : Int) ∧
    (gradStep chars.length s a).gradColors =
      (chars.getD a default).gradientColors ∧
    (∀ k, a ≤ k → (gradStep chars.length s a).chars.getD k default =
      chars.getD k default) ∧
    (gradStep chars.length s a).chars.length = chars.length := by
  obtain ⟨hlen, hU, hP3⟩ := hinv
  have han : a < chars.length := lt_of_le_of_lt hab hblen
  simp only [gradEndsOk, Bool.and_eq_true, decide_eq_true_eq] at hrun_a
  obtain ⟨⟨hL2, hG0⟩, hG1⟩ := hrun_a
  have hgc : (if a < chars.length
      then (s.chars.getD a default).gradientColors else []) =
      (chars.getD a default).gradientColors := by
    rw [if_pos han, hU a le_rfl]
  simp only [gradStep, hgc]
  split_ifs with h1 h2 h3
  all_goals try dsimp only
  · -- flush of the previous region, then open the run
    obtain ⟨hP1, hP2, hP3a, hP3b⟩ := hP3.resolve_left (by
      intro hcl
      exact absurd h1.1 (not_le.mpr hcl))
    refine ⟨rfl, rfl, ?_, ?_⟩
    · intro k hk
      show (interpolateRegion s.chars s.gradStart.toNat (a - 1)
        s.gradColors).getD k default = chars.getD k default
      rw [interpolateRegion_getD_hi _ _ _ _ _ (by omega) (by omega)]
      exact hU k hk
    · show (interpolateRegion s.chars s.gradStart.toNat (a - 1)
        s.gradColors).length = chars.length
      rw [interpolateRegion_length, hlen]
  · -- flush without reopening is impossible: the run's first character
    -- is a gradient member
    exact absurd ⟨hL2, by norm_num⟩ h2
  · -- no previous region: open the run directly
    exact ⟨rfl, rfl, fun k hk => hU k hk, hlen⟩
  · -- no flush and no reopen is impossible
    exfalso
    have hge : s.gradStart ≥ 0 := by
      by_contra hc
      exact h3 ⟨hL2, not_le.mp hc⟩
    have hSG := not_not.mp (fun hq => h1 ⟨hge, hq⟩)
    obtain ⟨hP1, hP2, hP3a, hP3b⟩ := hP3.resolve_left (by
      intro hcl
      exact absurd hge (not_le.mpr hcl))
    have hc0' : s.gradColors.getD 0 0 = c0 := by
      rw [← hSG.2.2.1]
      exact hG0
    have hc1' : s.gradColors.getD 1 0 = c1 := by
      rw [← hSG.2.2.2]
      exact hG1
    rw [hc0', hc1'] at hP3b
    rcases hleft with h0 | hfalse
    · omega
    · rw [hP3b] at hfalse
      simp at hfalse

theorem gradStep_steady (chars : List ParsedChar) (a b : Nat) (c0 c1 : Int)
    (s : GradState) (i : Nat)
    (hgs : s.gradStart = (a : Int))
    (hgcolors : s.gradColors = (chars.getD a default).gradientColors)
    (hU : ∀ k, a ≤ k → s.chars.getD k default = chars.getD k default)
    (hai : a < i) (hib : i ≤ b) (hblen : b < chars.length)
    (hrun_a : gradEndsOk (chars.getD a default) c0 c1 = true)
    (hrun_i : gradEndsOk (chars.getD i default) c0 c1 = true) :
    gradStep chars.length s i = s := by
  simp only [gradEndsOk, Bool.and_eq_true, decide_eq_true_eq] at hrun_a hrun_i
  obtain ⟨⟨haL, ha0⟩, ha1⟩ := hrun_a
  obtain ⟨⟨hiL, hi0⟩, hi1⟩ := hrun_i
  have hin : i < chars.length := lt_of_le_of_lt hib hblen
  have hgc : (if i < chars.length
      then (s.chars.getD i default).gradientColors else []) =
      (chars.getD i default).gradientColors := by
    rw [if_pos hin, hU i (le_of_lt hai)]
  have hSG : 2 ≤ (chars.getD i default).gradientColors.length ∧
      2 ≤ s.gradColors.length ∧
      (chars.getD i default).gradientColors.getD 0 0 =
        s.gradColors.getD 0 0 ∧
      (chars.getD i default).gradientColors.getD 1 0 =
        s.gradColors.getD 1 0 := by
    refine ⟨hiL, ?_, ?_, ?_⟩
    · rw [hgcolors]; exact haL
    · rw [hgcolors, hi0, ha0]
    · rw [hgcolors, hi1, ha1]
  simp only [gradStep, hgc]
  split_ifs with h1 h2 h3
  all_goals try dsimp only
  · exact absurd hSG h1.2
  · exact absurd hSG h1.2
  · rw [hgs] at h3
    exact absurd h3.2 (by omega)

theorem gradStep_flush (chars : List ParsedChar) (a b : Nat) (c0 c1 : Int)
    (tc : Nat → Int) (s : GradState)
    (htc : ∀ j, tc j = if a = b then c0
      else lerpColor c0 c1 ((j : ℚ) / ((b - a : Nat) : ℚ)))
    (hgs : s.gradStart = (a : Int))
    (hgcolors : s.gradColors = (chars.getD a default).gradientColors)
    (hU : ∀ k, a ≤ k → s.chars.getD k default = chars.getD k default)
    (hlen : s.chars.length = chars.length)
    (hab : a ≤ b) (hblen : b < chars.length)
    (hrun_a : gradEndsOk (chars.getD a default) c0 c1 = true)
    (hright : b + 1 = chars.length ∨
      gradEndsOk (chars.getD (b + 1) default) c0 c1 = false) :
    (∀ j, j ≤ b - a →
      ((gradStep chars.length s (b + 1)).chars.getD (a + j) default).color =
        tc j) ∧
    (gradStep chars.length s (b + 1)).chars.length = chars.length ∧
    ((gradStep chars.length s (b + 1)).gradStart = -1 ∨
      ((b : Int) < (gradStep chars.length s (b + 1)).gradStart ∧
        (gradStep chars.length s (b + 1)).gradStart <
          ((b + 2 : Nat) : Int))) := by
  simp only [gradEndsOk, Bool.and_eq_true, decide_eq_true_eq] at hrun_a
  obtain ⟨⟨haL, ha0⟩, ha1⟩ := hrun_a
  have hcolors : ∀ j, j ≤ b - a →
      ((interpolateRegion s.chars a (b + 1 - 1) s.gradColors).getD
        (a + j) default).color = tc j := by
    intro j hj
    rw [Nat.add_sub_cancel, htc j]
    by_cases hEQ : a = b
    · rw [if_pos hEQ]
      have hj0 : j = 0 := by omega
      subst hj0
      subst hEQ
      rw [Nat.add_zero, interpolateRegion_getD_single _ _ _ (by omega),
        hgcolors, ha0]
    · rw [if_neg hEQ,
        interpolateRegion_getD_run _ _ _ _ _ (by omega) (by omega) hj,
        hgcolors, ha0, ha1]
  by_cases hbn : b + 1 < chars.length
  · rcases hright with hn | hne
    · omega
    · have hgc : (if b + 1 < chars.length
          then (s.chars.getD (b + 1) default).gradientColors else []) =
          (chars.getD (b + 1) default).gradientColors := by
        rw [if_pos hbn, hU (b + 1) (by omega)]
      have hNSG : ¬(2 ≤ (chars.getD (b + 1) default).gradientColors.length ∧
          2 ≤ s.gradColors.length ∧
          (chars.getD (b + 1) default).gradientColors.getD 0 0 =
            s.gradColors.getD 0 0 ∧
          (chars.getD (b + 1) default).gradientColors.getD 1 0 =
            s.gradColors.getD 1 0) := by
        intro hSG
        have htrue : gradEndsOk (chars.getD (b + 1) default) c0 c1 = true := by
          simp only [gradEndsOk, Bool.and_eq_true, decide_eq_true_eq]
          refine ⟨⟨hSG.1, ?_⟩, ?_⟩
          · rw [hSG.2.2.1, hgcolors]
            exact ha0
          · rw [hSG.2.2.2, hgcolors]
            exact ha1
        rw [hne] at htrue
        simp at htrue
      simp only [gradStep, hgc, hgs, Int.toNat_natCast]
      split_ifs with h1 h2 h3
      all_goals try dsimp only
      · -- flush and reopen at b + 1
        refine ⟨hcolors, ?_, Or.inr ⟨by omega, by omega⟩⟩
        show (interpolateRegion s.chars a (b + 1 - 1) s.gradColors).length =
          chars.length
        rw [interpolateRegion_length, hlen]
      · -- flush only
        refine ⟨hcolors, ?_, Or.inl rfl⟩
        show (interpolateRegion s.chars a (b + 1 - 1) s.gradColors).length =
          chars.length
        rw [interpolateRegion_length, hlen]
      · exact absurd h3.2 (by omega)
      · exact absurd (not_not.mp (fun hq => h1 ⟨by omega, hq⟩)) hNSG
  · have hgc : (if b + 1 < chars.length
        then (s.chars.getD (b + 1) default).gradientColors else []) =
        ([] : List Int) := if_neg hbn
    simp only [gradStep, hgc, hgs, Int.toNat_natCast]
    split_ifs with h1 h2 h3
    · exact absurd h2.1 (by simp)
    · refine ⟨hcolors, ?_, ?_⟩
      · show (interpolateRegion s.chars a (b + 1 - 1)
          s.gradColors).length = chars.length
        rw [interpolateRegion_length, hlen]
      · first
          | trivial
          | exact Or.inl rfl
    · exact absurd h3.1 (by simp)
    · exfalso
      apply h1
      refine ⟨by omega, fun hSG => ?_⟩
      simp at hSG

theorem gradStep_after (chars : List ParsedChar) (a b : Nat) (tc : Nat → Int)
    (s : GradState) (i : Nat)
    (hcol : ∀ j, j ≤ b - a → ((s.chars.getD (a + j) default).color) = tc j)
    (hlen : s.chars.length = chars.length)
    (hgs : s.gradStart = -1 ∨
      ((b : Int) < s.gradStart ∧ s.gradStart < (i : Int)))
    (hab : a ≤ b) (hbi : b < i) :
    (∀ j, j ≤ b - a →
      ((gradStep chars.length s i).chars.getD (a + j) default).color = tc j) ∧
    (gradStep chars.length s i).chars.length = chars.length ∧
    ((gradStep chars.length s i).gradStart = -1 ∨
      ((b : Int) < (gradStep chars.length s i).gradStart ∧
        (gradStep chars.length s i).gradStart < ((i + 1 : Nat) : Int))) := by
  simp only [gradStep]
  generalize (if i < chars.length
    then (s.chars.getD i default).gradientColors else []) = gcv
  split_ifs with h1 h2 h3
  all_goals try dsimp only
  · -- flush of a region that starts after b
    obtain ⟨hb1, hb2⟩ := hgs.resolve_left (by
      intro hm
      rw [hm] at h1
      exact absurd h1.1 (by norm_num))
    refine ⟨?_, ?_, Or.inr ⟨by omega, by omega⟩⟩
    · intro j hj
      show ((interpolateRegion s.chars s.gradStart.toNat (i - 1)
        s.gradColors).getD (a + j) default).color = tc j
      rw [interpolateRegion_getD_lo _ _ _ _ _ (by omega)]
      exact hcol j hj
    · show (interpolateRegion s.chars s.gradStart.toNat (i - 1)
        s.gradColors).length = chars.length
      rw [interpolateRegion_length, hlen]
  · obtain ⟨hb1, hb2⟩ := hgs.resolve_left (by
      intro hm
      rw [hm] at h1
      exact absurd h1.1 (by norm_num))
    refine ⟨?_, ?_, Or.inl rfl⟩
    · intro j hj
      show ((interpolateRegion s.chars s.gradStart.toNat (i - 1)
        s.gradColors).getD (a + j) default).color = tc j
      rw [interpolateRegion_getD_lo _ _ _ _ _ (by omega)]
      exact hcol j hj
    · show (interpolateRegion s.chars s.gradStart.toNat (i - 1)
        s.gradColors).length = chars.length
      rw [interpolateRegion_length, hlen]
  · exact ⟨hcol, hlen, Or.inr ⟨by omega, by omega⟩⟩
  · refine ⟨hcol, hlen, ?_⟩
    rcases hgs with hm | ⟨hb1, hb2⟩
    · exact Or.inl hm
    · exact Or.inr ⟨hb1, by omega⟩

theorem gradLoop_steady (chars : List ParsedChar) (a b : Nat) (c0 c1 : Int)
    (hblen : b < chars.length)
    (hrun : ∀ i, i ≤ b → a ≤ i →
      gradEndsOk (chars.getD i default) c0 c1 = true) :
    ∀ (m i : Nat) (s : GradState), a < i → i + m ≤ b + 1 →
      s.gradStart = (a : Int) →
      s.gradColors = (chars.getD a default).gradientColors →
      (∀ k, a ≤ k → s.chars.getD k default = chars.getD k default) →
      (List.range' i m).foldl (gradStep chars.length) s = s := by
  intro m
  induction m with
  | zero => intro i s _ _ _ _ _; rfl
  | succ m ih =>
    intro i s hai him hgs hgcolors hU
    rw [List.range'_succ, List.foldl_cons,
      gradStep_steady chars a b c0 c1 s i hgs hgcolors hU hai (by omega)
        hblen (hrun a (by omega) le_rfl) (hrun i (by omega) (by omega))]
    exact ih (i + 1) s (by omega) (by omega) hgs hgcolors hU

theorem gradLoop_after (chars : List ParsedChar) (a b : Nat) (tc : Nat → Int)
    (hab : a ≤ b) :
    ∀ (m i : Nat) (s : GradState), b < i →
      (∀ j, j ≤ b - a → ((s.chars.getD (a + j) default).color) = tc j) →
      s.chars.length = chars.length →
      (s.gradStart = -1 ∨
        ((b : Int) < s.gradStart ∧ s.gradStart < (i : Int))) →
      (∀ j, j ≤ b - a →
        ((((List.range' i m).foldl (gradStep chars.length) s)).chars.getD
          (a + j) default).color = tc j) := by
  intro m
  induction m with
  | zero => intro i s _ hcol _ _; exact hcol
  | succ m ih =>
    intro i s hbi hcol hlen hgs
    rw [List.range'_succ, List.foldl_cons]
    obtain ⟨hc', hl', hg'⟩ :=
      gradStep_after chars a b tc s i hcol hlen hgs hab hbi
    exact ih (i + 1) (gradStep chars.length s i) (by omega) hc' hl' hg'

/-- C4.  For every maximal run `[a, b]` of consecutive parsed characters
sharing the same two gradient endpoint colors `c0`, `c1` (both 24-bit
colors), `applyGradients` gives character `a + j` of the run the
per-channel linear interpolation of the endpoints at `t = j / (b - a)`;
a single-character run receives the start color exactly, and for a longer
run the first and last characters receive exactly the start and end
colors. -/
theorem gradient_run_linear_interpolation
    (chars : List ParsedChar) (a b : Nat) (c0 c1 : Int)
    (hab : a ≤ b) (hblen : b < chars.length)
    (hrun : ∀ i, i ≤ b → a ≤ i →
      gradEndsOk (chars.getD i default) c0 c1 = true)
    (hleft : a = 0 ∨ gradEndsOk (chars.getD (a - 1) default) c0 c1 = false)
    (hright : b + 1 = chars.length ∨
      gradEndsOk (chars.getD (b + 1) default) c0 c1 = false)
    (hc0l : 0 ≤ c0) (hc0u : c0 < 16777216)
    (hc1l : 0 ≤ c1) (hc1u : c1 < 16777216) :
    (∀ j, j ≤ b - a →
      ((applyGradients chars).getD (a + j) default).color =
        lerpColor c0 c1 ((j : ℚ) / ((b - a : Nat) : ℚ))) ∧
    (a = b → ((applyGradients chars).getD a default).color = c0) ∧
    (a < b →
      ((applyGradients chars).getD a default).color = c0 ∧
      ((applyGradients chars).getD b default).color = c1) := by
  have hinv := gradPrefix chars a (by omega)
  obtain ⟨hT1, hT2, hT3, hT4⟩ := gradStep_at_run_start chars a b c0 c1
    ((List.range a).foldl (gradStep chars.length) ⟨chars, -1, []⟩) hinv hab
    hblen (hrun a hab le_rfl) hleft
  obtain ⟨hF1, hF2, hF3⟩ := gradStep_flush chars a b c0 c1
    (fun j => if a = b then c0
      else lerpColor c0 c1 ((j : ℚ) / ((b - a : Nat) : ℚ)))
    (gradStep chars.length
      ((List.range a).foldl (gradStep chars.length) ⟨chars, -1, []⟩) a)
    (fun j => rfl) hT1 hT2 hT3 hT4 hab hblen (hrun a hab le_rfl) hright
  have hsteady := gradLoop_steady chars a b c0 c1 hblen hrun (b - a) (a + 1)
    (gradStep chars.length
      ((List.range a).foldl (gradStep chars.length) ⟨chars, -1, []⟩) a)
    (by omega) (by omega) hT1 hT2 hT3
  have hafter := gradLoop_after chars a b
    (fun j => if a = b then c0
      else lerpColor c0 c1 ((j : ℚ) / ((b - a : Nat) : ℚ)))
    hab (chars.length - b - 1) (b + 2)
    (gradStep chars.length
      (gradStep chars.length
        ((List.range a).foldl (gradStep chars.length) ⟨chars, -1, []⟩) a)
      (b + 1))
    (by omega) hF1 hF2 hF3
  have hdecomp : List.range (chars.length + 1) =
      List.range' 0 a ++ (List.range' a 1 ++ (List.range' (a + 1) (b - a) ++
        (List.range' (b + 1) 1 ++
          List.range' (b + 2) (chars.length - b - 1)))) := by
    have hn : chars.length + 1 =
        a + (1 + ((b - a) + (1 + (chars.length - b - 1)))) := by omega
    have e0 : (0 : Nat) + a = a := by omega
    have e1 : a + 1 + (b - a) = b + 1 := by omega
    have e2 : b + 1 + 1 = b + 2 := by omega
    rw [List.range_eq_range', hn, range'_split, e0, range'_split,
      range'_split, e1, range'_split, e2]
  have hr0 : List.range' 0 a = List.range a := (List.range_eq_range' a).symm
  have hr1 : List.range' a 1 = [a] := List.range'_one
  have hr2 : List.range' (b + 1) 1 = [b + 1] := List.range'_one
  have hfold : ∀ j, j ≤ b - a →
      ((applyGradients chars).getD (a + j) default).color =
        (if a = b then c0
         else lerpColor c0 c1 ((j : ℚ) / ((b - a : Nat) : ℚ))) := by
    intro j hj
    have : applyGradients chars =
        ((List.range' (b + 2) (chars.length - b - 1)).foldl
          (gradStep chars.length)
          (gradStep chars.length
            (gradStep chars.length
              ((List.range a).foldl (gradStep chars.length) ⟨chars, -1, []⟩)
              a)
            (b + 1))).chars := by
      show ((List.range (chars.length + 1)).foldl (gradStep chars.length)
        ⟨chars, -1, []⟩).chars = _
      rw [hdecomp, hr0, hr1, hr2, List.foldl_append, List.foldl_append,
        List.foldl_append, List.foldl_append, List.foldl_cons,
        List.foldl_nil, List.foldl_cons, List.foldl_nil, hsteady]
    rw [this]
    exact hafter j hj
  refine ⟨?_, ?_, ?_⟩
  · intro j hj
    rw [hfold j hj]
    by_cases hEQ : a = b
    · rw [if_pos hEQ]
      have hj0 : j = 0 := by omega
      subst hj0
      have hz : ((0 : Nat) : ℚ) / ((b - a : Nat) : ℚ) = 0 := by simp
      rw [hz, lerpColor_zero c0 c1 hc0l hc0u]
    · rw [if_neg hEQ]
  · intro hEQ
    have h := hfold 0 (by omega)
    rw [Nat.add_zero, if_pos hEQ] at h
    exact h
  · intro hlt
    constructor
    · have h := hfold 0 (by omega)
      rw [Nat.add_zero, if_neg (by omega)] at h
      rw [h]
      have hz : ((0 : Nat) : ℚ) / ((b - a : Nat) : ℚ) = 0 := by simp
      rw [hz, lerpColor_zero c0 c1 hc0l hc0u]
    · have h := hfold (b - a) le_rfl
      have hba : a + (b - a) = b := by omega
      rw [hba, if_neg (by omega)] at h
      rw [h]
      have hone : (((b - a : Nat)) : ℚ) / ((b - a : Nat) : ℚ) = 1 := by
        rw [div_self]
        exact Nat.cast_ne_zero.mpr (by omega)
      rw [hone, lerpColor_one c0 c1 hc1l hc1u]

/-- Witness for C4: the two-character red-to-blue run `gradChars`
(`a = 0`, `b = 1`). -/
theorem gradient_run_linear_interpolation_witness :
    ((0 : Nat) ≤ 1 ∧ 1 < gradChars.length ∧
     (∀ i, i ≤ 1 → 0 ≤ i →
       gradEndsOk (gradChars.getD i default) 16711680 255 = true) ∧
     ((0 : Nat) = 0 ∨
       gradEndsOk (gradChars.getD (0 - 1) default) 16711680 255 = false) ∧
     (1 + 1 = gradChars.length ∨
       gradEndsOk (gradChars.getD (1 + 1) default) 16711680 255 = false) ∧
     (0 : Int) ≤ 16711680 ∧ (16711680 : Int) < 16777216 ∧
     (0 : Int) ≤ 255 ∧ (255 : Int) < 16777216) ∧
    ((∀ j, j ≤ 1 - 0 →
      ((applyGradients gradChars).getD (0 + j) default).color =
        lerpColor 16711680 255 ((j : ℚ) / ((1 - 0 : Nat) : ℚ))) ∧
    ((0 : Nat) = 1 → ((applyGradients gradChars).getD 0 default).color =
      16711680) ∧
    ((0 : Nat) < 1 →
      ((applyGradients gradChars).getD 0 default).color = 16711680 ∧
      ((applyGradients gradChars).getD 1 default).color = 255)) :=
  ⟨⟨by decide, by decide, by decide, by decide, by decide,
    by decide, by decide, by decide, by decide⟩,
   gradient_run_linear_interpolation gradChars 0 1 16711680 255
     (by decide) (by decide) (by decide) (by decide) (by decide)
     (by decide) (by decide) (by decide) (by decide)⟩

theorem map_listModify {α β : Type} (g : α → β) (f : α → α)
    (hf : ∀ x, g (f x) = g x) : ∀ (i : Nat) (l : List α),
    (listModify f i l).map g = l.map g := by
  intro i l
  induction l generalizing i with
  | nil => cases i <;> rfl
  | cons x xs ih =>
    cases i with
    | zero => simp [listModify, hf]
    | succ m => simp [listModify, ih]

theorem map_foldl_listModify {α β : Type} (g : α → β) (gf : Nat → α → α)
    (hf : ∀ i x, g (gf i x) = g x) : ∀ (idxs : List Nat) (l : List α),
    ((idxs.foldl (fun cs i => listModify (gf i) i cs) l)).map g = l.map g := by
  intro idxs
  induction idxs with
  | nil => intro l; rfl
  | cons i rest ih =>
    intro l
    rw [List.foldl_cons, ih, map_listModify g _ (hf i)]

theorem interpolateRegion_map_char (cs : List ParsedChar) (aa bb : Nat)
    (colors : List Int) :
    (interpolateRegion cs aa bb colors).map (fun pc => pc.char) =
      cs.map (fun pc => pc.char) := by
  simp only [interpolateRegion]
  split_ifs
  · apply map_listModify
    intro x
    rfl
  · apply map_foldl_listModify
    intro i x
    rfl

theorem gradStep_map_char (n : Nat) (s : GradState) (i : Nat) :
    (gradStep n s i).chars.map (fun pc => pc.char) =
      s.chars.map (fun pc => pc.char) := by
  simp only [gradStep]
  split_ifs <;>
    first
      | rfl
      | exact interpolateRegion_map_char _ _ _ _

theorem applyGradients_map_char (cs : List ParsedChar) :
    (applyGradients cs).map (fun pc => pc.char) =
      cs.map (fun pc => pc.char) := by
  suffices h : ∀ (idxs : List Nat) (s : GradState),
      ((idxs.foldl (gradStep cs.length) s).chars.map (fun pc => pc.char)) =
        s.chars.map (fun pc => pc.char) by
    exact h _ _
  intro idxs
  induction idxs with
  | nil => intro s; rfl
  | cons i rest ih =>
    intro s
    rw [List.foldl_cons, ih, gradStep_map_char]

theorem range_map_getD {α : Type} (d : α) : ∀ (l : List α),
    (List.range l.length).map (fun j => l.getD j d) = l := by
  intro l
  induction l with
  | nil => rfl
  | cons x xs ih =>
    rw [List.length_cons, List.range_succ_eq_map, List.map_cons, List.map_map]
    have h2 : List.map ((fun j => (x :: xs).getD j d) ∘ Nat.succ)
        (List.range xs.length) = xs := by
      have hc : ((fun j => (x :: xs).getD j d) ∘ Nat.succ) =
          fun j => xs.getD j d := rfl
      rw [hc]
      exact ih
    rw [h2]
    rfl

theorem parseStep_benign (text : List Char) (base : ℚ) (color : Int)
    (family : List Char) (k : Nat) (R : List ParsedChar)
    (hk : k < text.length) (hb : benignAt text k = true) :
    parseStep text base none
        { initPState base color family freshPersist with
            i := k, result := R } =
      { initPState base color family freshPersist with
          i := k + 1,
          result := R ++ [createParsedChar (text.getD k ' ') k
            (createDefaultStyleState base color family)] } := by
  have e_np : (initPState base color family freshPersist).noparse = false :=
    rfl
  have e_state : (initPState base color family freshPersist).state =
      createDefaultStyleState base color family := rfl
  simp only [benignAt, Bool.and_eq_true, Bool.or_eq_true,
    decide_eq_true_eq] at hb
  obtain ⟨hcr, hrest⟩ := hb
  simp only [parseStep, e_np, e_state, Bool.false_eq_true, and_false,
    if_false]
  by_cases hc : text.getD k ' ' = '<'
  · rcases hrest with hne | ⟨⟨hA, hB⟩, hC⟩
    · exact absurd hc hne
    rw [if_pos hc]
    have hBp : ¬(text.get? (k + 1) = some '/' ∧
        text.get? (k + 2) = some '#' ∧ text.get? (k + 3) = some '>') := by
      rintro ⟨p1, p2, p3⟩
      simp only [List.get?_eq_getElem?] at p1 p2 p3
      simp [p1, p2, p3] at hB
    by_cases hsh1 : text.get? (k + 1) = some '#'
    · rw [if_pos hsh1]
      cases hidx : jsIndexOfFrom text '>' (k + 2) with
      | none =>
        dsimp only
        rw [if_neg hBp]
        split
        next tag htag =>
          rw [htag] at hC
          simp only [Bool.and_eq_true, decide_eq_true_eq,
            Option.isNone_iff_eq_none] at hC
          obtain ⟨hnin, hreg⟩ := hC
          simp only [specialTagNames, List.mem_cons,
            List.not_mem_nil, or_false, not_or] at hnin
          obtain ⟨n1, n2, n3, n4, n5, n6, n7, n8, n9, n10, n11, n12, n13,
            n14⟩ := hnin
          rw [if_neg (fun hh => n1 hh.1), if_neg (fun hh => n2 hh.1),
            if_neg (fun hh => n3 hh.1), if_neg (fun hh => n4 hh.1),
            if_neg (fun hh => hh.1.elim n5 n6),
            if_neg (fun hh => n7 hh.1), if_neg (fun hh => n8 hh.1),
            if_neg (fun hh => n9 hh.1), if_neg (fun hh => n10 hh.1),
            if_neg (fun hh => n11 hh.1), if_neg (fun hh => n12 hh.1),
            if_neg (fun hh => n13 hh.1), if_neg (fun hh => n14 hh.1),
            hreg, hc]
          rfl
        next htag =>
          rw [hc]
          rfl
      | some closeIdx =>
        dsimp only
        have hok : hexShorthandOk (jsTrim (jsSubstring text (k + 2)
            closeIdx)) = false := by
          simp only [notShorthandAt, hsh1, hidx, Bool.not_eq_true'] at hA
          exact hA
        rw [hok]
        simp only [Bool.false_eq_true, if_false]
        rw [if_neg hBp]
        split
        next tag htag =>
          rw [htag] at hC
          simp only [Bool.and_eq_true, decide_eq_true_eq,
            Option.isNone_iff_eq_none] at hC
          obtain ⟨hnin, hreg⟩ := hC
          simp only [specialTagNames, List.mem_cons,
            List.not_mem_nil, or_false, not_or] at hnin
          obtain ⟨n1, n2, n3, n4, n5, n6, n7, n8, n9, n10, n11, n12, n13,
            n14⟩ := hnin
          rw [if_neg (fun hh => n1 hh.1), if_neg (fun hh => n2 hh.1),
            if_neg (fun hh => n3 hh.1), if_neg (fun hh => n4 hh.1),
            if_neg (fun hh => hh.1.elim n5 n6),
            if_neg (fun hh => n7 hh.1), if_neg (fun hh => n8 hh.1),
            if_neg (fun hh => n9 hh.1), if_neg (fun hh => n10 hh.1),
            if_neg (fun hh => n11 hh.1), if_neg (fun hh => n12 hh.1),
            if_neg (fun hh => n13 hh.1), if_neg (fun hh => n14 hh.1),
            hreg, hc]
          rfl
        next htag =>
          rw [hc]
          rfl
    · rw [if_neg hsh1]
      dsimp only
      rw [if_neg hBp]
      split
      next tag htag =>
        rw [htag] at hC
        simp only [Bool.and_eq_true, decide_eq_true_eq,
          Option.isNone_iff_eq_none] at hC
        obtain ⟨hnin, hreg⟩ := hC
        simp only [specialTagNames, List.mem_cons,
          List.not_mem_nil, or_false, not_or] at hnin
        obtain ⟨n1, n2, n3, n4, n5, n6, n7, n8, n9, n10, n11, n12, n13,
          n14⟩ := hnin
        rw [if_neg (fun hh => n1 hh.1), if_neg (fun hh => n2 hh.1),
          if_neg (fun hh => n3 hh.1), if_neg (fun hh => n4 hh.1),
          if_neg (fun hh => hh.1.elim n5 n6),
          if_neg (fun hh => n7 hh.1), if_neg (fun hh => n8 hh.1),
          if_neg (fun hh => n9 hh.1), if_neg (fun hh => n10 hh.1),
          if_neg (fun hh => n11 hh.1), if_neg (fun hh => n12 hh.1),
          if_neg (fun hh => n13 hh.1), if_neg (fun hh => n14 hh.1),
          hreg, hc]
        rfl
      next htag =>
        rw [hc]
        rfl
  · rw [if_neg hc]
    by_cases hn : text.getD k ' ' = '\n'
    · rw [if_pos hn, hn]
      rfl
    · rw [if_neg hn, if_neg hcr]
      rfl

theorem parseLoop_benign (text : List Char) (base : ℚ) (color : Int)
    (family : List Char)
    (hb : ∀ i, i < text.length → benignAt text i = true) :
    ∀ (fuel k : Nat) (R : List ParsedChar), text.length ≤ k + fuel →
      (parseLoop text base none fuel
        { initPState base color family freshPersist with
            i := k, result := R }).result =
      R ++ (List.range' k (text.length - k)).map (fun j =>
        createParsedChar (text.getD j ' ') j
          (createDefaultStyleState base color family)) := by
  intro fuel
  induction fuel with
  | zero =>
    intro k R hlen
    have h0 : text.length - k = 0 := by omega
    rw [h0]
    simp [parseLoop]
  | succ fuel ih =>
    intro k R hlen
    simp only [parseLoop]
    by_cases hk : k < text.length
    · rw [if_pos hk, parseStep_benign text base color family k R hk (hb k hk),
        ih (k + 1) (R ++ [createParsedChar (text.getD k ' ') k
          (createDefaultStyleState base color family)]) (by omega),
        List.append_assoc]
      congr 1
      have hlk : text.length - k = (text.length - (k + 1)) + 1 := by omega
      rw [hlk, List.range'_succ, List.map_cons, List.singleton_append]
    · rw [if_neg hk]
      have h0 : text.length - k = 0 := by omega
      rw [h0]
      simp

/-- C5 amended.  The round-trip holds for benign inputs: for every string
whose positions are all benign — no carriage returns, and every `<` starts
either no parsable tag at all, or a tag whose lowercased name is not one of
the parser's special names and whose FNV-1a hash misses the handler
registry (so in particular no registered name and no hash collision with
one, such as `"qreywk"` vs `"align"`), and no color shorthand — the
characters of the parse output concatenate to the input exactly: nothing
is stripped. -/
theorem unknown_or_malformed_tags_preserved
    (text : List Char) (base : ℚ) (color : Int) (family : List Char)
    (h : benignInput text = true) :
    (parseFresh text base color family).map (fun pc => pc.char) = text := by
  have hb : ∀ i, i < text.length → benignAt text i = true := by
    intro i hi
    simp only [benignInput, List.all_eq_true] at h
    exact h i (List.mem_range.mpr hi)
  show ((parse text base color family none freshPersist).1.map
    (fun pc => pc.char)) = text
  simp only [parse]
  rw [applyGradients_map_char]
  have hst0 : initPState base color family freshPersist =
      { initPState base color family freshPersist with
          i := 0, result := [] } := rfl
  rw [hst0, parseLoop_benign text base color family hb text.length 0 []
    (by omega), List.nil_append, Nat.sub_zero,
    show List.range' 0 text.length = List.range text.length from
      (List.range_eq_range' _).symm, List.map_map]
  exact range_map_getD ' ' text

/-- Witness for C5's amended claim: `"A<foo>B<"` — an unknown tag and a
dangling `<` — parses back to itself. -/
theorem unknown_or_malformed_tags_preserved_witness :
    benignInput (strL "A<foo>B<") = true ∧
    (parseFresh (strL "A<foo>B<") 32 0xffffff (strL "F")).map
      (fun pc => pc.char) = strL "A<foo>B<" :=
  ⟨by decide,
   unknown_or_malformed_tags_preserved (strL "A<foo>B<") 32 0xffffff
     (strL "F") (by decide)⟩

end PTMP
